import Mathlib

/-!
# ptouch-print: text rendering, canvas composition, raster encoding and the print-job sequencer

A shallow embedding of `ptouch-print.c`.  C `int` values are mathematical
integers; conversions to `unsigned int` and from `long` to `int` are explicit
reductions modulo `2^32`, and bytes are reduced modulo `256`.  C strings are
the UTF-8 bytes of the text.  Device calls are recorded in a trace together
with their return codes; the messages that `print_img` and `flush_print_job`
write to `stderr` are recorded in a log.  The gd image library, the font
engine and the device driver are not part of the source file and are modelled
from the specification.  Unbounded loops run on fuel.  Debug output on
`stdout` and `gdImageDestroy` are not modelled.
-/

namespace PtouchPrint

/-! ## Raster lines -/

/-- Conversion of a C `int` to `unsigned int` (`unsigned int pixel = pixl;`). -/
def to_unsigned (pixl : Int) : Nat := (pixl % 4294967296).toNat

/-- Byte index `15-(pixel/8)` used by `rasterline_setpixel`.  `pixel` is an
`unsigned int`, so the subtraction is carried out modulo `2^32`. -/
def rasterline_byte_index (pixel : Nat) : Nat :=
  (((15 : Int) - ((pixel / 8 : Nat) : Int)) % 4294967296).toNat

/-- Source function `rasterline_setpixel(uint8_t rasterline[16], int pixl)`.
The result is `none` when the indexed byte lies outside the 16-byte array
(an out-of-bounds access, undefined behaviour in C). -/
def rasterline_setpixel (rasterline : List Nat) (pixl : Int) : Option (List Nat) :=
  let pixel := to_unsigned pixl
  if pixel > 128 then
    some rasterline
  else
    let idx := rasterline_byte_index pixel
    if idx < 16 then
      some (rasterline.set idx
        ((rasterline.getD idx 0 ||| ((1 <<< (pixel % 8)) % 256)) % 256))
    else
      none

/-- A 16-byte raster line: sixteen values below 256. -/
def IsRasterLine (l : List Nat) : Prop := l.length = 16 ∧ ∀ b ∈ l, b < 256

instance (l : List Nat) : Decidable (IsRasterLine l) := by
  unfold IsRasterLine; infer_instance

/-! ## Canvases (the gd image library) -/

/-- Modelled from the spec: the canvas type `gdImage` of the gd library, which
is not part of the source file.  A canvas has a width `sx` (along the feed
direction), a height `sy`, a pixel value for every column `x` and row `y`, and
a list of allocated palette colours (red, green, blue). -/
structure gdImage where
  sx : Nat
  sy : Nat
  pixels : Nat → Nat → Nat
  colors : List (Nat × Nat × Nat)

/-- Modelled from the spec: `gdImageGetPixel`, the pixel value at column `x`,
row `y`; positions outside the canvas read as background `0`. -/
def gdImageGetPixel (im : gdImage) (x y : Nat) : Nat :=
  if x < im.sx ∧ y < im.sy then im.pixels x y else 0

/-- Modelled from the spec: `gdImageRed`, red channel of palette entry `c`. -/
def gdImageRed (im : gdImage) (c : Nat) : Nat := (im.colors.getD c (0, 0, 0)).1

/-- Modelled from the spec: `gdImageGreen`, green channel of palette entry `c`. -/
def gdImageGreen (im : gdImage) (c : Nat) : Nat := (im.colors.getD c (0, 0, 0)).2.1

/-- Modelled from the spec: `gdImageBlue`, blue channel of palette entry `c`. -/
def gdImageBlue (im : gdImage) (c : Nat) : Nat := (im.colors.getD c (0, 0, 0)).2.2

/-- Modelled from the spec: `gdImageCreatePalette(sx, sy)` allocates a canvas of
the given width and height, every pixel background (value `0`), with no colour
allocated yet.  Allocation failure (a `NULL` result) is not modelled, so the
result is always `some`. -/
def gdImageCreatePalette (sx sy : Nat) : Option gdImage :=
  some { sx := sx, sy := sy, pixels := fun _ _ => 0, colors := [] }

/-- Modelled from the spec: `gdImageColorAllocate(im, r, g, b)` appends a
palette entry; the first allocated entry (index 0) is the background. -/
def gdImageColorAllocate (im : gdImage) (r g b : Nat) : gdImage :=
  { im with colors := im.colors ++ [(r, g, b)] }

/-- Modelled from the spec: `gdImageCopy(dst, src, dstX, dstY, srcX, srcY, w, h)`
places the `w` by `h` block of `src` that starts at `(srcX, srcY)` into `dst`
at `(dstX, dstY)`, clipped to `dst`; pixel values are carried over as they
are. -/
def gdImageCopy (dst src : gdImage) (dstX dstY srcX srcY w h : Nat) : gdImage :=
  { dst with
    pixels := fun x y =>
      if dstX ≤ x ∧ x < dstX + w ∧ dstY ≤ y ∧ y < dstY + h ∧ x < dst.sx ∧ y < dst.sy then
        gdImageGetPixel src (srcX + (x - dstX)) (srcY + (y - dstY))
      else
        dst.pixels x y }

/-! ## The device and the observable world -/

/-- Device-driver operations of `ptouch.h` that the program issues. -/
inductive DevCall
  | printinfo (media_width_mm : Nat)
  | setmode (flags : Nat)
  | setadvanced (flags : Nat)
  | enable_packbits
  | rasterstart
  | sendraster (line : List Nat)
  | eject
  | ff
  deriving DecidableEq, Repr

/-- Messages the program writes to `stderr`. -/
inductive Msg
  | nothing_to_print
  | image_too_large (sx sy : Nat)
  | maximum_printing_width (tape_width : Nat)
  | rasterstart_failed
  | sendraster_failed
  | cut_with_writepng
  | printinfo_failed
  | setmode_failed
  | setadvanced_failed
  | could_not_print_image
  | eject_failed
  | ff_failed
  deriving DecidableEq, Repr

/-- Modelled from the spec: the device session `ptouch_dev` of the absent
driver library.  `tape_width` is what `ptouch_getmaxwidth` reports,
`flag_raster_packbits` is the `FLAG_RASTER_PACKBITS` bit of the device flags,
and `respond` gives the return code of a device call from the calls made (and
their return codes) so far. -/
structure ptouch_dev where
  tape_width : Nat
  flag_raster_packbits : Bool
  respond : List (DevCall × Int) → DevCall → Int

/-- What the program has done so far: device calls with their return codes, in
order, and the messages written to `stderr`. -/
structure World where
  trace : List (DevCall × Int)
  stderr : List Msg

/-- Append a message to `stderr`. -/
def World.err (w : World) (m : Msg) : World := { w with stderr := w.stderr ++ [m] }

/-- Issue one device call: the return code and the world after the call. -/
def ptouch_call (ptdev : ptouch_dev) (c : DevCall) (w : World) : Int × World :=
  (ptdev.respond w.trace c, { w with trace := w.trace ++ [(c, ptdev.respond w.trace c)] })

/-- Modelled from the spec: `ptouch_getmaxwidth`, the device's maximum
printable width in pixels. -/
def ptouch_getmaxwidth (ptdev : ptouch_dev) : Nat := ptdev.tape_width

/-! ## The raster encoder `print_img` -/

/-- The ink test of `print_img`:
`(d == 0 && pixel_value <= 127) || (d != 0 && pixel_value >= 128)`. -/
def is_ink (d pixel_value : Nat) : Bool :=
  (d == 0 && decide (pixel_value ≤ 127)) || (d != 0 && decide (pixel_value ≥ 128))

/-- One step of the inner loop of `print_img` (row counter `i` of column `k`). -/
def print_img_row (im : gdImage) (d : Nat) (offset : Int) (k : Nat)
    (rasterline : List Nat) (i : Nat) : Option (List Nat) :=
  if is_ink d (gdImageGetPixel im k (im.sy - 1 - i)) then
    rasterline_setpixel rasterline (offset + (i : Int))
  else
    some rasterline

/-- The inner loop of `print_img`: the raster line of column `k`, built from
the all-zero line (`memset`) for `i = 0 .. sy-1`. -/
def print_img_rasterline (im : gdImage) (d : Nat) (offset : Int) (k : Nat) :
    Option (List Nat) :=
  (List.range im.sy).foldlM (print_img_row im d offset k) (List.replicate 16 0)

/-- The outer loop of `print_img` over the remaining columns `ks`. -/
def print_img_columns (ptdev : ptouch_dev) (im : gdImage) (d : Nat) (offset : Int) :
    List Nat → World → Option (Int × World)
  | [], w => some (0, w)
  | k :: ks, w =>
    match print_img_rasterline im d offset k with
    | none => none
    | some rasterline =>
      let r := ptouch_call ptdev (DevCall.sendraster rasterline) w
      if r.1 ≠ 0 then
        some (-1, r.2.err Msg.sendraster_failed)
      else
        print_img_columns ptdev im d offset ks r.2

/-- Polarity detection of `print_img`: `1` when colour 1 is darker than
colour 0, else `0`. -/
def darker_index (im : gdImage) : Nat :=
  if gdImageRed im 1 + gdImageGreen im 1 + gdImageBlue im 1
      < gdImageRed im 0 + gdImageGreen im 0 + gdImageBlue im 0 then 1 else 0

/-- Source function `print_img(ptdev, im)`: the return code and the world
afterwards, or `none` when building a raster line runs into the out-of-bounds
access of `rasterline_setpixel`. -/
def print_img (ptdev : ptouch_dev) (im : Option gdImage) (w : World) : Option (Int × World) :=
  match im with
  | none => some (-1, w.err Msg.nothing_to_print)
  | some im =>
    let tape_width := ptouch_getmaxwidth ptdev
    let d := darker_index im
    if im.sy > tape_width then
      some (-1, (w.err (Msg.image_too_large im.sx im.sy)).err (Msg.maximum_printing_width tape_width))
    else
      let offset : Int := 64 - ((im.sy / 2 : Nat) : Int)
      let w1 := if ptdev.flag_raster_packbits then (ptouch_call ptdev DevCall.enable_packbits w).2 else w
      let r := ptouch_call ptdev DevCall.rasterstart w1
      if r.1 ≠ 0 then
        some (-1, r.2.err Msg.rasterstart_failed)
      else
        print_img_columns ptdev im d offset (List.range im.sx) r.2

/-! ## The print-job sequencer `flush_print_job` -/

/-- Result of `flush_print_job`: the return code, the accumulator `*out` after
the call, and the world after the call. -/
structure FlushResult where
  rc : Int
  out : Option gdImage
  world : World

/-- Source function `flush_print_job(ptdev, &out, do_precut, cut_after,
final_label, media_width_mm)`.  The global `save_png` (the file name of the
file-output mode, `NULL` when not configured) is an explicit argument.  The
result is `none` only when `print_img` runs into the out-of-bounds access. -/
def flush_print_job (save_png : Option String) (ptdev : ptouch_dev) (out : Option gdImage)
    (do_precut cut_after final_label : Bool) (media_width_mm : Nat) (w : World) :
    Option FlushResult :=
  match out with
  | none => some { rc := 0, out := none, world := w }
  | some label =>
    if save_png.isSome then
      some { rc := -1, out := some label, world := w.err Msg.cut_with_writepng }
    else
      let needs_auto_cut := do_precut || (cut_after && !final_label)
      let r1 := if needs_auto_cut then ptouch_call ptdev (DevCall.printinfo media_width_mm) w
                else (0, w)
      if r1.1 ≠ 0 then
        some { rc := -1, out := none, world := r1.2.err Msg.printinfo_failed }
      else
        let mode_flags : Nat := if needs_auto_cut then 0x40 else 0x00
        let r2 := ptouch_call ptdev (DevCall.setmode mode_flags) r1.2
        if r2.1 ≠ 0 then
          some { rc := -1, out := none, world := r2.2.err Msg.setmode_failed }
        else
          let want_chain := (!final_label) || !cut_after
          let advanced_flags : Nat := if want_chain then 0x00 else 0x08
          let r3 := ptouch_call ptdev (DevCall.setadvanced advanced_flags) r2.2
          if r3.1 ≠ 0 then
            some { rc := -1, out := none, world := r3.2.err Msg.setadvanced_failed }
          else
            match print_img ptdev (some label) r3.2 with
            | none => none
            | some r4 =>
              if r4.1 ≠ 0 then
                some { rc := -1, out := none, world := r4.2.err Msg.could_not_print_image }
              else
                let r5 := if cut_after && final_label then ptouch_call ptdev DevCall.eject r4.2
                          else ptouch_call ptdev DevCall.ff r4.2
                if r5.1 ≠ 0 then
                  some { rc := -1, out := none,
                         world := r5.2.err (if cut_after then Msg.eject_failed else Msg.ff_failed) }
                else
                  some { rc := 0, out := none, world := r5.2 }

/-! ## The canvas compositor -/

/-- Source function `img_append(in_1, in_2)`; `none` is the `NULL` canvas. -/
def img_append (in_1 in_2 : Option gdImage) : Option gdImage :=
  let width0 : Nat := match in_1 with
    | some a => a.sy
    | none => 0
  let length0 : Nat := match in_1 with
    | some a => a.sx
    | none => 0
  let i_1_x : Nat := length0
  let length : Nat := match in_2 with
    | some b => length0 + b.sx
    | none => length0
  let width : Nat := match in_2 with
    | some b => if b.sy > width0 then b.sy else width0
    | none => width0
  if width = 0 ∨ length = 0 then
    none
  else
    match gdImageCreatePalette length width with
    | none => none
    | some out0 =>
      let out1 := gdImageColorAllocate (gdImageColorAllocate out0 255 255 255) 0 0 0
      let out2 := match in_1 with
        | some a => gdImageCopy out1 a 0 0 0 0 a.sx a.sy
        | none => out1
      let out3 := match in_2 with
        | some b => gdImageCopy out2 b i_1_x 0 0 0 b.sx b.sy
        | none => out2
      some out3

/-- Source function `img_padding(tape_width, length)`. -/
def img_padding (tape_width : Nat) (length : Int) : Option gdImage :=
  let length := if length < 1 ∨ length > 256 then 1 else length
  match gdImageCreatePalette length.toNat tape_width with
  | none => none
  | some out => some (gdImageColorAllocate out 255 255 255)

/-! ## Font-size search -/

/-- Modelled from the spec: the text measurement of `gdImageStringFT` with a
`NULL` image, for a font, a point size and a string: `none` when the call
reports an error, else the bounding rectangle `brect[0..7]`. -/
structure FontEngine where
  stringFT : String → Int → String → Option (Nat → Int)

/-- The loop of `find_fontsize` with the loop counter `i` and the variable
`save`; `fuel` bounds the number of iterations, and the result is `none` when
the loop has not left within `fuel` iterations. -/
def find_fontsize_loop (ft : FontEngine) (want_px : Int) (font text : String) :
    Nat → Int → Int → Option Int
  | 0, _, _ => none
  | fuel + 1, i, save =>
    match ft.stringFT font i text with
    | none => some save
    | some brect =>
      if brect 1 - brect 5 ≤ want_px then
        find_fontsize_loop ft want_px font text fuel (i + 1) i
      else
        some save

/-- Source function `find_fontsize(want_px, font, text)`, run for at most
`fuel` loop iterations. -/
def find_fontsize (ft : FontEngine) (fuel : Nat) (want_px : Int) (font text : String) :
    Option Int :=
  match find_fontsize_loop ft want_px font text fuel 4 0 with
  | none => none
  | some save => if save = 0 then some (-1) else some save

/-- The device calls that belong to the raster transfer of `print_img`. -/
def is_raster_call : DevCall → Bool
  | DevCall.enable_packbits => true
  | DevCall.rasterstart => true
  | DevCall.sendraster _ => true
  | _ => false

/-! ## Text measurement and rendering -/

/-- The UTF-8 bytes of a code point. -/
def utf8_bytes (c : Nat) : List Nat :=
  if c < 0x80 then [c]
  else if c < 0x800 then [0xC0 + c / 64, 0x80 + c % 64]
  else if c < 0x10000 then [0xE0 + c / 4096, 0x80 + (c / 64) % 64, 0x80 + c % 64]
  else [0xF0 + c / 262144, 0x80 + (c / 4096) % 64, 0x80 + (c / 64) % 64, 0x80 + c % 64]

/-- The bytes of a C string (`char *`): the text in UTF-8, the encoding of the
source file and of the command line. -/
def c_string (s : String) : List Nat := s.data.flatMap (fun ch => utf8_bytes ch.toNat)

/-- The C library function `strpbrk(s, accept) != NULL`: some byte of `s` is one
of the bytes of `accept`. -/
def strpbrk (s accept : List Nat) : Bool := s.any (fun b => accept.contains b)

/-- What the text functions need from outside: the measurement
(`gdImageStringFT` with a `NULL` image), the drawing (`gdImageStringFT` with an
image: the new pixel content of the image), the indeterminate initial contents
of the uninitialised local arrays `brect` of `render_text` and of
`get_baselineoffset`, and the bound `fuel` on the iterations of a font-size
search. -/
structure TextEnv where
  ft : FontEngine
  draw : String → Int → Int → Int → String → gdImage → (Nat → Nat → Nat)
  brect_render : Nat → Int
  brect_baseline : Nat → Int
  fuel : Nat

/-- Source function `get_baselineoffset(text, font, fsz)`.  A failing
measurement leaves `brect` as it was. -/
def get_baselineoffset (env : TextEnv) (text font : String) (fsz : Int) : Int :=
  if strpbrk (c_string text) (c_string "QgjpqyQµ") = false then
    0
  else
    let brect1 := match env.ft.stringFT font fsz "o" with
      | some b => b
      | none => env.brect_baseline
    let tmp := brect1 1 - brect1 5
    let brect2 := match env.ft.stringFT font fsz "g" with
      | some b => b
      | none => brect1
    (brect2 1 - brect2 5) - tmp

/-- Source function `needed_width(text, font, fsz)`. -/
def needed_width (env : TextEnv) (text font : String) (fsz : Int) : Int :=
  match env.ft.stringFT font fsz text with
  | none => -1
  | some brect => brect 2 - brect 0

/-- Conversion of a C `long` to `int` (`(int)fontsize`, `(int)strtol(...)`):
reduction modulo `2^32` into the range of `int`. -/
def to_int (x : Int) : Int := (x + 2147483648) % 4294967296 - 2147483648

/-- The font-size loop of `render_text` over the remaining lines, with the
variable `fsz`: outer `none` when a search does not end within the fuel, inner
`none` when `render_text` returns `NULL` there. -/
def render_text_fsz_loop (env : TextEnv) (want_px : Int) (font : String) :
    List String → Int → Option (Option Int)
  | [], fsz => some (some fsz)
  | l :: ls, fsz =>
    match find_fontsize env.ft env.fuel want_px font l with
    | none => none
    | some tmp =>
      if tmp < 0 then
        some none
      else
        render_text_fsz_loop env want_px font ls (if fsz = 0 ∨ tmp < fsz then tmp else fsz)

/-- The font size chosen by `render_text` (the `if`/`else` on the global
`fontsize`, a `long`). -/
def render_text_fsz (env : TextEnv) (fontsize : Int) (font : String) (line : List String)
    (tape_width : Nat) : Option (Option Int) :=
  if to_int fontsize > 0 ∧ to_int fontsize = fontsize then
    some (some (to_int fontsize))
  else
    render_text_fsz_loop env ((tape_width : Int) / (line.length : Int)) font line 0

/-- The width loop of `render_text`: the variable `x` after all lines. -/
def render_text_width (env : TextEnv) (font_file : String) (fsz : Int) (line : List String) :
    Int :=
  line.foldl (fun x l => if needed_width env l font_file fsz > x
    then needed_width env l font_file fsz else x) 0

/-- The line-height loop of `render_text`: the array `brect` and the variable
`max_height` after all lines. -/
def render_text_max_height (env : TextEnv) (font : String) (fsz : Int) (line : List String) :
    (Nat → Int) × Int :=
  line.foldl (fun (st : (Nat → Int) × Int) l =>
    let brect := match env.ft.stringFT font fsz l with
      | some b => b
      | none => st.1
    (brect, if brect 1 - brect 5 > st.2 then brect 1 - brect 5 else st.2))
    (env.brect_render, 0)

/-- Modelled from the spec: `gdImageStringFT` with an image draws the text at
`(x, y)`; nothing is drawn when the call reports an error. -/
def gdImageStringFT_draw (env : TextEnv) (im : gdImage) (font : String) (fsz x y : Int)
    (text : String) : gdImage :=
  match env.ft.stringFT font fsz text with
  | none => im
  | some _ => { im with pixels := env.draw font fsz x y text im }

/-- The drawing loop of `render_text` over the remaining lines; `i` is the
index of the first of them and `lines` the number of all lines. -/
def render_text_draw (env : TextEnv) (font_file font : String) (fsz : Int) (lines : Nat)
    (tape_width : Nat) (max_height : Int) : List String → Nat → gdImage → gdImage
  | [], _, im => im
  | l :: ls, i, im =>
    let ofs := get_baselineoffset env l font_file fsz
    let pos := (i : Int) * ((tape_width : Int) / (lines : Int)) + max_height - ofs - 1
    render_text_draw env font_file font fsz lines tape_width max_height ls (i + 1)
      (gdImageStringFT_draw env im font fsz 0 pos l)

/-- Source function `render_text(font, line, lines, tape_width)`; the globals
`font_file` and `fontsize` are explicit arguments.  Outer `none`: a font-size
search does not end within the fuel; inner `none`: the `NULL` result. -/
def render_text (env : TextEnv) (font_file : String) (fontsize : Int) (font : String)
    (line : List String) (tape_width : Nat) : Option (Option gdImage) :=
  match render_text_fsz env fontsize font line tape_width with
  | none => none
  | some none => some none
  | some (some fsz) =>
    let x := render_text_width env font_file fsz line
    match gdImageCreatePalette x.toNat tape_width with
    | none => some none
    | some im0 =>
      let im := gdImageColorAllocate (gdImageColorAllocate im0 255 255 255) 0 0 0
      let max_height := (render_text_max_height env font fsz line).2
      some (some (render_text_draw env font_file font fsz line.length tape_width max_height
        line 0 im))

/-- Source function `img_cutmark(tape_width)`.  Modelled from the spec: the
styled `gdImageLine` from `(5, 0)` to `(5, tape_width-1)` draws a vertical
dashed line, three background pixels then three ink pixels (colour index 1),
repeated. -/
def img_cutmark (tape_width : Nat) : Option gdImage :=
  match gdImageCreatePalette 9 tape_width with
  | none => none
  | some out0 =>
    let out := gdImageColorAllocate (gdImageColorAllocate out0 255 255 255) 0 0 0
    some { out with pixels := fun x y =>
      if x = 5 ∧ y < tape_width ∧ 3 ≤ y % 6 then 1 else out.pixels x y }

/-! ## The command loop of `main` -/

/-- The print commands and options of the command line, as the loop of `main`
reads them (`parse_args` has rejected malformed command lines before).
`fontsize` and `pad` carry the value that `strtol` returns, a `long`; `text`
carries the lines collected after `--text` (at most `MAX_LINES`). -/
inductive Command
  | font (file : String)
  | fontsize (value : Int)
  | writepng (file : String)
  | info
  | image (file : String)
  | text (line : List String)
  | cutmark
  | pad (value : Int)
  | debug
  | cut
  | no_precut
  | no_postcut

/-- What `main` needs from outside: the text environment, the result of
`image_load` for a file name (`none` for `NULL`), and the media width that the
device status reports (`ptdev->status->media_width`). -/
structure MainEnv where
  text : TextEnv
  image_load : String → Option gdImage
  media_width : Nat

/-- A call of `flush_print_job` with a pending canvas, kept as a record of the
run: the three flags, the return code, and the device calls made by it. -/
structure FlushRecord where
  do_precut : Bool
  cut_after : Bool
  final_label : Bool
  rc : Int
  calls : List (DevCall × Int)

/-- The variables of `main` and the globals it sets, the world, the record of
the flushes made with a pending canvas, and the images written by
`write_png`. -/
structure MainState where
  font_file : String
  fontsize : Int
  save_png : Option String
  do_precut : Bool
  do_postcut : Bool
  out : Option gdImage
  world : World
  flushes : List FlushRecord
  written : List (String × gdImage)

/-- The state of `main` before its command loop. -/
def MainState.init (w : World) : MainState :=
  { font_file := "Helvetica", fontsize := 0, save_png := none, do_precut := true,
    do_postcut := true, out := none, world := w, flushes := [], written := [] }

/-- A call `flush_print_job(ptdev, &out, do_precut, cut_after, final_label,
ptdev->status->media_width)` from `main`: the return code and the state
afterwards; a call with a pending canvas is added to the record. -/
def main_flush (env : MainEnv) (ptdev : ptouch_dev) (st : MainState)
    (cut_after final_label : Bool) : Option (Int × MainState) :=
  match flush_print_job st.save_png ptdev st.out st.do_precut cut_after final_label
      env.media_width st.world with
  | none => none
  | some r =>
    some (r.rc,
      { st with
        out := r.out
        world := r.world
        flushes :=
          if st.out.isSome then
            st.flushes ++ [{ do_precut := st.do_precut, cut_after := cut_after,
                             final_label := final_label, rc := r.rc,
                             calls := r.world.trace.drop st.world.trace.length }]
          else st.flushes })

/-- How the command loop of `main` ends: by a `return` or `exit` inside the
loop, or by running to its end. -/
inductive LoopResult
  | exited (code : Int) (st : MainState)
  | done (st : MainState)

/-- The command loop of `main` (the `for` loop over `argv`) on the remaining
commands.  The result is `none` when `render_text` or `flush_print_job` has no
result.  Messages that `main`, `image_load` and `render_text` write are not
recorded. -/
def main_loop (env : MainEnv) (ptdev : ptouch_dev) : List Command → MainState → Option LoopResult
  | [], st => some (LoopResult.done st)
  | Command.font file :: rest, st => main_loop env ptdev rest { st with font_file := file }
  | Command.fontsize value :: rest, st => main_loop env ptdev rest { st with fontsize := value }
  | Command.writepng file :: rest, st => main_loop env ptdev rest { st with save_png := some file }
  | Command.info :: _, st => some (LoopResult.exited 0 st)
  | Command.image file :: rest, st =>
    match env.image_load file with
    | none => some (LoopResult.exited 1 st)
    | some im => main_loop env ptdev rest { st with out := img_append st.out (some im) }
  | Command.text line :: rest, st =>
    if line.length = 0 then
      main_loop env ptdev rest st
    else
      match render_text env.text st.font_file st.fontsize st.font_file line
          (ptouch_getmaxwidth ptdev) with
      | none => none
      | some none => some (LoopResult.exited 1 st)
      | some (some im) => main_loop env ptdev rest { st with out := img_append st.out (some im) }
  | Command.cutmark :: rest, st =>
    main_loop env ptdev rest
      { st with out := img_append st.out (img_cutmark (ptouch_getmaxwidth ptdev)) }
  | Command.pad value :: rest, st =>
    main_loop env ptdev rest
      { st with out := img_append st.out (img_padding (ptouch_getmaxwidth ptdev) (to_int value)) }
  | Command.debug :: rest, st => main_loop env ptdev rest st
  | Command.cut :: rest, st =>
    if st.save_png.isSome then
      some (LoopResult.exited 1 st)
    else
      match main_flush env ptdev st true false with
      | none => none
      | some r => if r.1 ≠ 0 then some (LoopResult.exited (-1) r.2) else main_loop env ptdev rest r.2
  | Command.no_precut :: rest, st => main_loop env ptdev rest { st with do_precut := false }
  | Command.no_postcut :: rest, st => main_loop env ptdev rest { st with do_postcut := false }

/-- The end of `main` after the command loop (`if (out) ...`): the exit code
and the final state. -/
def main_finish (env : MainEnv) (ptdev : ptouch_dev) (st : MainState) : Option (Int × MainState) :=
  match st.out with
  | none => some (0, st)
  | some out =>
    match st.save_png with
    | some file => some (0, { st with out := none, written := st.written ++ [(file, out)] })
    | none =>
      match main_flush env ptdev st st.do_postcut true with
      | none => none
      | some r => if r.1 ≠ 0 then some (-1, r.2) else some (0, r.2)

/-- The command loop of `main` followed by its end: the exit code and the
final state. -/
def main_commands (env : MainEnv) (ptdev : ptouch_dev) (cmds : List Command) (st : MainState) :
    Option (Int × MainState) :=
  match main_loop env ptdev cmds st with
  | none => none
  | some (LoopResult.exited code st2) => some (code, st2)
  | some (LoopResult.done st2) => main_finish env ptdev st2

/-- The canvas with the first two palette entries exchanged and every pixel
value `v` replaced by `255 - v`. -/
def swap_polarity (im : gdImage) : gdImage :=
  { im with
    pixels := fun x y => 255 - im.pixels x y
    colors := match im.colors with
      | c0 :: c1 :: rest => c1 :: c0 :: rest
      | cs => cs }

/-- The state of `main` at the end of the command loop, however it ended. -/
def LoopResult.state : LoopResult → MainState
  | LoopResult.exited _ st => st
  | LoopResult.done st => st

/-! ## The call order of a flush, in the words of the specification -/

/-- The complete sequence of device calls of a flush as the specification
lists it: printinfo (only when the cutter is armed), setmode, setadvanced,
enable-packbits (only when the device has the packbits flag), rasterstart, one
sendraster per raster line, then eject or form-feed. -/
def spec_flush_call_sequence (packbits do_precut cut_after final_label : Bool)
    (media_width_mm : Nat) (lines : List (List Nat)) : List DevCall :=
  (if (do_precut || (cut_after && !final_label)) = true
    then [DevCall.printinfo media_width_mm] else []) ++
  [DevCall.setmode (if (do_precut || (cut_after && !final_label)) = true then 0x40 else 0x00),
   DevCall.setadvanced (if ((!final_label) || !cut_after) = true then 0x00 else 0x08)] ++
  ((if packbits = true then [DevCall.enable_packbits] else []) ++ [DevCall.rasterstart] ++
    lines.map DevCall.sendraster) ++
  [if (cut_after && final_label) = true then DevCall.eject else DevCall.ff]

/-- Issuing device calls in order after the trace `tr`, stopping at the first
call that fails; the return code of enable-packbits is not looked at.  The
result is the return code of the failing call (0 when none failed) and the
trace afterwards. -/
def spec_issue_in_order (ptdev : ptouch_dev) :
    List DevCall → List (DevCall × Int) → Int × List (DevCall × Int)
  | [], tr => (0, tr)
  | c :: cs, tr =>
    if ptdev.respond tr c ≠ 0 ∧ c ≠ DevCall.enable_packbits then
      (ptdev.respond tr c, tr ++ [(c, ptdev.respond tr c)])
    else
      spec_issue_in_order ptdev cs (tr ++ [(c, ptdev.respond tr c)])

/-- The number of eject calls in a trace of device calls. -/
def eject_count (tr : List (DevCall × Int)) : Nat :=
  tr.countP (fun e => decide (e.1 = DevCall.eject))

/-! ## Concrete devices and canvases used to instantiate the theorems -/

/-- A device with the given maximum printable width on which every call
succeeds. -/
def example_device (tape_width : Nat) (packbits : Bool) : ptouch_dev :=
  { tape_width := tape_width, flag_raster_packbits := packbits, respond := fun _ _ => 0 }

/-- A blank canvas of the given size with the palette white, black. -/
def example_canvas (sx sy : Nat) : gdImage :=
  { sx := sx, sy := sy, pixels := fun _ _ => 0, colors := [(255, 255, 255), (0, 0, 0)] }

/-- A device with the given maximum printable width on which form-feed fails
and every other call succeeds. -/
def example_device_ff_fails (tape_width : Nat) : ptouch_dev :=
  { tape_width := tape_width, flag_raster_packbits := false,
    respond := fun _ c => if c = DevCall.ff then -1 else 0 }

/-- A canvas whose pixel at column `x`, row `y` has the value `x + 2 * y + 1`. -/
def example_pattern (sx sy : Nat) : gdImage :=
  { sx := sx, sy := sy, pixels := fun x y => x + 2 * y + 1,
    colors := [(255, 255, 255), (0, 0, 0)] }

/-- A font engine in which a text measured at size `n` is `n` pixels high and
`3 * n` wide, and sizes above 40 cannot be measured. -/
def example_font : FontEngine :=
  { stringFT := fun _ fsz _ =>
      if fsz ≤ 40 then some (fun k => if k = 1 then fsz else if k = 2 then 3 * fsz else 0)
      else none }

/-- A canvas of the given size, palette white, black, whose every pixel has
the value 255, which `print_img` classifies as ink for this palette. -/
def example_solid (sx sy : Nat) : gdImage :=
  { sx := sx, sy := sy, pixels := fun _ _ => 255, colors := [(255, 255, 255), (0, 0, 0)] }

/-- The world at program start: no device call made, nothing written. -/
def World.init : World := { trace := [], stderr := [] }

/-- A font engine in which every text measured at size `n` is `3 * n` wide and
`n` high, except the text `g`, which reaches 3 pixels below the baseline and is
`n + 3` high. -/
def example_descender_font : FontEngine :=
  { stringFT := fun _ fsz text =>
      some (fun k => if k = 1 then (if text = "g" then 3 else 0)
        else if k = 2 then 3 * fsz else if k = 5 then -fsz else 0) }

/-- A text environment with the given font engine, a drawing that leaves the
image as it is, zeroed `brect` arrays and 64 iterations for a font-size
search. -/
def example_text_env (ft : FontEngine) : TextEnv :=
  { ft := ft, draw := fun _ _ _ _ _ im => im.pixels, brect_render := fun _ => 0,
    brect_baseline := fun _ => 0, fuel := 64 }

/-- A font engine whose every measurement fails. -/
def example_failing_font : FontEngine := { stringFT := fun _ _ _ => none }

/-- A font engine in which every text is 2 pixels wide and, at size `n`, `n`
pixels high, and sizes above 40 cannot be measured. -/
def example_narrow_font : FontEngine :=
  { stringFT := fun _ fsz _ =>
      if fsz ≤ 40 then some (fun k => if k = 1 then fsz else if k = 2 then 2 else 0)
      else none }

/-- An environment of `main` with the narrow example font, in which every
image file holds the given image, and a 12 mm tape. -/
def example_main_env (im : gdImage) : MainEnv :=
  { text := example_text_env example_narrow_font, image_load := fun _ => some im,
    media_width := 12 }

/-- A device with the packbits flag on which enable-packbits returns -1 and
every other call succeeds. -/
def example_device_packbits_fails (tape_width : Nat) : ptouch_dev :=
  { tape_width := tape_width, flag_raster_packbits := true,
    respond := fun _ c => if c = DevCall.enable_packbits then -1 else 0 }

/-- A canvas one pixel wide and 129 pixels high, palette white, black, whose
only ink pixel (value 255) is the one in row 0. -/
def example_dot : gdImage :=
  { sx := 1, sy := 129, pixels := fun x y => if x = 0 ∧ y = 0 then 255 else 0,
    colors := [(255, 255, 255), (0, 0, 0)] }

/-- A font engine in which every text measured at size `n` is `n` pixels high
and every size can be measured. -/
def example_unbounded_font : FontEngine :=
  { stringFT := fun _ fsz _ => some (fun k => if k = 1 then fsz else 0) }

/-! ## Theorems: raster lines -/

theorem to_unsigned_of_nonneg (n : Nat) (h : n < 4294967296) : to_unsigned (n : Int) = n := by
  unfold to_unsigned
  have : ((n : Int) % 4294967296) = n := Int.emod_eq_of_lt (by omega) (by omega)
  rw [this]; simp

theorem to_unsigned_of_neg (p : Int) (h0 : p < 0) (h1 : -2147483648 ≤ p) :
    to_unsigned p = (p + 4294967296).toNat := by
  unfold to_unsigned
  have : p % 4294967296 = p + 4294967296 := by omega
  rw [this]

theorem rasterline_setpixel_in_range (L : List Nat) (n : Nat) (hn : n < 128) :
    rasterline_setpixel L (n : Int) =
      some (L.set (15 - n / 8) ((L.getD (15 - n / 8) 0 ||| ((1 <<< (n % 8)) % 256)) % 256)) := by
  have hu := to_unsigned_of_nonneg n (by omega)
  have hidx : rasterline_byte_index n = 15 - n / 8 := by
    unfold rasterline_byte_index; omega
  simp only [rasterline_setpixel, hu, hidx]
  rw [if_neg (by omega), if_pos (by omega)]

theorem byte_or_bit_testBit (b k j : Nat) (hb : b < 256) (hk : k < 8) :
    ((b ||| ((1 <<< k) % 256)) % 256).testBit j = (b.testBit j || decide (j = k)) := by
  have h1 : (1 <<< k) % 256 = 2 ^ k := by
    rw [Nat.one_shiftLeft]
    exact Nat.mod_eq_of_lt (by
      have : 2 ^ k < 2 ^ 8 := Nat.pow_lt_pow_right (by norm_num) hk
      simpa using this)
  have h2 : (256 : Nat) = 2 ^ 8 := by norm_num
  rw [h1, h2, Nat.testBit_mod_two_pow, Nat.testBit_or, Nat.testBit_two_pow]
  by_cases hj : j < 8
  · simp [hj, eq_comm]
  · have hbj : b.testBit j = false := by
      apply Nat.testBit_lt_two_pow
      calc b < 2 ^ 8 := by simpa using hb
        _ ≤ 2 ^ j := Nat.pow_le_pow_right (by norm_num) (by omega)
    have : ¬ j = k := by omega
    simp [hj, hbj, this]

theorem byte_or_bit_lt (b k : Nat) : (b ||| ((1 <<< k) % 256)) % 256 < 256 :=
  Nat.mod_lt _ (by norm_num)

theorem getD_set_eq_ite (L : List Nat) (i j v : Nat) (hi : i < L.length) :
    (L.set i v).getD j 0 = if j = i then v else L.getD j 0 := by
  simp only [List.getD_eq_getElem?_getD, List.getElem?_set]
  by_cases h : i = j
  · subst h; simp [hi]
  · have h2 : ¬ j = i := fun e => h e.symm
    simp [h, h2]

/-- C1: for a 16-byte raster line `L` and a position `0 ≤ p < 128`,
`rasterline_setpixel` returns the line that equals `L` except that bit
`p mod 8` of byte `15 - p div 8` is set; every other bit of every byte is
unchanged. -/
theorem rasterline_setpixel_sets_bit (L : List Nat) (p : Int) (hL : IsRasterLine L)
    (h0 : 0 ≤ p) (h1 : p < 128) :
    ∃ L2, rasterline_setpixel L p = some L2 ∧ IsRasterLine L2 ∧
      ∀ idx bit, idx < 16 →
        (L2.getD idx 0).testBit bit =
          ((L.getD idx 0).testBit bit ||
            (decide (idx = 15 - p.toNat / 8) && decide (bit = p.toNat % 8))) := by
  obtain ⟨n, rfl⟩ := Int.eq_ofNat_of_zero_le h0
  have hn : n < 128 := by omega
  obtain ⟨hlen, hbytes⟩ := hL
  refine ⟨_, rasterline_setpixel_in_range L n hn, ⟨by simp [hlen], ?_⟩, ?_⟩
  · intro b hb
    rcases List.mem_or_eq_of_mem_set hb with h | h
    · exact hbytes b h
    · rw [h]; exact byte_or_bit_lt _ _
  · intro idx bit _
    have hi : 15 - n / 8 < L.length := by omega
    rw [getD_set_eq_ite L _ idx _ hi]
    simp only [Int.toNat_ofNat]
    by_cases h : idx = 15 - n / 8
    · subst h
      have hb : L.getD (15 - n / 8) 0 < 256 := by
        rw [List.getD_eq_getElem?_getD, List.getElem?_eq_getElem hi]
        exact hbytes _ (List.getElem_mem _)
      rw [if_pos rfl, byte_or_bit_testBit _ _ bit hb (Nat.mod_lt n (by norm_num))]
      simp
    · simp [h]

/-- C1 (witness): position 10 on the all-zero line. -/
theorem rasterline_setpixel_sets_bit_witness :
    IsRasterLine (List.replicate 16 0) ∧ (0 : Int) ≤ 10 ∧ (10 : Int) < 128 ∧
    ∃ L2, rasterline_setpixel (List.replicate 16 0) 10 = some L2 ∧ IsRasterLine L2 ∧
      ∀ idx bit, idx < 16 →
        (L2.getD idx 0).testBit bit =
          (((List.replicate 16 0).getD idx 0).testBit bit ||
            (decide (idx = 15 - (10 : Int).toNat / 8) && decide (bit = (10 : Int).toNat % 8))) :=
  ⟨by decide, by decide, by decide,
    rasterline_setpixel_sets_bit (List.replicate 16 0) 10 (by decide) (by decide) (by decide)⟩

theorem rasterline_setpixel_skip_above (L : List Nat) (p : Int) (h0 : 128 < p)
    (h1 : p < 2147483648) : rasterline_setpixel L p = some L := by
  obtain ⟨n, rfl⟩ := Int.eq_ofNat_of_zero_le (by omega : 0 ≤ p)
  have hu := to_unsigned_of_nonneg n (by omega)
  simp only [rasterline_setpixel, hu]
  rw [if_pos (by omega)]

theorem rasterline_setpixel_skip_negative (L : List Nat) (p : Int) (h0 : p < 0)
    (h1 : -2147483648 ≤ p) : rasterline_setpixel L p = some L := by
  have hu := to_unsigned_of_neg p h0 h1
  simp only [rasterline_setpixel, hu]
  rw [if_pos (by omega)]

/-- C2 (the code at the failing input): position 128 passes the guard
`pixel > 128`, the byte index `15-(128/8)`, computed in `unsigned int`, is
`4294967295` (that is `-1` modulo `2^32`), and the access falls outside the
16-byte line, whatever the line holds. -/
theorem rasterline_setpixel_128_out_of_bounds :
    decide (to_unsigned 128 > 128) = false ∧
    rasterline_byte_index (to_unsigned 128) = 4294967295 ∧
    ∀ L : List Nat, rasterline_setpixel L 128 = none := by
  refine ⟨by decide, by decide, ?_⟩
  intro L
  have hu : to_unsigned 128 = 128 := by decide
  have hi : rasterline_byte_index 128 = 4294967295 := by decide
  simp only [rasterline_setpixel, hu, hi]
  rw [if_neg (by omega), if_neg (by omega)]

/-! ## Theorems: the raster encoder -/

theorem print_img_columns_spec (ptdev : ptouch_dev) (im : gdImage) (d : Nat) (offset : Int) :
    ∀ (ks : List Nat) (w : World) (r : Int × World),
      print_img_columns ptdev im d offset ks w = some r →
      ∃ evs, r.2.trace = w.trace ++ evs ∧
        (∀ e ∈ evs, ∃ line, e.1 = DevCall.sendraster line) ∧
        (r.1 = 0 ↔ ∀ e ∈ evs, e.2 = 0) := by
  intro ks
  induction ks with
  | nil =>
    intro w r h
    simp only [print_img_columns, Option.some.injEq] at h
    subst h
    exact ⟨[], by simp, by simp, by simp⟩
  | cons k ks ih =>
    intro w r h
    simp only [print_img_columns] at h
    cases hl : print_img_rasterline im d offset k with
    | none => simp [hl] at h
    | some line =>
      simp only [hl] at h
      by_cases hrc : (ptouch_call ptdev (DevCall.sendraster line) w).1 = 0
      · rw [if_neg (by simpa using hrc)] at h
        obtain ⟨evs, h1, h2, h3⟩ := ih _ r h
        refine ⟨(DevCall.sendraster line, ptdev.respond w.trace (DevCall.sendraster line)) :: evs,
          ?_, ?_, ?_⟩
        · rw [h1]; simp [ptouch_call]
        · intro e he
          rcases List.mem_cons.mp he with rfl | he
          · exact ⟨line, rfl⟩
          · exact h2 e he
        · rw [h3]
          constructor
          · intro hall e he
            rcases List.mem_cons.mp he with rfl | he
            · exact hrc
            · exact hall e he
          · intro hall e he
            exact hall e (List.mem_cons_of_mem _ he)
      · rw [if_pos hrc] at h
        simp only [Option.some.injEq] at h
        subst h
        refine ⟨[(DevCall.sendraster line, ptdev.respond w.trace (DevCall.sendraster line))],
          by simp [ptouch_call, World.err], ?_, ?_⟩
        · intro e he
          rw [List.mem_singleton] at he
          exact ⟨line, by rw [he]⟩
        · constructor
          · intro h0; simp at h0
          · intro hall
            exact absurd (hall _ (List.mem_singleton.mpr rfl)) hrc

theorem print_img_spec (ptdev : ptouch_dev) (im : gdImage) (w : World) (r : Int × World)
    (h : print_img ptdev (some im) w = some r) :
    ∃ evs, r.2.trace = w.trace ++ evs ∧
      (∀ e ∈ evs, is_raster_call e.1 = true) ∧
      (r.1 = 0 ↔ im.sy ≤ ptouch_getmaxwidth ptdev ∧
        ∀ e ∈ evs, e.1 ≠ DevCall.enable_packbits → e.2 = 0) := by
  simp only [print_img] at h
  by_cases hfit : im.sy > ptouch_getmaxwidth ptdev
  · rw [if_pos hfit] at h
    simp only [Option.some.injEq] at h
    subst h
    refine ⟨[], by simp [World.err], by simp, ?_⟩
    constructor
    · intro h0; simp at h0
    · intro hh; omega
  · rw [if_neg hfit] at h
    -- the world after the optional packbits call
    generalize hw1 : (if ptdev.flag_raster_packbits = true
        then (ptouch_call ptdev DevCall.enable_packbits w).2 else w) = w1 at h
    have hpre : ∃ pre, w1.trace = w.trace ++ pre ∧
        ∀ e ∈ pre, e.1 = DevCall.enable_packbits := by
      by_cases hp : ptdev.flag_raster_packbits = true
      · rw [if_pos hp] at hw1
        subst hw1
        exact ⟨[(DevCall.enable_packbits, ptdev.respond w.trace DevCall.enable_packbits)],
          by simp [ptouch_call], by simp⟩
      · rw [if_neg hp] at hw1
        subst hw1
        exact ⟨[], by simp, by simp⟩
    obtain ⟨pre, hpre1, hpre2⟩ := hpre
    by_cases hrc : (ptouch_call ptdev DevCall.rasterstart w1).1 = 0
    · rw [if_neg (by simpa using hrc)] at h
      obtain ⟨evs, h1, h2, h3⟩ := print_img_columns_spec ptdev im _ _ _ _ r h
      refine ⟨pre ++ (DevCall.rasterstart, ptdev.respond w1.trace DevCall.rasterstart) :: evs,
        ?_, ?_, ?_⟩
      · rw [h1]; simp [ptouch_call, hpre1]
      · intro e he
        rcases List.mem_append.mp he with he | he
        · rw [hpre2 e he]; rfl
        · rcases List.mem_cons.mp he with rfl | he
          · rfl
          · obtain ⟨line, hl⟩ := h2 e he
            rw [hl]; rfl
      · rw [h3]
        constructor
        · intro hall
          refine ⟨by omega, ?_⟩
          intro e he hne
          rcases List.mem_append.mp he with he | he
          · exact absurd (hpre2 e he) hne
          · rcases List.mem_cons.mp he with rfl | he
            · exact hrc
            · exact hall e he
        · rintro ⟨_, hall⟩ e he
          obtain ⟨line, hl⟩ := h2 e he
          exact hall e (List.mem_append_right _ (List.mem_cons_of_mem _ he)) (by rw [hl]; simp)
    · rw [if_pos hrc] at h
      simp only [Option.some.injEq] at h
      subst h
      refine ⟨pre ++ [(DevCall.rasterstart, ptdev.respond w1.trace DevCall.rasterstart)],
        by simp [ptouch_call, World.err, hpre1], ?_, ?_⟩
      · intro e he
        rcases List.mem_append.mp he with he | he
        · rw [hpre2 e he]; rfl
        · rw [List.mem_singleton] at he
          rw [he]; rfl
      · constructor
        · intro h0; simp at h0
        · rintro ⟨_, hall⟩
          exact absurd (hall _ (List.mem_append_right _ (List.mem_singleton.mpr rfl))
            (by simp)) hrc

theorem print_img_rows_defined (im : gdImage) (d : Nat) (offset : Int) (k : Nat) :
    ∀ (rows : List Nat) (acc : List Nat),
      (∀ i ∈ rows, 0 ≤ offset + (i : Int) ∧ offset + (i : Int) < 128) →
      ∃ line, rows.foldlM (print_img_row im d offset k) acc = some line := by
  intro rows
  induction rows with
  | nil => intro acc _; exact ⟨acc, rfl⟩
  | cons i rows ih =>
    intro acc hpos
    obtain ⟨h0, h1⟩ := hpos i (List.mem_cons_self _ _)
    obtain ⟨n, hn⟩ := Int.eq_ofNat_of_zero_le h0
    have hstep : ∃ acc2, print_img_row im d offset k acc i = some acc2 := by
      unfold print_img_row
      by_cases hink : is_ink d (gdImageGetPixel im k (im.sy - 1 - i)) = true
      · rw [if_pos hink, hn]
        exact ⟨_, rasterline_setpixel_in_range acc n (by omega)⟩
      · rw [if_neg hink]
        exact ⟨acc, rfl⟩
    obtain ⟨acc2, hacc2⟩ := hstep
    obtain ⟨line, hline⟩ := ih acc2 (fun j hj => hpos j (List.mem_cons_of_mem _ hj))
    exact ⟨line, by simp [List.foldlM_cons, hacc2, hline]⟩

theorem print_img_rasterline_defined (im : gdImage) (d k : Nat) (h : im.sy ≤ 128) :
    ∃ line, print_img_rasterline im d (64 - ((im.sy / 2 : Nat) : Int)) k = some line := by
  unfold print_img_rasterline
  apply print_img_rows_defined
  intro i hi
  have := List.mem_range.mp hi
  omega

theorem print_img_columns_defined (ptdev : ptouch_dev) (im : gdImage) (d : Nat) (offset : Int)
    (hdef : ∀ k, ∃ line, print_img_rasterline im d offset k = some line) :
    ∀ (ks : List Nat) (w : World), ∃ r, print_img_columns ptdev im d offset ks w = some r := by
  intro ks
  induction ks with
  | nil => intro w; exact ⟨(0, w), rfl⟩
  | cons k ks ih =>
    intro w
    obtain ⟨line, hl⟩ := hdef k
    simp only [print_img_columns, hl]
    by_cases hrc : (ptouch_call ptdev (DevCall.sendraster line) w).1 = 0
    · rw [if_neg (by simpa using hrc)]
      exact ih _
    · rw [if_pos hrc]
      exact ⟨_, rfl⟩

theorem print_img_defined (ptdev : ptouch_dev) (im : gdImage) (w : World) (h : im.sy ≤ 128) :
    ∃ r, print_img ptdev (some im) w = some r := by
  simp only [print_img]
  by_cases hfit : im.sy > ptouch_getmaxwidth ptdev
  · rw [if_pos hfit]; exact ⟨_, rfl⟩
  · rw [if_neg hfit]
    generalize (if ptdev.flag_raster_packbits = true
        then (ptouch_call ptdev DevCall.enable_packbits w).2 else w) = w1
    by_cases hrc : (ptouch_call ptdev DevCall.rasterstart w1).1 = 0
    · rw [if_neg (by simpa using hrc)]
      exact print_img_columns_defined ptdev im _ _
        (fun k => print_img_rasterline_defined im _ k h) _ _
    · rw [if_pos hrc]
      exact ⟨_, rfl⟩

/-- On a device that reports a maximum width of 130, a canvas of height 130
passes the size check, and its ink pixel in row counter `i = 129` is sent to
position `64 - 65 + 129 = 128`: `print_img` runs into the out-of-bounds access
of `rasterline_setpixel`. -/
theorem print_img_reaches_position_128 :
    print_img_rasterline (example_solid 1 130) (darker_index (example_solid 1 130))
      (64 - ((130 / 2 : Nat) : Int)) 0 = none ∧
    (print_img (example_device 130 false) (some (example_solid 1 130)) World.init).isNone
      = true := by
  constructor <;> decide

/-! ## Theorems: the print-job sequencer -/

theorem flush_print_job_spec (ptdev : ptouch_dev) (label : gdImage)
    (do_precut cut_after final_label : Bool) (media_width_mm : Nat) (w : World)
    (r : FlushResult)
    (h : flush_print_job none ptdev (some label) do_precut cut_after final_label
      media_width_mm w = some r) :
    r.out = none ∧
    ∃ evs, r.world.trace = w.trace ++ evs ∧
      (r.rc = 0 ↔ label.sy ≤ ptouch_getmaxwidth ptdev ∧
        ∀ e ∈ evs, e.1 ≠ DevCall.enable_packbits → e.2 = 0) ∧
      (r.rc = 0 → ∃ raster,
        evs = (if (do_precut || (cut_after && !final_label)) = true
                then [(DevCall.printinfo media_width_mm, (0 : Int))] else []) ++
              [(DevCall.setmode (if (do_precut || (cut_after && !final_label)) = true
                  then 0x40 else 0x00), (0 : Int)),
               (DevCall.setadvanced (if ((!final_label) || !cut_after) = true
                  then 0x00 else 0x08), (0 : Int))] ++
              raster ++
              [(if (cut_after && final_label) = true then DevCall.eject else DevCall.ff,
                (0 : Int))] ∧
        ∀ e ∈ raster, is_raster_call e.1 = true) := by
  simp only [flush_print_job, Option.isSome_none, Bool.false_eq_true, if_false] at h
  -- step 1: printinfo when the cutter is armed
  generalize hr1 : (if (do_precut || (cut_after && !final_label)) = true
      then ptouch_call ptdev (DevCall.printinfo media_width_mm) w else (0, w)) = r1 at h
  have h1 : ∃ pre, r1.2.trace = w.trace ++ pre ∧
      (r1.1 = 0 ↔ ∀ e ∈ pre, e.2 = 0) ∧
      (∀ e ∈ pre, e.1 ≠ DevCall.enable_packbits) ∧
      (r1.1 = 0 → pre = (if (do_precut || (cut_after && !final_label)) = true
                then [(DevCall.printinfo media_width_mm, (0 : Int))] else [])) := by
    by_cases ha : (do_precut || (cut_after && !final_label)) = true
    · rw [if_pos ha] at hr1
      subst hr1
      refine ⟨[(DevCall.printinfo media_width_mm,
        ptdev.respond w.trace (DevCall.printinfo media_width_mm))], by simp [ptouch_call],
        by simp [ptouch_call], by simp, ?_⟩
      intro h0
      rw [if_pos ha]
      simp only [ptouch_call] at h0
      rw [h0]
    · rw [if_neg ha] at hr1
      subst hr1
      exact ⟨[], by simp, by simp, by simp, by simp [ha]⟩
  obtain ⟨pre, hp1, hp2, hp3, hp4⟩ := h1
  by_cases hrc1 : r1.1 = 0
  swap
  · rw [if_pos hrc1] at h
    simp only [Option.some.injEq] at h
    subst h
    refine ⟨rfl, pre, by simp [World.err, hp1], ?_, ?_⟩
    · constructor
      · intro h0; simp at h0
      · rintro ⟨_, hall⟩
        exact absurd (hp2.mpr (fun e he => hall e he (hp3 e he))) hrc1
    · intro h0; simp at h0
  rw [if_neg (by simpa using hrc1)] at h
  have hpre := hp4 hrc1
  -- step 2: setmode
  generalize hm : (if (do_precut || (cut_after && !final_label)) = true
      then (0x40 : Nat) else 0x00) = mode_flags at h hpre ⊢
  by_cases hrc2 : (ptouch_call ptdev (DevCall.setmode mode_flags) r1.2).1 = 0
  swap
  · rw [if_pos hrc2] at h
    simp only [Option.some.injEq] at h
    subst h
    refine ⟨rfl, pre ++ [(DevCall.setmode mode_flags,
      ptdev.respond r1.2.trace (DevCall.setmode mode_flags))],
      by simp [World.err, ptouch_call, hp1], ?_, ?_⟩
    · constructor
      · intro h0; simp at h0
      · rintro ⟨_, hall⟩
        exact absurd (hall _ (List.mem_append_right _ (List.mem_singleton.mpr rfl))
          (by simp)) hrc2
    · intro h0; simp at h0
  rw [if_neg (by simpa using hrc2)] at h
  -- step 3: setadvanced
  generalize ha : (if ((!final_label) || !cut_after) = true
      then (0x00 : Nat) else 0x08) = advanced_flags at h ⊢
  generalize hw2 : (ptouch_call ptdev (DevCall.setmode mode_flags) r1.2).2 = w2 at h
  have hw2t : w2.trace = w.trace ++ pre ++ [(DevCall.setmode mode_flags, (0 : Int))] := by
    rw [← hw2]
    simp only [ptouch_call] at hrc2 ⊢
    rw [hrc2, hp1]
  by_cases hrc3 : (ptouch_call ptdev (DevCall.setadvanced advanced_flags) w2).1 = 0
  swap
  · rw [if_pos hrc3] at h
    simp only [Option.some.injEq] at h
    subst h
    refine ⟨rfl, pre ++ [(DevCall.setmode mode_flags, (0 : Int)),
      (DevCall.setadvanced advanced_flags,
        ptdev.respond w2.trace (DevCall.setadvanced advanced_flags))],
      by simp [World.err, ptouch_call, hw2t], ?_, ?_⟩
    · constructor
      · intro h0; simp at h0
      · rintro ⟨_, hall⟩
        exact absurd (hall (DevCall.setadvanced advanced_flags,
          ptdev.respond w2.trace (DevCall.setadvanced advanced_flags)) (by simp) (by simp)) hrc3
    · intro h0; simp at h0
  rw [if_neg (by simpa using hrc3)] at h
  generalize hw3 : (ptouch_call ptdev (DevCall.setadvanced advanced_flags) w2).2 = w3 at h
  have hw3t : w3.trace = w.trace ++ pre ++ [(DevCall.setmode mode_flags, (0 : Int)),
      (DevCall.setadvanced advanced_flags, (0 : Int))] := by
    rw [← hw3]
    simp only [ptouch_call] at hrc3 ⊢
    rw [hrc3, hw2t]
    simp
  -- step 4: the raster transfer
  cases hpi : print_img ptdev (some label) w3 with
  | none => simp [hpi] at h
  | some r4 =>
    simp only [hpi] at h
    obtain ⟨raster, hr4t, hr4c, hr4rc⟩ := print_img_spec ptdev label w3 r4 hpi
    by_cases hrc4 : r4.1 = 0
    swap
    · rw [if_pos hrc4] at h
      simp only [Option.some.injEq] at h
      subst h
      refine ⟨rfl, pre ++ [(DevCall.setmode mode_flags, (0 : Int)),
        (DevCall.setadvanced advanced_flags, (0 : Int))] ++ raster,
        by simp [World.err, hr4t, hw3t], ?_, ?_⟩
      · constructor
        · intro h0; simp at h0
        · rintro ⟨hfit, hall⟩
          exact absurd (hr4rc.mpr ⟨hfit, fun e he hne =>
            hall e (List.mem_append_right _ he) hne⟩) hrc4
      · intro h0; simp at h0
    rw [if_neg (by simpa using hrc4)] at h
    obtain ⟨hfit, hrasterok⟩ := hr4rc.mp hrc4
    -- step 5: eject or form-feed
    generalize hfin : (if (cut_after && final_label) = true
        then DevCall.eject else DevCall.ff) = final at h ⊢
    have hcall : (if (cut_after && final_label) = true then ptouch_call ptdev DevCall.eject r4.2
        else ptouch_call ptdev DevCall.ff r4.2) = ptouch_call ptdev final r4.2 := by
      rw [← hfin]; split <;> rfl
    rw [hcall] at h
    have hne : final ≠ DevCall.enable_packbits := by
      rw [← hfin]; split <;> simp
    by_cases hrc5 : (ptouch_call ptdev final r4.2).1 = 0
    · rw [if_neg (by simpa using hrc5)] at h
      simp only [Option.some.injEq] at h
      subst h
      have hrc5b : ptdev.respond r4.2.trace final = 0 := hrc5
      refine ⟨rfl, pre ++ [(DevCall.setmode mode_flags, (0 : Int)),
        (DevCall.setadvanced advanced_flags, (0 : Int))] ++ raster ++ [(final, (0 : Int))],
        by simp only [ptouch_call]; rw [hrc5b, hr4t, hw3t]; simp, ?_, ?_⟩
      · constructor
        · intro _
          refine ⟨hfit, ?_⟩
          intro e he hnp
          simp only [List.mem_append, List.mem_cons, List.mem_singleton,
            List.not_mem_nil, or_false] at he
          rcases he with ((he | he | he) | he) | he
          · exact (hp2.mp hrc1) e he
          · rw [he]
          · rw [he]
          · exact hrasterok e he hnp
          · rw [he]
        · intro _; rfl
      · intro _
        exact ⟨raster, by rw [hpre], hr4c⟩
    · rw [if_pos hrc5] at h
      simp only [Option.some.injEq] at h
      subst h
      refine ⟨rfl, pre ++ [(DevCall.setmode mode_flags, (0 : Int)),
        (DevCall.setadvanced advanced_flags, (0 : Int))] ++ raster ++
          [(final, ptdev.respond r4.2.trace final)],
        by simp [World.err, ptouch_call, hr4t, hw3t], ?_, ?_⟩
      · constructor
        · intro h0; simp at h0
        · rintro ⟨_, hall⟩
          exact absurd (hall (final, ptdev.respond r4.2.trace final) (by simp) hne) hrc5
      · intro h0; simp at h0

theorem flush_print_job_defined (ptdev : ptouch_dev) (label : gdImage)
    (do_precut cut_after final_label : Bool) (media_width_mm : Nat) (w : World)
    (hh : label.sy ≤ 128) :
    ∃ r, flush_print_job none ptdev (some label) do_precut cut_after final_label
      media_width_mm w = some r := by
  simp only [flush_print_job, Option.isSome_none, Bool.false_eq_true, if_false]
  generalize (if (do_precut || (cut_after && !final_label)) = true
      then ptouch_call ptdev (DevCall.printinfo media_width_mm) w else (0, w)) = r1
  generalize (if (do_precut || (cut_after && !final_label)) = true
      then (0x40 : Nat) else 0x00) = mode_flags
  generalize (if ((!final_label) || !cut_after) = true
      then (0x00 : Nat) else 0x08) = advanced_flags
  by_cases h1 : r1.1 ≠ 0
  · rw [if_pos h1]; exact ⟨_, rfl⟩
  rw [if_neg h1]
  by_cases h2 : (ptouch_call ptdev (DevCall.setmode mode_flags) r1.2).1 ≠ 0
  · rw [if_pos h2]; exact ⟨_, rfl⟩
  rw [if_neg h2]
  generalize (ptouch_call ptdev (DevCall.setmode mode_flags) r1.2).2 = w2
  by_cases h3 : (ptouch_call ptdev (DevCall.setadvanced advanced_flags) w2).1 ≠ 0
  · rw [if_pos h3]; exact ⟨_, rfl⟩
  rw [if_neg h3]
  generalize (ptouch_call ptdev (DevCall.setadvanced advanced_flags) w2).2 = w3
  obtain ⟨r4, hr4⟩ := print_img_defined ptdev label w3 hh
  simp only [hr4]
  by_cases h4 : r4.1 ≠ 0
  · rw [if_pos h4]; exact ⟨_, rfl⟩
  rw [if_neg h4]
  generalize (if (cut_after && final_label) = true then ptouch_call ptdev DevCall.eject r4.2
      else ptouch_call ptdev DevCall.ff r4.2) = r5
  by_cases h5 : r5.1 ≠ 0
  · rw [if_pos h5]; exact ⟨_, rfl⟩
  · rw [if_neg h5]; exact ⟨_, rfl⟩

theorem ptouch_call_ok (ptdev : ptouch_dev) (hok : ∀ tr call, ptdev.respond tr call = 0)
    (c : DevCall) (w : World) : (ptouch_call ptdev c w).1 = 0 := hok _ _

theorem print_img_columns_ok (ptdev : ptouch_dev) (im : gdImage) (d : Nat) (offset : Int)
    (hok : ∀ tr call, ptdev.respond tr call = 0) :
    ∀ (ks : List Nat) (w : World) (r : Int × World),
      print_img_columns ptdev im d offset ks w = some r → r.1 = 0 := by
  intro ks
  induction ks with
  | nil =>
    intro w r h
    simp only [print_img_columns, Option.some.injEq] at h
    rw [← h]
  | cons k ks ih =>
    intro w r h
    simp only [print_img_columns] at h
    cases hl : print_img_rasterline im d offset k with
    | none => simp [hl] at h
    | some line =>
      simp only [hl] at h
      rw [if_neg (fun hc => hc (ptouch_call_ok ptdev hok _ _))] at h
      exact ih _ r h

theorem print_img_ok (ptdev : ptouch_dev) (im : gdImage) (w : World) (r : Int × World)
    (hok : ∀ tr call, ptdev.respond tr call = 0)
    (hfit : im.sy ≤ ptouch_getmaxwidth ptdev)
    (h : print_img ptdev (some im) w = some r) : r.1 = 0 := by
  simp only [print_img] at h
  rw [if_neg (by omega), if_neg (fun hc => hc (ptouch_call_ok ptdev hok _ _))] at h
  exact print_img_columns_ok ptdev im _ _ hok _ _ r h

theorem flush_print_job_ok (ptdev : ptouch_dev) (label : gdImage)
    (do_precut cut_after final_label : Bool) (media_width_mm : Nat) (w : World)
    (r : FlushResult)
    (hok : ∀ tr call, ptdev.respond tr call = 0)
    (hfit : label.sy ≤ ptouch_getmaxwidth ptdev)
    (h : flush_print_job none ptdev (some label) do_precut cut_after final_label
      media_width_mm w = some r) : r.rc = 0 := by
  simp only [flush_print_job, Option.isSome_none, Bool.false_eq_true, if_false] at h
  have h1 : (if (do_precut || (cut_after && !final_label)) = true
      then ptouch_call ptdev (DevCall.printinfo media_width_mm) w else (0, w)).1 = 0 := by
    split
    · exact ptouch_call_ok ptdev hok _ _
    · rfl
  rw [if_neg (fun hc => hc h1), if_neg (fun hc => hc (ptouch_call_ok ptdev hok _ _)),
    if_neg (fun hc => hc (ptouch_call_ok ptdev hok _ _))] at h
  revert h
  cases hpi : print_img ptdev (some label) _ with
  | none => intro h; simp at h
  | some r4 =>
    intro h
    simp only at h
    have h4 := print_img_ok ptdev label _ r4 hok hfit hpi
    have h5 : (if (cut_after && final_label) = true then ptouch_call ptdev DevCall.eject r4.2
        else ptouch_call ptdev DevCall.ff r4.2).1 = 0 := by
      split <;> exact ptouch_call_ok ptdev hok _ _
    rw [if_neg (fun hc => hc h4), if_neg (fun hc => hc h5)] at h
    simp only [Option.some.injEq] at h
    rw [← h]

/-- C3 (counterexample): with every device call succeeding, a pending canvas
of height 77 on a device whose maximum printable width is 76, and the flags
(precut, cutAfter, finalLabel) = (F, F, F), the flush sets mode and advanced
flags and then fails in the size check of `print_img`: it returns -1 and ends
with neither form-feed nor eject. -/
theorem flush_print_job_oversize_no_final_action :
    (∀ tr call, (example_device 76 false).respond tr call = 0) ∧
    (flush_print_job none (example_device 76 false) (some (example_canvas 1 77))
      false false false 12 World.init).map (fun r => (r.rc, r.world.trace)) =
    some (-1, [(DevCall.setmode 0, 0), (DevCall.setadvanced 0, 0)]) :=
  ⟨fun _ _ => rfl, by decide⟩

/-- C3 (amended): for every combination of (precut, cutAfter, finalLabel), a
flush with a pending canvas whose height does not exceed the device's maximum
printable width, no file-output mode and all device calls succeeding returns
success with the device calls: printinfo iff precut OR (cutAfter AND NOT
finalLabel); setmode 0x40 iff that condition holds, else 0x00; setadvanced
0x00 iff NOT finalLabel OR NOT cutAfter, else 0x08; the raster transfer; and
last eject iff cutAfter AND finalLabel, else form-feed.  The flush has a
result for every canvas of height at most 128. -/
theorem flush_print_job_truth_table (ptdev : ptouch_dev) (label : gdImage)
    (precut cutAfter finalLabel : Bool) (media_width_mm : Nat) (w : World)
    (hok : ∀ tr call, ptdev.respond tr call = 0)
    (hfit : label.sy ≤ ptouch_getmaxwidth ptdev) :
    (label.sy ≤ 128 →
      ∃ r, flush_print_job none ptdev (some label) precut cutAfter finalLabel
        media_width_mm w = some r) ∧
    ∀ r, flush_print_job none ptdev (some label) precut cutAfter finalLabel
        media_width_mm w = some r →
      r.rc = 0 ∧
      ∃ raster,
        r.world.trace = w.trace ++
          (if (precut || (cutAfter && !finalLabel)) = true
            then [(DevCall.printinfo media_width_mm, (0 : Int))] else []) ++
          [(DevCall.setmode (if (precut || (cutAfter && !finalLabel)) = true
              then 0x40 else 0x00), (0 : Int)),
           (DevCall.setadvanced (if ((!finalLabel) || !cutAfter) = true
              then 0x00 else 0x08), (0 : Int))] ++
          raster ++
          [(if (cutAfter && finalLabel) = true then DevCall.eject else DevCall.ff, (0 : Int))] ∧
        ∀ e ∈ raster, is_raster_call e.1 = true := by
  refine ⟨flush_print_job_defined ptdev label precut cutAfter finalLabel media_width_mm w, ?_⟩
  intro r hr
  obtain ⟨_, evs, htr, hrc, hshape⟩ :=
    flush_print_job_spec ptdev label precut cutAfter finalLabel media_width_mm w r hr
  have hrc0 : r.rc = 0 :=
    flush_print_job_ok ptdev label precut cutAfter finalLabel media_width_mm w r hok hfit hr
  obtain ⟨raster, hevs, hraster⟩ := hshape hrc0
  exact ⟨hrc0, raster, by rw [htr, hevs]; simp, hraster⟩

/-- C3 (witness): the flag combinations (F, T, F) and (F, T, T) for a 2 by 64 canvas on a
device of maximum width 76 with packbits. -/
theorem flush_print_job_truth_table_witness :
    (∀ tr call, (example_device 76 true).respond tr call = 0) ∧
    (example_canvas 2 64).sy ≤ ptouch_getmaxwidth (example_device 76 true) ∧
    (∃ r raster, flush_print_job none (example_device 76 true) (some (example_canvas 2 64))
        false true false 12 World.init = some r ∧ r.rc = 0 ∧
      r.world.trace = [(DevCall.printinfo 12, (0 : Int)), (DevCall.setmode 0x40, (0 : Int)),
        (DevCall.setadvanced 0x00, (0 : Int))] ++ raster ++ [(DevCall.ff, (0 : Int))]) ∧
    (∃ r raster, flush_print_job none (example_device 76 true) (some (example_canvas 2 64))
        false true true 12 World.init = some r ∧ r.rc = 0 ∧
      r.world.trace = [(DevCall.setmode 0x00, (0 : Int)),
        (DevCall.setadvanced 0x08, (0 : Int))] ++ raster ++ [(DevCall.eject, (0 : Int))]) := by
  have t1 := flush_print_job_truth_table (example_device 76 true) (example_canvas 2 64)
    false true false 12 World.init (fun _ _ => rfl) (by decide)
  have t2 := flush_print_job_truth_table (example_device 76 true) (example_canvas 2 64)
    false true true 12 World.init (fun _ _ => rfl) (by decide)
  refine ⟨fun _ _ => rfl, by decide, ?_, ?_⟩
  · obtain ⟨r, hr⟩ := t1.1 (by decide)
    obtain ⟨hrc, raster, htr, _⟩ := t1.2 r hr
    exact ⟨r, raster, hr, hrc, by simpa [World.init] using htr⟩
  · obtain ⟨r, hr⟩ := t2.1 (by decide)
    obtain ⟨hrc, raster, htr, _⟩ := t2.2 r hr
    exact ⟨r, raster, hr, hrc, by simpa [World.init] using htr⟩

/-- C4: for every canvas whose height exceeds the device's maximum printable
width, `print_img` returns -1 without any device call (no packbits enable, no
raster start, no raster line): the trace of device calls is unchanged, and the
two size messages are written to `stderr`. -/
theorem print_img_too_large (ptdev : ptouch_dev) (im : gdImage) (w : World)
    (h : ptouch_getmaxwidth ptdev < im.sy) :
    ∃ w2, print_img ptdev (some im) w = some (-1, w2) ∧ w2.trace = w.trace ∧
      w2.stderr = w.stderr ++ [Msg.image_too_large im.sx im.sy,
        Msg.maximum_printing_width (ptouch_getmaxwidth ptdev)] := by
  simp only [print_img]
  rw [if_pos h]
  exact ⟨_, rfl, by simp [World.err], by simp [World.err]⟩

/-- C4 (witness): a canvas of height 77 on a device of maximum width 76. -/
theorem print_img_too_large_witness :
    ptouch_getmaxwidth (example_device 76 true) < (example_canvas 3 77).sy ∧
    ∃ w2, print_img (example_device 76 true) (some (example_canvas 3 77)) World.init =
        some (-1, w2) ∧ w2.trace = World.init.trace ∧
      w2.stderr = World.init.stderr ++ [Msg.image_too_large (example_canvas 3 77).sx
        (example_canvas 3 77).sy,
        Msg.maximum_printing_width (ptouch_getmaxwidth (example_device 76 true))] :=
  ⟨by decide, print_img_too_large (example_device 76 true) (example_canvas 3 77) World.init
    (by decide)⟩

/-- C5: for every flush with a pending canvas and no file-output mode, the
accumulator is empty when the call returns, whether it succeeds or fails, and
the call returns success iff every device step it issued succeeded: the canvas
passed the size check of the raster encoding and every device call made by the
flush returned 0 (the return code of the packbits enable is not looked at).
The call has a result for every canvas of height at most 128. -/
theorem flush_print_job_clears_accumulator (ptdev : ptouch_dev) (label : gdImage)
    (do_precut cut_after final_label : Bool) (media_width_mm : Nat) (w : World) :
    (label.sy ≤ 128 →
      ∃ r, flush_print_job none ptdev (some label) do_precut cut_after final_label
        media_width_mm w = some r) ∧
    ∀ r, flush_print_job none ptdev (some label) do_precut cut_after final_label
        media_width_mm w = some r →
      r.out = none ∧
      ∃ evs, r.world.trace = w.trace ++ evs ∧
        (r.rc = 0 ↔ label.sy ≤ ptouch_getmaxwidth ptdev ∧
          ∀ e ∈ evs, e.1 ≠ DevCall.enable_packbits → e.2 = 0) := by
  refine ⟨flush_print_job_defined ptdev label do_precut cut_after final_label media_width_mm w,
    ?_⟩
  intro r hr
  obtain ⟨hout, evs, htr, hrc, _⟩ :=
    flush_print_job_spec ptdev label do_precut cut_after final_label media_width_mm w r hr
  exact ⟨hout, evs, htr, hrc⟩

/-- C5 (witness): a flush whose form-feed fails returns -1 with the accumulator
cleared. -/
theorem flush_print_job_clears_accumulator_witness :
    (example_canvas 2 64).sy ≤ 128 ∧
    (∃ r, flush_print_job none (example_device_ff_fails 76) (some (example_canvas 2 64))
        true true false 12 World.init = some r ∧ r.out = none) ∧
    (flush_print_job none (example_device_ff_fails 76) (some (example_canvas 2 64))
        true true false 12 World.init).map (fun r => r.rc) = some (-1) := by
  have t := flush_print_job_clears_accumulator (example_device_ff_fails 76)
    (example_canvas 2 64) true true false 12 World.init
  refine ⟨by decide, ?_, by decide⟩
  obtain ⟨r, hr⟩ := t.1 (by decide)
  exact ⟨r, hr, (t.2 r hr).1⟩

theorem not_mem_err (w : World) (m : Msg) (hm : m ≠ Msg.cut_with_writepng)
    (h : Msg.cut_with_writepng ∉ w.stderr) : Msg.cut_with_writepng ∉ (w.err m).stderr := by
  simp only [World.err, List.mem_append, List.mem_singleton, not_or]
  exact ⟨h, fun e => hm e.symm⟩

theorem print_img_columns_stderr (ptdev : ptouch_dev) (im : gdImage) (d : Nat) (offset : Int) :
    ∀ (ks : List Nat) (w : World) (r : Int × World),
      print_img_columns ptdev im d offset ks w = some r →
      Msg.cut_with_writepng ∉ w.stderr → Msg.cut_with_writepng ∉ r.2.stderr := by
  intro ks
  induction ks with
  | nil =>
    intro w r h hw
    simp only [print_img_columns, Option.some.injEq] at h
    rw [← h]; exact hw
  | cons k ks ih =>
    intro w r h hw
    simp only [print_img_columns] at h
    cases hl : print_img_rasterline im d offset k with
    | none => simp [hl] at h
    | some line =>
      simp only [hl] at h
      by_cases hrc : (ptouch_call ptdev (DevCall.sendraster line) w).1 ≠ 0
      · rw [if_pos hrc] at h
        simp only [Option.some.injEq] at h
        rw [← h]
        exact not_mem_err _ _ (by simp) hw
      · rw [if_neg hrc] at h
        exact ih _ r h hw

theorem print_img_stderr (ptdev : ptouch_dev) (im : Option gdImage) (w : World)
    (r : Int × World) (h : print_img ptdev im w = some r)
    (hw : Msg.cut_with_writepng ∉ w.stderr) : Msg.cut_with_writepng ∉ r.2.stderr := by
  cases im with
  | none =>
    simp only [print_img, Option.some.injEq] at h
    rw [← h]
    exact not_mem_err _ _ (by simp) hw
  | some im =>
    simp only [print_img] at h
    by_cases hfit : im.sy > ptouch_getmaxwidth ptdev
    · rw [if_pos hfit] at h
      simp only [Option.some.injEq] at h
      rw [← h]
      exact not_mem_err _ _ (by simp) (not_mem_err _ _ (by simp) hw)
    · rw [if_neg hfit] at h
      generalize hw1 : (if ptdev.flag_raster_packbits = true
          then (ptouch_call ptdev DevCall.enable_packbits w).2 else w) = w1 at h
      have hw1s : Msg.cut_with_writepng ∉ w1.stderr := by
        rw [← hw1]; split
        · exact hw
        · exact hw
      by_cases hrc : (ptouch_call ptdev DevCall.rasterstart w1).1 ≠ 0
      · rw [if_pos hrc] at h
        simp only [Option.some.injEq] at h
        rw [← h]
        exact not_mem_err _ _ (by simp) hw1s
      · rw [if_neg hrc] at h
        exact print_img_columns_stderr ptdev im _ _ _ _ r h hw1s

theorem flush_print_job_stderr (ptdev : ptouch_dev) (label : gdImage)
    (do_precut cut_after final_label : Bool) (media_width_mm : Nat) (w : World)
    (r : FlushResult)
    (h : flush_print_job none ptdev (some label) do_precut cut_after final_label
      media_width_mm w = some r)
    (hw : Msg.cut_with_writepng ∉ w.stderr) : Msg.cut_with_writepng ∉ r.world.stderr := by
  simp only [flush_print_job, Option.isSome_none, Bool.false_eq_true, if_false] at h
  generalize hr1 : (if (do_precut || (cut_after && !final_label)) = true
      then ptouch_call ptdev (DevCall.printinfo media_width_mm) w else (0, w)) = r1 at h
  have h1 : Msg.cut_with_writepng ∉ r1.2.stderr := by
    rw [← hr1]; split
    · exact hw
    · exact hw
  generalize (if (do_precut || (cut_after && !final_label)) = true
      then (0x40 : Nat) else 0x00) = mode_flags at h
  generalize (if ((!final_label) || !cut_after) = true
      then (0x00 : Nat) else 0x08) = advanced_flags at h
  by_cases c1 : r1.1 ≠ 0
  · rw [if_pos c1] at h
    simp only [Option.some.injEq] at h
    rw [← h]; exact not_mem_err _ _ (by simp) h1
  rw [if_neg c1] at h
  by_cases c2 : (ptouch_call ptdev (DevCall.setmode mode_flags) r1.2).1 ≠ 0
  · rw [if_pos c2] at h
    simp only [Option.some.injEq] at h
    rw [← h]; exact not_mem_err _ _ (by simp) h1
  rw [if_neg c2] at h
  by_cases c3 : (ptouch_call ptdev (DevCall.setadvanced advanced_flags)
      (ptouch_call ptdev (DevCall.setmode mode_flags) r1.2).2).1 ≠ 0
  · rw [if_pos c3] at h
    simp only [Option.some.injEq] at h
    rw [← h]; exact not_mem_err _ _ (by simp) h1
  rw [if_neg c3] at h
  revert h
  cases hpi : print_img ptdev (some label) _ with
  | none => intro h; simp at h
  | some r4 =>
    intro h
    simp only at h
    have h4 : Msg.cut_with_writepng ∉ r4.2.stderr := print_img_stderr ptdev _ _ r4 hpi h1
    by_cases c4 : r4.1 ≠ 0
    · rw [if_pos c4] at h
      simp only [Option.some.injEq] at h
      rw [← h]; exact not_mem_err _ _ (by simp) h4
    rw [if_neg c4] at h
    generalize hr5 : (if (cut_after && final_label) = true
        then ptouch_call ptdev DevCall.eject r4.2 else ptouch_call ptdev DevCall.ff r4.2) = r5 at h
    have h5 : Msg.cut_with_writepng ∉ r5.2.stderr := by
      rw [← hr5]; split
      · exact h4
      · exact h4
    by_cases c5 : r5.1 ≠ 0
    · rw [if_pos c5] at h
      simp only [Option.some.injEq] at h
      rw [← h]
      exact not_mem_err _ _ (by split <;> simp) h5
    · rw [if_neg c5] at h
      simp only [Option.some.injEq] at h
      rw [← h]; exact h5

/-- C6 (counterexample): in file-output mode a flush that does not request
cutAfter is rejected all the same: it returns -1 with the conflict message,
without any device call. -/
theorem flush_print_job_file_mode_rejects_without_cut :
    (flush_print_job (some "label.png") (example_device 76 false) (some (example_canvas 2 64))
      true false true 12 World.init).map (fun r => (r.rc, r.world.stderr, r.world.trace)) =
    some (-1, [Msg.cut_with_writepng], []) := by
  decide

/-- C6 (amended): with a canvas pending, `flush_print_job` fails with the
configuration conflict exactly when the file-output mode is configured,
whether or not the flush requests cutAfter; in that case it returns -1 before
any device call is made and leaves the accumulated canvas untouched. -/
theorem flush_print_job_file_mode_conflict (save_png : Option String) (ptdev : ptouch_dev)
    (label : gdImage) (do_precut cut_after final_label : Bool) (media_width_mm : Nat)
    (w : World) (hw : Msg.cut_with_writepng ∉ w.stderr) :
    (save_png.isSome = true →
      flush_print_job save_png ptdev (some label) do_precut cut_after final_label
          media_width_mm w =
        some { rc := -1, out := some label,
               world := { trace := w.trace, stderr := w.stderr ++ [Msg.cut_with_writepng] } }) ∧
    ∀ r, flush_print_job save_png ptdev (some label) do_precut cut_after final_label
        media_width_mm w = some r →
      (Msg.cut_with_writepng ∈ r.world.stderr ↔ save_png.isSome = true) := by
  constructor
  · intro hs
    simp only [flush_print_job]
    rw [if_pos hs]
    rfl
  · intro r hr
    cases save_png with
    | none =>
      have := flush_print_job_stderr ptdev label do_precut cut_after final_label
        media_width_mm w r hr hw
      simp [this]
    | some name =>
      simp only [flush_print_job, Option.isSome_some, if_true, Option.some.injEq] at hr
      rw [← hr]
      simp [World.err]

/-- C6 (witness): the same flush with and without the file-output mode. -/
theorem flush_print_job_file_mode_conflict_witness :
    Msg.cut_with_writepng ∉ World.init.stderr ∧
    (flush_print_job (some "label.png") (example_device 76 false) (some (example_canvas 2 64))
        true true false 12 World.init =
      some { rc := -1, out := some (example_canvas 2 64),
             world := { trace := [], stderr := [Msg.cut_with_writepng] } }) ∧
    (∀ r, flush_print_job none (example_device 76 false) (some (example_canvas 2 64))
        true true false 12 World.init = some r →
      Msg.cut_with_writepng ∉ r.world.stderr) := by
  have t1 := flush_print_job_file_mode_conflict (some "label.png") (example_device 76 false)
    (example_canvas 2 64) true true false 12 World.init (by decide)
  have t2 := flush_print_job_file_mode_conflict none (example_device 76 false)
    (example_canvas 2 64) true true false 12 World.init (by decide)
  refine ⟨by decide, t1.1 rfl, ?_⟩
  intro r hr hm
  have := (t2.2 r hr).mp hm
  simp at this

/-! ## Theorems: the canvas compositor -/

theorem img_append_some (a b : gdImage) (h1 : 0 < a.sx + b.sx) (h2 : 0 < max a.sy b.sy) :
    img_append (some a) (some b) =
      some (gdImageCopy (gdImageCopy
        { sx := a.sx + b.sx, sy := max a.sy b.sy, pixels := fun _ _ => 0,
          colors := [(255, 255, 255), (0, 0, 0)] } a 0 0 0 0 a.sx a.sy) b a.sx 0 0 0 b.sx b.sy) := by
  have hmax : (if b.sy > a.sy then b.sy else a.sy) = max a.sy b.sy := by
    split <;> omega
  simp only [img_append, hmax, gdImageCreatePalette, gdImageColorAllocate]
  rw [if_neg (by omega)]
  rfl

theorem img_append_none_left (b : gdImage) (h1 : 0 < b.sx) (h2 : 0 < b.sy) :
    img_append none (some b) =
      some (gdImageCopy
        { sx := b.sx, sy := b.sy, pixels := fun _ _ => 0,
          colors := [(255, 255, 255), (0, 0, 0)] } b 0 0 0 0 b.sx b.sy) := by
  have hw : (if b.sy > 0 then b.sy else 0) = b.sy := if_pos h2
  simp only [img_append, gdImageCreatePalette, gdImageColorAllocate, hw, Nat.zero_add]
  rw [if_neg (by omega)]
  rfl

theorem img_append_none_right (a : gdImage) (h1 : 0 < a.sx) (h2 : 0 < a.sy) :
    img_append (some a) none =
      some (gdImageCopy
        { sx := a.sx, sy := a.sy, pixels := fun _ _ => 0,
          colors := [(255, 255, 255), (0, 0, 0)] } a 0 0 0 0 a.sx a.sy) := by
  simp only [img_append, gdImageCreatePalette, gdImageColorAllocate]
  rw [if_neg (by omega)]
  rfl

theorem gdImageCopy_whole_pixel (b : gdImage) (cs : List (Nat × Nat × Nat)) (x y : Nat) :
    gdImageGetPixel (gdImageCopy
        { sx := b.sx, sy := b.sy, pixels := fun _ _ => 0, colors := cs } b 0 0 0 0 b.sx b.sy)
      x y = gdImageGetPixel b x y := by
  simp only [gdImageGetPixel, gdImageCopy]
  by_cases h : x < b.sx ∧ y < b.sy
  · obtain ⟨hx, hy⟩ := h
    simp [hx, hy]
  · rw [if_neg h, if_neg h]

/-- C7 (counterexample): appending two canvases of width 0 (and height 64)
gives no canvas, not a canvas of width 0 + 0 and height 64. -/
theorem img_append_zero_width_is_none :
    img_append (some (example_canvas 0 64)) (some (example_canvas 0 64)) = none := by
  rfl

/-- C7 (amended): for every pair of canvases `a` and `b` whose combined width
`width(a) + width(b)` and larger height `max(height(a), height(b))` are both
non-zero, `img_append(a, b)` is a canvas of that width and that height; when
the combined width or the larger height is zero it returns no canvas. -/
theorem img_append_dimensions (a b : gdImage) :
    (0 < a.sx + b.sx → 0 < max a.sy b.sy →
      ∃ out, img_append (some a) (some b) = some out ∧
        out.sx = a.sx + b.sx ∧ out.sy = max a.sy b.sy) ∧
    (a.sx + b.sx = 0 ∨ max a.sy b.sy = 0 → img_append (some a) (some b) = none) := by
  constructor
  · intro h1 h2
    exact ⟨_, img_append_some a b h1 h2, rfl, rfl⟩
  · intro h
    have hmax : (if b.sy > a.sy then b.sy else a.sy) = max a.sy b.sy := by
      split <;> omega
    simp only [img_append, hmax]
    rw [if_pos (by omega)]

/-- C7 (witness): a 3 by 64 and a 4 by 70 canvas, and two canvases of height 0. -/
theorem img_append_dimensions_witness :
    (0 < (example_canvas 3 64).sx + (example_canvas 4 70).sx) ∧
    (0 < max (example_canvas 3 64).sy (example_canvas 4 70).sy) ∧
    (∃ out, img_append (some (example_canvas 3 64)) (some (example_canvas 4 70)) = some out ∧
      out.sx = 7 ∧ out.sy = 70) ∧
    img_append (some (example_canvas 5 0)) (some (example_canvas 6 0)) = none :=
  ⟨by decide, by decide,
    (img_append_dimensions (example_canvas 3 64) (example_canvas 4 70)).1 (by decide) (by decide),
    (img_append_dimensions (example_canvas 5 0) (example_canvas 6 0)).2 (Or.inr (by decide))⟩

theorem img_append_pixel (a b : gdImage) (cs : List (Nat × Nat × Nat)) (x y : Nat)
    (hx : x < a.sx + b.sx) (hy : y < max a.sy b.sy) :
    gdImageGetPixel (gdImageCopy (gdImageCopy
        { sx := a.sx + b.sx, sy := max a.sy b.sy, pixels := fun _ _ => 0, colors := cs }
        a 0 0 0 0 a.sx a.sy) b a.sx 0 0 0 b.sx b.sy) x y =
      if x < a.sx then (if y < a.sy then gdImageGetPixel a x y else 0)
      else (if y < b.sy then gdImageGetPixel b (x - a.sx) y else 0) := by
  simp only [gdImageGetPixel, gdImageCopy]
  rw [if_pos ⟨hx, hy⟩]
  by_cases h1 : x < a.sx
  · rw [if_neg (by omega), if_pos h1]
    by_cases h2 : y < a.sy
    · rw [if_pos ⟨Nat.zero_le _, by omega, Nat.zero_le _, by omega, hx, hy⟩, if_pos h2]
      simp
    · rw [if_neg (by omega), if_neg h2]
  · rw [if_neg h1]
    by_cases h2 : y < b.sy
    · rw [if_pos ⟨by omega, hx, Nat.zero_le _, by omega, hx, hy⟩, if_pos h2]
      simp
    · rw [if_neg (by omega), if_neg (by omega), if_neg h2]

/-- C8 (counterexample): appending a canvas of width 0 (and height 64) to the
absent canvas gives no canvas, not a copy of it. -/
theorem img_append_none_zero_width_is_none :
    img_append none (some (example_canvas 0 64)) = none := by
  rfl

/-- C8 (amended): `img_append(none, none)` is none; for every canvas of
non-zero width and height, appending it to the absent canvas, on either side,
gives a canvas of the same width and height with the same pixel at every
position; and for every `a` and `b` whose combined width and larger height are
non-zero the result pixel at `(x, y)` is the pixel `(x, y)` of `a` when
`x < width(a)` and `y < height(a)`, the pixel `(x - width(a), y)` of `b` when
`width(a) ≤ x` and `y < height(b)`, and background (0) everywhere else. -/
theorem img_append_content :
    img_append none none = none ∧
    (∀ b : gdImage, 0 < b.sx → 0 < b.sy →
      ∃ out, img_append none (some b) = some out ∧ out.sx = b.sx ∧ out.sy = b.sy ∧
        ∀ x y, gdImageGetPixel out x y = gdImageGetPixel b x y) ∧
    (∀ a : gdImage, 0 < a.sx → 0 < a.sy →
      ∃ out, img_append (some a) none = some out ∧ out.sx = a.sx ∧ out.sy = a.sy ∧
        ∀ x y, gdImageGetPixel out x y = gdImageGetPixel a x y) ∧
    (∀ a b : gdImage, 0 < a.sx + b.sx → 0 < max a.sy b.sy →
      ∃ out, img_append (some a) (some b) = some out ∧
        ∀ x y, x < a.sx + b.sx → y < max a.sy b.sy →
          gdImageGetPixel out x y =
            if x < a.sx then (if y < a.sy then gdImageGetPixel a x y else 0)
            else (if y < b.sy then gdImageGetPixel b (x - a.sx) y else 0)) := by
  refine ⟨rfl, ?_, ?_, ?_⟩
  · intro b h1 h2
    exact ⟨_, img_append_none_left b h1 h2, rfl, rfl, gdImageCopy_whole_pixel b _⟩
  · intro a h1 h2
    exact ⟨_, img_append_none_right a h1 h2, rfl, rfl, gdImageCopy_whole_pixel a _⟩
  · intro a b h1 h2
    exact ⟨_, img_append_some a b h1 h2, fun x y hx hy => img_append_pixel a b _ x y hx hy⟩

/-- C8 (witness): pixels of a 2 by 3 pattern alone and followed by a 4 by 2 pattern. -/
theorem img_append_content_witness :
    (0 < (example_pattern 2 3).sx ∧ 0 < (example_pattern 2 3).sy ∧
      ∃ out, img_append none (some (example_pattern 2 3)) = some out ∧
        gdImageGetPixel out 1 2 = 6) ∧
    (0 < (example_pattern 2 3).sx + (example_pattern 4 2).sx ∧
      0 < max (example_pattern 2 3).sy (example_pattern 4 2).sy ∧
      ∃ out, img_append (some (example_pattern 2 3)) (some (example_pattern 4 2)) = some out ∧
        gdImageGetPixel out 1 2 = 6 ∧ gdImageGetPixel out 5 1 = 6 ∧
        gdImageGetPixel out 5 2 = 0) := by
  have t := img_append_content
  refine ⟨⟨by decide, by decide, ?_⟩, by decide, by decide, ?_⟩
  · obtain ⟨out, h, _, _, hp⟩ := t.2.1 (example_pattern 2 3) (by decide) (by decide)
    exact ⟨out, h, by rw [hp]; decide⟩
  · obtain ⟨out, h, hp⟩ := t.2.2.2 (example_pattern 2 3) (example_pattern 4 2)
      (by decide) (by decide)
    refine ⟨out, h, ?_, ?_, ?_⟩
    · rw [hp 1 2 (by decide) (by decide)]; decide
    · rw [hp 5 1 (by decide) (by decide)]; decide
    · rw [hp 5 2 (by decide) (by decide)]; decide

/-- C9: for every tape width and every requested length `n`, `img_padding`
produces a canvas of height `tape_width` whose every pixel is background and
whose width is `n` when `1 ≤ n ≤ 256` and `1` otherwise; lengths 0 and 300
both give width 1 and length 50 gives width 50. -/
theorem img_padding_spec (tape_width : Nat) (n : Int) :
    (∃ out, img_padding tape_width n = some out ∧ out.sy = tape_width ∧
      (out.sx : Int) = (if 1 ≤ n ∧ n ≤ 256 then n else 1) ∧
      ∀ x y, gdImageGetPixel out x y = 0) ∧
    (img_padding tape_width 0).map (fun o => o.sx) = some 1 ∧
    (img_padding tape_width 300).map (fun o => o.sx) = some 1 ∧
    (img_padding tape_width 50).map (fun o => o.sx) = some 50 := by
  refine ⟨?_, rfl, rfl, rfl⟩
  simp only [img_padding, gdImageCreatePalette, gdImageColorAllocate]
  refine ⟨_, rfl, rfl, ?_, ?_⟩
  · by_cases h : 1 ≤ n ∧ n ≤ 256
    · rw [if_pos h, if_neg (by omega)]
      exact Int.toNat_of_nonneg (by omega)
    · rw [if_neg h, if_pos (by omega)]
      rfl
  · intro x y
    simp [gdImageGetPixel]

/-! ## Theorems: font-size search -/

theorem find_fontsize_loop_ge (ft : FontEngine) (want_px : Int) (font text : String) :
    ∀ (fuel : Nat) (i save r : Int),
      find_fontsize_loop ft want_px font text fuel i save = some r → save ≤ i → save ≤ r := by
  intro fuel
  induction fuel with
  | zero => intro i save r h; simp [find_fontsize_loop] at h
  | succ fuel ih =>
    intro i save r h hs
    simp only [find_fontsize_loop] at h
    cases hm : ft.stringFT font i text with
    | none =>
      simp only [hm, Option.some.injEq] at h
      omega
    | some brect =>
      simp only [hm] at h
      by_cases hle : brect 1 - brect 5 ≤ want_px
      · rw [if_pos hle] at h
        have := ih (i + 1) i r h (by omega)
        omega
      · rw [if_neg hle] at h
        simp only [Option.some.injEq] at h
        omega

theorem find_fontsize_loop_mono (ft : FontEngine) (want1 want2 : Int) (font text : String)
    (hw : want1 ≤ want2) :
    ∀ (fuel1 fuel2 : Nat) (i save r1 r2 : Int),
      find_fontsize_loop ft want1 font text fuel1 i save = some r1 →
      find_fontsize_loop ft want2 font text fuel2 i save = some r2 →
      save ≤ i → r1 ≤ r2 := by
  intro fuel1
  induction fuel1 with
  | zero => intro fuel2 i save r1 r2 h1; simp [find_fontsize_loop] at h1
  | succ fuel1 ih =>
    intro fuel2 i save r1 r2 h1 h2 hs
    cases fuel2 with
    | zero => simp [find_fontsize_loop] at h2
    | succ fuel2 =>
      simp only [find_fontsize_loop] at h1 h2
      cases hm : ft.stringFT font i text with
      | none =>
        simp only [hm, Option.some.injEq] at h1 h2
        omega
      | some brect =>
        simp only [hm] at h1 h2
        by_cases hle1 : brect 1 - brect 5 ≤ want1
        · rw [if_pos hle1] at h1
          rw [if_pos (by omega)] at h2
          exact ih fuel2 (i + 1) i r1 r2 h1 h2 (by omega)
        · rw [if_neg hle1] at h1
          simp only [Option.some.injEq] at h1
          by_cases hle2 : brect 1 - brect 5 ≤ want2
          · rw [if_pos hle2] at h2
            have := find_fontsize_loop_ge ft want2 font text fuel2 (i + 1) i r2 h2 (by omega)
            omega
          · rw [if_neg hle2] at h2
            simp only [Option.some.injEq] at h2
            omega

theorem find_fontsize_some (ft : FontEngine) (fuel : Nat) (want_px : Int) (font text : String)
    (r : Int) (h : find_fontsize ft fuel want_px font text = some r) :
    ∃ save, find_fontsize_loop ft want_px font text fuel 4 0 = some save ∧
      r = if save = 0 then -1 else save := by
  simp only [find_fontsize] at h
  cases hl : find_fontsize_loop ft want_px font text fuel 4 0 with
  | none => simp [hl] at h
  | some save =>
    simp only [hl] at h
    refine ⟨save, rfl, ?_⟩
    by_cases h0 : save = 0
    · rw [if_pos h0] at h ⊢
      simpa using h.symm
    · rw [if_neg h0] at h ⊢
      simpa using h.symm

/-- C10: `find_fontsize` is monotonic in its pixel budget: for a fixed font
engine, font and text, and budgets `want1 ≤ want2` on which the search
terminates (returns within some number of iterations), the result for `want1`
is at most the result for `want2`, the failure value -1 being below every
size. -/
theorem find_fontsize_monotonic (ft : FontEngine) (font text : String) (want1 want2 : Int)
    (fuel1 fuel2 : Nat) (r1 r2 : Int) (hw : want1 ≤ want2)
    (h1 : find_fontsize ft fuel1 want1 font text = some r1)
    (h2 : find_fontsize ft fuel2 want2 font text = some r2) : r1 ≤ r2 := by
  obtain ⟨s1, hl1, e1⟩ := find_fontsize_some ft fuel1 want1 font text r1 h1
  obtain ⟨s2, hl2, e2⟩ := find_fontsize_some ft fuel2 want2 font text r2 h2
  have hmono := find_fontsize_loop_mono ft want1 want2 font text hw fuel1 fuel2 4 0 s1 s2
    hl1 hl2 (by omega)
  have hge := find_fontsize_loop_ge ft want1 font text fuel1 4 0 s1 hl1 (by omega)
  subst e1 e2
  split <;> split <;> omega

/-- C10 (witness): budgets 2 (no size fits) and 10 (size 10 fits). -/
theorem find_fontsize_monotonic_witness :
    (2 : Int) ≤ 10 ∧
    find_fontsize example_font 20 2 "Helvetica" "label" = some (-1) ∧
    find_fontsize example_font 20 10 "Helvetica" "label" = some 10 ∧
    (-1 : Int) ≤ 10 :=
  ⟨by decide, by decide, by decide,
    find_fontsize_monotonic example_font "Helvetica" "label" 2 10 20 20 (-1) 10
      (by decide) (by decide) (by decide)⟩

theorem find_fontsize_loop_stop (ft : FontEngine) (font text : String) (want n : Int)
    (hstop : ft.stringFT font n text = none ∨
      ∃ b, ft.stringFT font n text = some b ∧ want < b 1 - b 5)
    (hacc : ∀ i, 4 ≤ i → i < n → ∃ b, ft.stringFT font i text = some b ∧ b 1 - b 5 ≤ want) :
    ∀ (fuel : Nat) (i save : Int), 4 ≤ i → i ≤ n → (n - i).toNat < fuel →
      find_fontsize_loop ft want font text fuel i save = some (if i = n then save else n - 1) := by
  intro fuel
  induction fuel with
  | zero => intro i save _ _ h; omega
  | succ fuel ih =>
    intro i save h4 hin hf
    simp only [find_fontsize_loop]
    by_cases hi : i = n
    · subst hi
      rw [if_pos rfl]
      rcases hstop with h | ⟨b, hb, hlt⟩
      · simp [h]
      · simp only [hb]
        rw [if_neg (by omega)]
    · rw [if_neg hi]
      obtain ⟨b, hb, hle⟩ := hacc i h4 (by omega)
      simp only [hb]
      rw [if_pos hle, ih (i + 1) i (by omega) (by omega) (by omega)]
      by_cases hi2 : i + 1 = n
      · rw [if_pos hi2]; congr 1; omega
      · rw [if_neg hi2]

/-- C11: `find_fontsize` searches linearly from size 4 in steps of 1 and
returns the last accepted size: if `n ≥ 4` is the first size at which the
measurement fails or the measured height exceeds `want_px` (every size in
`4..n-1` measures with a height of at most `want_px`), then with enough loop
iterations (at least `n - 3`) the result is `n - 1` when `n > 4` and the
failure value `-1` when `n = 4`. -/
theorem find_fontsize_first_stop (ft : FontEngine) (font text : String) (want_px n : Int)
    (fuel : Nat) (hn : 4 ≤ n)
    (hstop : ft.stringFT font n text = none ∨
      ∃ b, ft.stringFT font n text = some b ∧ want_px < b 1 - b 5)
    (hacc : ∀ i, 4 ≤ i → i < n →
      ∃ b, ft.stringFT font i text = some b ∧ b 1 - b 5 ≤ want_px)
    (hfuel : (n - 3).toNat ≤ fuel) :
    find_fontsize ft fuel want_px font text = some (if n = 4 then -1 else n - 1) := by
  have h := find_fontsize_loop_stop ft font text want_px n hstop hacc fuel 4 0 (by omega) hn
    (by omega)
  simp only [find_fontsize, h]
  by_cases h4 : n = 4
  · subst h4; simp
  · have h4b : ¬ (4 : Int) = n := fun e => h4 e.symm
    simp only [if_neg h4, if_neg h4b]
    rw [if_neg (by omega)]

/-- C11 (witness): with the example font (height equal to the size) and a
budget of 10, the first rejected size is 11 and the result is 10. -/
theorem find_fontsize_first_stop_witness :
    find_fontsize example_font 8 10 "Helvetica" "label" = some 10 := by
  have h := find_fontsize_first_stop example_font "Helvetica" "label" 10 11 8 (by decide)
    (Or.inr ⟨_, rfl, by decide⟩)
    (fun i h1 h2 => ⟨_, by simp only [example_font]; rw [if_pos (by omega)],
      by simp only [if_pos, ite_true]; simp; omega⟩)
    (by decide)
  simpa using h

/-! ## Theorems: text measurement and rendering -/

theorem get_baselineoffset_no_byte (env : TextEnv) (text font : String) (fsz : Int)
    (h : ∀ b ∈ c_string text, b ∉ [0x51, 0x67, 0x6a, 0x70, 0x71, 0x79, 0xC2, 0xB5]) :
    get_baselineoffset env text font fsz = 0 := by
  have hset : c_string "QgjpqyQµ" = [0x51, 0x67, 0x6a, 0x70, 0x71, 0x79, 0x51, 0xC2, 0xB5] := by
    decide
  have hs : strpbrk (c_string text) (c_string "QgjpqyQµ") = false := by
    rw [hset]
    simp only [strpbrk, List.any_eq_false]
    intro b hb
    have := h b hb
    simp only [List.mem_cons, List.mem_singleton, List.not_mem_nil, or_false, not_or] at this
    simp [this]
  simp only [get_baselineoffset, hs, if_true]

/-- C12 (the code at the failing input): the text `°` (degree sign, UTF-8
bytes C2 B0) contains none of the characters q, g, j, p, y, Q, µ, but it shares
the byte C2 with the UTF-8 encoding C2 B5 of `µ` in the accept string of
`strpbrk`, so `get_baselineoffset` measures `o` and `g` and returns their
height difference, 3 with the example font, not 0. -/
theorem get_baselineoffset_degree_sign :
    c_string "°" = [0xC2, 0xB0] ∧
    c_string "QgjpqyQµ" = [0x51, 0x67, 0x6a, 0x70, 0x71, 0x79, 0x51, 0xC2, 0xB5] ∧
    (∀ ch ∈ "°".data, ch ∉ "qgjpyQµ".data) ∧
    strpbrk (c_string "°") (c_string "QgjpqyQµ") = true ∧
    get_baselineoffset (example_text_env example_descender_font) "°" "Helvetica" 12 = 3 := by
  refine ⟨by decide, by decide, by decide, by decide, by decide⟩

/-! ## Theorems: polarity and the content of the raster lines -/

theorem foldlM_option_congr {α β : Type} (f g : β → α → Option β) :
    ∀ (l : List α) (b : β), (∀ a ∈ l, ∀ b, f b a = g b a) → l.foldlM f b = l.foldlM g b := by
  intro l
  induction l with
  | nil => intro b _; rfl
  | cons a l ih =>
    intro b h
    simp only [List.foldlM_cons]
    rw [h a (List.mem_cons_self _ _) b]
    cases g b a with
    | none => rfl
    | some b2 => exact ih b2 (fun a2 ha2 => h a2 (List.mem_cons_of_mem _ ha2))

theorem print_img_columns_congr (ptdev : ptouch_dev) (im im2 : gdImage) (d d2 : Nat)
    (offset : Int) :
    ∀ (ks : List Nat) (w : World),
      (∀ k ∈ ks, print_img_rasterline im2 d2 offset k = print_img_rasterline im d offset k) →
      print_img_columns ptdev im2 d2 offset ks w = print_img_columns ptdev im d offset ks w := by
  intro ks
  induction ks with
  | nil => intro w _; rfl
  | cons k ks ih =>
    intro w h
    simp only [print_img_columns]
    rw [h k (List.mem_cons_self _ _)]
    cases print_img_rasterline im d offset k with
    | none => rfl
    | some line =>
      simp only
      rw [ih _ (fun k2 hk2 => h k2 (List.mem_cons_of_mem _ hk2))]

theorem is_ink_threshold (d v : Nat) :
    is_ink d v = true ↔ (if d = 0 then v ≤ 127 else 128 ≤ v) := by
  unfold is_ink
  by_cases h : d = 0
  · subst h; simp
  · simp [h]

theorem darker_index_swap (im : gdImage) (c0 c1 : Nat × Nat × Nat)
    (rest : List (Nat × Nat × Nat)) (hc : im.colors = c0 :: c1 :: rest)
    (hne : c0.1 + c0.2.1 + c0.2.2 ≠ c1.1 + c1.2.1 + c1.2.2) :
    darker_index (swap_polarity im) = 1 - darker_index im ∧ darker_index im ≤ 1 := by
  simp only [darker_index, swap_polarity, gdImageRed, gdImageGreen, gdImageBlue, hc,
    List.getD_cons_zero, List.getD_cons_succ]
  split <;> split <;> omega

theorem print_img_rasterline_swap (im : gdImage) (c0 c1 : Nat × Nat × Nat)
    (rest : List (Nat × Nat × Nat)) (hc : im.colors = c0 :: c1 :: rest)
    (hne : c0.1 + c0.2.1 + c0.2.2 ≠ c1.1 + c1.2.1 + c1.2.2)
    (hv : ∀ x y, im.pixels x y ≤ 255) (offset : Int) (k : Nat) (hk : k < im.sx) :
    print_img_rasterline (swap_polarity im) (darker_index (swap_polarity im)) offset k =
      print_img_rasterline im (darker_index im) offset k := by
  obtain ⟨hd, hd1⟩ := darker_index_swap im c0 c1 rest hc hne
  unfold print_img_rasterline
  have hsy : (swap_polarity im).sy = im.sy := rfl
  rw [hsy]
  apply foldlM_option_congr
  intro i hi line
  have hi2 := List.mem_range.mp hi
  have hpix : gdImageGetPixel (swap_polarity im) k (im.sy - 1 - i) =
      255 - gdImageGetPixel im k (im.sy - 1 - i) := by
    simp only [gdImageGetPixel, swap_polarity]
    rw [if_pos ⟨hk, by omega⟩, if_pos ⟨hk, by omega⟩]
  have hle : gdImageGetPixel im k (im.sy - 1 - i) ≤ 255 := by
    simp only [gdImageGetPixel]
    rw [if_pos ⟨hk, by omega⟩]
    exact hv _ _
  have hink : is_ink (darker_index (swap_polarity im))
      (gdImageGetPixel (swap_polarity im) k (im.sy - 1 - i)) =
      is_ink (darker_index im) (gdImageGetPixel im k (im.sy - 1 - i)) := by
    rw [Bool.eq_iff_iff, is_ink_threshold, is_ink_threshold, hpix, hd]
    by_cases h0 : darker_index im = 0
    · rw [h0]; simp only [if_pos, if_neg]; simp; omega
    · have h1 : darker_index im = 1 := by omega
      rw [h1]; simp; omega
  simp only [print_img_row, hsy, hink]

/-- C13 (counterexample): in a 1 by 1 canvas with the palette white, black
whose pixel has the index 1, the darker of the two, the pixel is not encoded as
ink: the raster line of its column is all zero. -/
theorem print_img_index_one_not_ink :
    darker_index (example_pattern 1 1) = 1 ∧
    gdImageGetPixel (example_pattern 1 1) 0 0 = 1 ∧
    is_ink (darker_index (example_pattern 1 1)) (gdImageGetPixel (example_pattern 1 1) 0 0)
      = false ∧
    print_img_rasterline (example_pattern 1 1) (darker_index (example_pattern 1 1))
      (64 - ((1 / 2 : Nat) : Int)) 0 = some (List.replicate 16 0) := by
  refine ⟨by decide, by decide, by decide, by decide⟩

/-- C13 (amended): ink classification in `print_img` follows the detected
polarity through a threshold on the pixel value: when colour 1 has the lower
R+G+B sum a pixel is ink iff its value is at least 128, otherwise iff its value
is at most 127; so, when the two sums differ and the pixel values are at most
255, exchanging the two palette entries together with replacing every pixel
value `v` by `255 - v` yields exactly the same raster lines and the same
result of `print_img`. -/
theorem print_img_polarity (im : gdImage) :
    (∀ v, is_ink (darker_index im) v = true ↔
      (if gdImageRed im 1 + gdImageGreen im 1 + gdImageBlue im 1
            < gdImageRed im 0 + gdImageGreen im 0 + gdImageBlue im 0
        then 128 ≤ v else v ≤ 127)) ∧
    (∀ (c0 c1 : Nat × Nat × Nat) (rest : List (Nat × Nat × Nat)),
      im.colors = c0 :: c1 :: rest →
      c0.1 + c0.2.1 + c0.2.2 ≠ c1.1 + c1.2.1 + c1.2.2 →
      (∀ x y, im.pixels x y ≤ 255) →
      (∀ (offset : Int) (k : Nat), k < im.sx →
        print_img_rasterline (swap_polarity im) (darker_index (swap_polarity im)) offset k =
          print_img_rasterline im (darker_index im) offset k) ∧
      ∀ (ptdev : ptouch_dev) (w : World),
        print_img ptdev (some (swap_polarity im)) w = print_img ptdev (some im) w) := by
  constructor
  · intro v
    rw [is_ink_threshold]
    unfold darker_index
    split <;> simp
  · intro c0 c1 rest hc hne hv
    refine ⟨fun offset k hk => print_img_rasterline_swap im c0 c1 rest hc hne hv offset k hk, ?_⟩
    intro ptdev w
    have hsx : (swap_polarity im).sx = im.sx := rfl
    have hsy : (swap_polarity im).sy = im.sy := rfl
    simp only [print_img, hsx, hsy]
    rw [print_img_columns_congr ptdev im (swap_polarity im) (darker_index im)
      (darker_index (swap_polarity im)) _ (List.range im.sx) _
      (fun k hk => print_img_rasterline_swap im c0 c1 rest hc hne hv _ k (List.mem_range.mp hk))]

/-- C13 (witness): an all-ink column of height 4 (value 255, palette white,
black) and its exchanged form (value 0, palette black, white) give the same
raster line, with the bits of positions 62 to 65 set. -/
theorem print_img_polarity_witness :
    print_img_rasterline (swap_polarity (example_solid 1 4))
        (darker_index (swap_polarity (example_solid 1 4))) 62 0 =
      print_img_rasterline (example_solid 1 4) (darker_index (example_solid 1 4)) 62 0 ∧
    print_img_rasterline (example_solid 1 4) (darker_index (example_solid 1 4)) 62 0 =
      some [0, 0, 0, 0, 0, 0, 0, 3, 192, 0, 0, 0, 0, 0, 0, 0] :=
  ⟨((print_img_polarity (example_solid 1 4)).2 (255, 255, 255) (0, 0, 0) [] rfl (by decide)
      (fun _ _ => Nat.le_refl 255)).1 62 0 (by decide), by decide⟩

/-! ## Theorems: centring -/

/-- C19: for every canvas height `h ≤ 128` and every row `i < h`, the logical
position `64 - h/2 + i` computed by `print_img` lies in `0..127`, so
`rasterline_setpixel` skips nothing: on every 16-byte line it returns a line in
which the bit `position mod 8` of byte `15 - position div 8` is set. -/
theorem print_img_position_in_range (h i : Nat) (hh : h ≤ 128) (hi : i < h) :
    0 ≤ (64 : Int) - ((h / 2 : Nat) : Int) + (i : Int) ∧
    (64 : Int) - ((h / 2 : Nat) : Int) + (i : Int) < 128 ∧
    ∀ L : List Nat, IsRasterLine L →
      ∃ L2, rasterline_setpixel L ((64 : Int) - ((h / 2 : Nat) : Int) + (i : Int)) = some L2 ∧
        IsRasterLine L2 ∧
        (L2.getD (15 - (64 - h / 2 + i) / 8) 0).testBit ((64 - h / 2 + i) % 8) = true := by
  have hpos : (64 : Int) - ((h / 2 : Nat) : Int) + (i : Int) = ((64 - h / 2 + i : Nat) : Int) := by
    omega
  have hlt : 64 - h / 2 + i < 128 := by omega
  refine ⟨by omega, by omega, ?_⟩
  intro L hL
  obtain ⟨hlen, hbytes⟩ := hL
  rw [hpos]
  have hidx : 15 - (64 - h / 2 + i) / 8 < L.length := by omega
  refine ⟨_, rasterline_setpixel_in_range L _ hlt, ⟨by simp [hlen], ?_⟩, ?_⟩
  · intro b hb
    rcases List.mem_or_eq_of_mem_set hb with hm | hm
    · exact hbytes b hm
    · rw [hm]; exact byte_or_bit_lt _ _
  · rw [getD_set_eq_ite L _ _ _ hidx, if_pos rfl]
    have hb : L.getD (15 - (64 - h / 2 + i) / 8) 0 < 256 := by
      rw [List.getD_eq_getElem?_getD, List.getElem?_eq_getElem hidx]
      exact hbytes _ (List.getElem_mem _)
    rw [byte_or_bit_testBit _ _ _ hb (Nat.mod_lt _ (by norm_num))]
    simp

/-- C19 (witness): the top row of a canvas of height 128 goes to position
127. -/
theorem print_img_position_in_range_witness :
    (128 : Nat) ≤ 128 ∧ (127 : Nat) < 128 ∧
    (64 : Int) - ((128 / 2 : Nat) : Int) + ((127 : Nat) : Int) < 128 :=
  ⟨by decide, by decide, (print_img_position_in_range 128 127 (by decide) (by decide)).2.1⟩

/-! ## Theorems: the font size chosen by `render_text` -/

theorem find_fontsize_loop_range (ft : FontEngine) (want_px : Int) (font text : String) :
    ∀ (fuel : Nat) (i save r : Int),
      find_fontsize_loop ft want_px font text fuel i save = some r → 4 ≤ i →
      (save = 0 ∨ 4 ≤ save) → (r = 0 ∨ 4 ≤ r) := by
  intro fuel
  induction fuel with
  | zero => intro i save r h; simp [find_fontsize_loop] at h
  | succ fuel ih =>
    intro i save r h hi hs
    simp only [find_fontsize_loop] at h
    cases hm : ft.stringFT font i text with
    | none =>
      simp only [hm, Option.some.injEq] at h
      omega
    | some brect =>
      simp only [hm] at h
      by_cases hle : brect 1 - brect 5 ≤ want_px
      · rw [if_pos hle] at h
        exact ih (i + 1) i r h (by omega) (by omega)
      · rw [if_neg hle] at h
        simp only [Option.some.injEq] at h
        omega

theorem find_fontsize_range (ft : FontEngine) (fuel : Nat) (want_px : Int) (font text : String)
    (r : Int) (h : find_fontsize ft fuel want_px font text = some r) : r = -1 ∨ 4 ≤ r := by
  obtain ⟨save, hl, hr⟩ := find_fontsize_some ft fuel want_px font text r h
  have := find_fontsize_loop_range ft want_px font text fuel 4 0 save hl (by omega) (by omega)
  subst hr
  split <;> omega

theorem render_text_fsz_loop_fail (env : TextEnv) (want_px : Int) (font : String)
    (f : String → Int) :
    ∀ (ls : List String) (fsz : Int),
      (∀ l ∈ ls, find_fontsize env.ft env.fuel want_px font l = some (f l)) →
      (∃ l ∈ ls, f l < 0) →
      render_text_fsz_loop env want_px font ls fsz = some none := by
  intro ls
  induction ls with
  | nil => intro fsz _ h; obtain ⟨l, hl, _⟩ := h; simp at hl
  | cons l ls ih =>
    intro fsz hf hneg
    simp only [render_text_fsz_loop, hf l (List.mem_cons_self _ _)]
    by_cases hl : f l < 0
    · rw [if_pos hl]
    · rw [if_neg hl]
      apply ih _ (fun l2 h2 => hf l2 (List.mem_cons_of_mem _ h2))
      obtain ⟨l2, h2, h3⟩ := hneg
      rcases List.mem_cons.mp h2 with rfl | h2
      · exact absurd h3 hl
      · exact ⟨l2, h2, h3⟩

theorem render_text_fsz_loop_min (env : TextEnv) (want_px : Int) (font : String)
    (f : String → Int) :
    ∀ (ls : List String) (fsz : Int), 0 < fsz →
      (∀ l ∈ ls, find_fontsize env.ft env.fuel want_px font l = some (f l)) →
      (∀ l ∈ ls, 0 < f l) →
      ∃ m, render_text_fsz_loop env want_px font ls fsz = some (some m) ∧
        m ≤ fsz ∧ (∀ l ∈ ls, m ≤ f l) ∧ (m = fsz ∨ ∃ l ∈ ls, f l = m) := by
  intro ls
  induction ls with
  | nil =>
    intro fsz _ _ _
    exact ⟨fsz, rfl, le_refl _, by simp, Or.inl rfl⟩
  | cons l ls ih =>
    intro fsz hpos hf hp
    have hl := hp l (List.mem_cons_self _ _)
    simp only [render_text_fsz_loop, hf l (List.mem_cons_self _ _)]
    rw [if_neg (by omega)]
    by_cases hlt : f l < fsz
    · rw [if_pos (Or.inr hlt)]
      obtain ⟨m, hm, h1, h2, h3⟩ := ih (f l) hl
        (fun l2 h2 => hf l2 (List.mem_cons_of_mem _ h2))
        (fun l2 h2 => hp l2 (List.mem_cons_of_mem _ h2))
      refine ⟨m, hm, by omega, ?_, ?_⟩
      · intro l2 hl2
        rcases List.mem_cons.mp hl2 with rfl | hl2
        · exact h1
        · exact h2 l2 hl2
      · right
        rcases h3 with h3 | ⟨l2, hl2, h3⟩
        · exact ⟨l, List.mem_cons_self _ _, h3.symm⟩
        · exact ⟨l2, List.mem_cons_of_mem _ hl2, h3⟩
    · rw [if_neg (by omega)]
      obtain ⟨m, hm, h1, h2, h3⟩ := ih fsz hpos
        (fun l2 h2 => hf l2 (List.mem_cons_of_mem _ h2))
        (fun l2 h2 => hp l2 (List.mem_cons_of_mem _ h2))
      refine ⟨m, hm, h1, ?_, ?_⟩
      · intro l2 hl2
        rcases List.mem_cons.mp hl2 with rfl | hl2
        · omega
        · exact h2 l2 hl2
      · rcases h3 with h3 | ⟨l2, hl2, h3⟩
        · exact Or.inl h3
        · exact Or.inr ⟨l2, List.mem_cons_of_mem _ hl2, h3⟩

/-- C18 (counterexample): with the positive manual override 3000000000, which
does not fit in an `int`, the override is not used: the size search is run and
the chosen size is its result, 40 with the example font on a tape of 76
pixels. -/
theorem render_text_fsz_override_too_large :
    render_text_fsz (example_text_env example_font) 3000000000 "Helvetica" ["label"] 76 =
      some (some 40) := by
  decide

/-- C18 (amended): when a positive manual font size override that fits in an
`int` (at most 2147483647) is configured, it is the chosen size, whatever the
font engine does (no size search is consulted); otherwise, for every non-empty
list of `n` lines whose searches `find_fontsize(tape_width / n, font, line)`
(integer division) return, `render_text` fails if the search fails for any
line, and else the chosen size is the minimum of the search results over all
lines. -/
theorem render_text_fsz_spec (env : TextEnv) (fontsize : Int) (font : String)
    (line : List String) (tape_width : Nat) :
    (0 < fontsize → fontsize ≤ 2147483647 →
      render_text_fsz env fontsize font line tape_width = some (some fontsize)) ∧
    ((fontsize ≤ 0 ∨ 2147483647 < fontsize) → line ≠ [] →
      ∀ f : String → Int,
        (∀ l ∈ line, find_fontsize env.ft env.fuel ((tape_width : Int) / (line.length : Int))
          font l = some (f l)) →
        ((∃ l ∈ line, f l < 0) →
          render_text_fsz env fontsize font line tape_width = some none) ∧
        ((∀ l ∈ line, 0 ≤ f l) →
          ∃ fsz, render_text_fsz env fontsize font line tape_width = some (some fsz) ∧
            (∃ l ∈ line, f l = fsz) ∧ ∀ l ∈ line, fsz ≤ f l)) := by
  constructor
  · intro h0 h1
    have ht : to_int fontsize = fontsize := by unfold to_int; omega
    simp only [render_text_fsz, ht]
    rw [if_pos ⟨h0, trivial⟩]
  · intro hr hne f hf
    have hcond : ¬ (to_int fontsize > 0 ∧ to_int fontsize = fontsize) := by
      unfold to_int; omega
    simp only [render_text_fsz]
    rw [if_neg hcond]
    constructor
    · intro hneg
      exact render_text_fsz_loop_fail env _ font f line 0 hf hneg
    · intro hall
      have hpos : ∀ l ∈ line, 0 < f l := by
        intro l hl
        have := find_fontsize_range _ _ _ _ _ _ (hf l hl)
        have := hall l hl
        omega
      cases line with
      | nil => exact absurd rfl hne
      | cons l ls =>
        have hl := hpos l (List.mem_cons_self _ _)
        simp only [render_text_fsz_loop, hf l (List.mem_cons_self _ _)]
        rw [if_neg (by omega), if_pos (Or.inl trivial)]
        obtain ⟨m, hm, h1, h2, h3⟩ := render_text_fsz_loop_min env _ font f ls (f l) hl
          (fun l2 h2 => hf l2 (List.mem_cons_of_mem _ h2))
          (fun l2 h2 => hpos l2 (List.mem_cons_of_mem _ h2))
        refine ⟨m, hm, ?_, ?_⟩
        · rcases h3 with h3 | ⟨l2, hl2, h3⟩
          · exact ⟨l, List.mem_cons_self _ _, h3.symm⟩
          · exact ⟨l2, List.mem_cons_of_mem _ hl2, h3⟩
        · intro l2 hl2
          rcases List.mem_cons.mp hl2 with rfl | hl2
          · exact h1
          · exact h2 l2 hl2

/-- C18 (witness): the override 12 is the chosen size; without an override two
lines on a tape of 76 pixels are searched with the budget 38, and the chosen
size is the minimum, 38 with the example font. -/
theorem render_text_fsz_spec_witness :
    render_text_fsz (example_text_env example_font) 12 "Helvetica" ["label"] 76 =
      some (some 12) ∧
    ∃ fsz, render_text_fsz (example_text_env example_font) 0 "Helvetica" ["one", "two"] 76 =
        some (some fsz) ∧ fsz ≤ 38 := by
  have t1 := (render_text_fsz_spec (example_text_env example_font) 12 "Helvetica" ["label"]
    76).1 (by decide) (by decide)
  have t2 := ((render_text_fsz_spec (example_text_env example_font) 0 "Helvetica"
    ["one", "two"] 76).2 (Or.inl (by decide)) (by simp) (fun _ => 38)
    (by
      intro l hl
      simp only [List.mem_cons, List.mem_singleton, List.not_mem_nil, or_false] at hl
      rcases hl with rfl | rfl <;> decide)).2
    (by intro l _; decide)
  obtain ⟨fsz, h1, _, h3⟩ := t2
  exact ⟨t1, fsz, h1, h3 "one" (by simp)⟩

/-! ## Theorems: failing measurements in `render_text` -/

/-- C15 (the code at the failing input): with the manual font size 12 and a
font whose every measurement fails, the width measurement `needed_width`
returns -1 and the line-height measurement fails, but `render_text` returns a
canvas, of width 0 and height 76, not failure. -/
theorem render_text_ignores_failed_measurement :
    example_failing_font.stringFT "Helvetica" 12 "label" = none ∧
    needed_width (example_text_env example_failing_font) "label" "Helvetica" 12 = -1 ∧
    (render_text (example_text_env example_failing_font) "Helvetica" 12 "Helvetica" ["label"]
      76).map (Option.map (fun im => (im.sx, im.sy))) = some (some (0, 76)) := by
  refine ⟨rfl, by decide, by decide⟩

/-! ## Theorems: canvas heights in the command loop -/

theorem render_text_draw_sy (env : TextEnv) (font_file font : String) (fsz : Int)
    (lines tape_width : Nat) (max_height : Int) :
    ∀ (ls : List String) (i : Nat) (im : gdImage),
      (render_text_draw env font_file font fsz lines tape_width max_height ls i im).sy = im.sy ∧
      (render_text_draw env font_file font fsz lines tape_width max_height ls i im).sx = im.sx := by
  intro ls
  induction ls with
  | nil => intro i im; exact ⟨rfl, rfl⟩
  | cons l ls ih =>
    intro i im
    simp only [render_text_draw]
    obtain ⟨h1, h2⟩ := ih (i + 1) (gdImageStringFT_draw env im font fsz 0
      ((i : Int) * ((tape_width : Int) / (lines : Int)) + max_height -
        get_baselineoffset env l font_file fsz - 1) l)
    rw [h1, h2]
    unfold gdImageStringFT_draw
    split <;> exact ⟨rfl, rfl⟩

theorem render_text_sy (env : TextEnv) (font_file : String) (fontsize : Int) (font : String)
    (line : List String) (tape_width : Nat) (im : gdImage)
    (h : render_text env font_file fontsize font line tape_width = some (some im)) :
    im.sy = tape_width := by
  simp only [render_text, gdImageCreatePalette, gdImageColorAllocate] at h
  split at h
  · simp at h
  · simp at h
  · simp only [Option.some.injEq] at h
    rw [← h, (render_text_draw_sy _ _ _ _ _ _ _ _ _ _).1]

theorem img_cutmark_sy (tape_width : Nat) (im : gdImage)
    (h : img_cutmark tape_width = some im) : im.sy = tape_width ∧ im.sx = 9 := by
  simp only [img_cutmark, gdImageCreatePalette, gdImageColorAllocate, Option.some.injEq] at h
  rw [← h]
  exact ⟨rfl, rfl⟩

theorem img_padding_sy (tape_width : Nat) (n : Int) (im : gdImage)
    (h : img_padding tape_width n = some im) : im.sy = tape_width := by
  simp only [img_padding, gdImageCreatePalette, gdImageColorAllocate, Option.some.injEq] at h
  rw [← h]

theorem img_append_keeps_height (tw : Nat) (a b : Option gdImage)
    (ha : ∀ im, a = some im → im.sy = tw) (hb : ∀ im, b = some im → im.sy = tw) :
    ∀ im, img_append a b = some im → im.sy = tw := by
  intro im h
  cases a with
  | none =>
    cases b with
    | none => simp [img_append] at h
    | some b =>
      by_cases hpos : 0 < b.sx ∧ 0 < b.sy
      · rw [img_append_none_left b hpos.1 hpos.2, Option.some.injEq] at h
        rw [← h]
        exact hb b rfl
      · have hnone : img_append none (some b) = none := by
          simp only [img_append]
          rw [if_pos (by split <;> omega)]
        rw [hnone] at h
        simp at h
  | some a =>
    cases b with
    | none =>
      by_cases hpos : 0 < a.sx ∧ 0 < a.sy
      · rw [img_append_none_right a hpos.1 hpos.2, Option.some.injEq] at h
        rw [← h]
        exact ha a rfl
      · have hnone : img_append (some a) none = none := by
          simp only [img_append]
          rw [if_pos (by omega)]
        rw [hnone] at h
        simp at h
    | some b =>
      by_cases hpos : 0 < a.sx + b.sx ∧ 0 < max a.sy b.sy
      · rw [img_append_some a b hpos.1 hpos.2, Option.some.injEq] at h
        rw [← h]
        show max a.sy b.sy = tw
        rw [ha a rfl, hb b rfl]
        exact max_self tw
      · have hnone : img_append (some a) (some b) = none := by
          simp only [img_append]
          rw [if_pos (by split <;> omega)]
        rw [hnone] at h
        simp at h

theorem flush_print_job_out_none (ptdev : ptouch_dev) (out : Option gdImage)
    (do_precut cut_after final_label : Bool) (media_width_mm : Nat) (w : World)
    (r : FlushResult)
    (h : flush_print_job none ptdev out do_precut cut_after final_label media_width_mm w
      = some r) : r.out = none := by
  cases out with
  | none =>
    simp only [flush_print_job, Option.some.injEq] at h
    rw [← h]
  | some label =>
    exact (flush_print_job_spec ptdev label do_precut cut_after final_label media_width_mm w r
      h).1

theorem main_flush_out (env : MainEnv) (ptdev : ptouch_dev) (st : MainState)
    (cut_after final_label : Bool) (r : Int × MainState) (hs : st.save_png = none)
    (h : main_flush env ptdev st cut_after final_label = some r) :
    r.2.out = none ∧ r.2.save_png = none ∧ r.2.do_precut = st.do_precut ∧
      r.2.do_postcut = st.do_postcut ∧ r.2.written = st.written := by
  simp only [main_flush, hs] at h
  cases hf : flush_print_job none ptdev st.out st.do_precut cut_after final_label
      env.media_width st.world with
  | none => simp [hf] at h
  | some fr =>
    simp only [hf, Option.some.injEq] at h
    rw [← h]
    exact ⟨flush_print_job_out_none ptdev _ _ _ _ _ _ fr hf, rfl, rfl, rfl, rfl⟩

theorem main_loop_height (env : MainEnv) (ptdev : ptouch_dev) :
    ∀ (cmds : List Command) (st : MainState) (lr : LoopResult),
      (∀ file im, Command.image file ∈ cmds → env.image_load file = some im →
        im.sy = ptouch_getmaxwidth ptdev) →
      (∀ im, st.out = some im → im.sy = ptouch_getmaxwidth ptdev) →
      main_loop env ptdev cmds st = some lr →
      ∀ im, lr.state.out = some im → im.sy = ptouch_getmaxwidth ptdev := by
  intro cmds
  induction cmds with
  | nil =>
    intro st lr _ hst h
    simp only [main_loop, Option.some.injEq] at h
    rw [← h]
    exact hst
  | cons c rest ih =>
    intro st lr himg hst h
    have himg2 : ∀ file im, Command.image file ∈ rest → env.image_load file = some im →
        im.sy = ptouch_getmaxwidth ptdev :=
      fun file im hm => himg file im (List.mem_cons_of_mem _ hm)
    cases c with
    | font file =>
      simp only [main_loop] at h
      refine ih _ lr himg2 ?_ h
      exact hst
    | fontsize value =>
      simp only [main_loop] at h
      refine ih _ lr himg2 ?_ h
      exact hst
    | writepng file =>
      simp only [main_loop] at h
      refine ih _ lr himg2 ?_ h
      exact hst
    | info =>
      simp only [main_loop, Option.some.injEq] at h
      rw [← h]
      exact hst
    | image file =>
      simp only [main_loop] at h
      cases hl : env.image_load file with
      | none =>
        simp only [hl, Option.some.injEq] at h
        rw [← h]
        exact hst
      | some im =>
        simp only [hl] at h
        refine ih _ lr himg2 ?_ h
        exact img_append_keeps_height _ _ _ hst
          (fun im2 h2 => by
            rw [Option.some.injEq] at h2
            rw [← h2]
            exact himg file im (List.mem_cons_self _ _) hl)
    | text line =>
      simp only [main_loop] at h
      by_cases h0 : line.length = 0
      · rw [if_pos h0] at h
        refine ih _ lr himg2 ?_ h
        exact hst
      · rw [if_neg h0] at h
        cases hr : render_text env.text st.font_file st.fontsize st.font_file line
            (ptouch_getmaxwidth ptdev) with
        | none => simp [hr] at h
        | some res =>
          cases res with
          | none =>
            simp only [hr, Option.some.injEq] at h
            rw [← h]
            exact hst
          | some im =>
            simp only [hr] at h
            refine ih _ lr himg2 ?_ h
            exact img_append_keeps_height _ _ _ hst
              (fun im2 h2 => by
                rw [Option.some.injEq] at h2
                rw [← h2]
                exact render_text_sy _ _ _ _ _ _ im hr)
    | cutmark =>
      simp only [main_loop] at h
      refine ih _ lr himg2 ?_ h
      exact img_append_keeps_height _ _ _ hst (fun im2 h2 => (img_cutmark_sy _ im2 h2).1)
    | pad value =>
      simp only [main_loop] at h
      refine ih _ lr himg2 ?_ h
      exact img_append_keeps_height _ _ _ hst (fun im2 h2 => img_padding_sy _ _ im2 h2)
    | debug =>
      simp only [main_loop] at h
      refine ih _ lr himg2 ?_ h
      exact hst
    | cut =>
      simp only [main_loop] at h
      by_cases hs : st.save_png.isSome = true
      · rw [if_pos hs] at h
        simp only [Option.some.injEq] at h
        rw [← h]
        exact hst
      · rw [if_neg hs] at h
        have hs2 : st.save_png = none := by
          cases hsp : st.save_png with
          | none => rfl
          | some f => rw [hsp] at hs; simp at hs
        cases hf : main_flush env ptdev st true false with
        | none => simp [hf] at h
        | some r =>
          simp only [hf] at h
          have hout := (main_flush_out env ptdev st true false r hs2 hf).1
          by_cases hrc : r.1 ≠ 0
          · rw [if_pos hrc] at h
            simp only [Option.some.injEq] at h
            rw [← h]
            intro im him
            simp only [LoopResult.state] at him
            rw [hout] at him
            simp at him
          · rw [if_neg hrc] at h
            refine ih _ lr himg2 ?_ h
            intro im him
            rw [hout] at him
            simp at him
    | no_precut =>
      simp only [main_loop] at h
      refine ih _ lr himg2 ?_ h
      exact hst
    | no_postcut =>
      simp only [main_loop] at h
      refine ih _ lr himg2 ?_ h
      exact hst

/-- C16 (counterexample): after a padding and a loaded image of height 100 on
a device whose maximum printable width is 76, the appended canvases have the
heights 76 and 100, and the accumulator is 100 pixels high, above the device's
maximum. -/
theorem main_loop_image_breaks_height :
    (img_padding 76 10).map (fun im => im.sy) = some 76 ∧
    (main_loop (example_main_env (example_canvas 5 100)) (example_device 76 false)
        [Command.pad 10, Command.image "logo.png"] (MainState.init World.init)).map
      (fun lr => lr.state.out.map (fun im => (im.sx, im.sy))) = some (some (15, 100)) := by
  refine ⟨by decide, by decide⟩

/-- C16 (amended): every canvas that `main` appends for a rendered text, a
cut-mark or a padding has the height `tape_width`, the device's maximum
printable width; so when every loaded image has that height too, the
accumulator, whenever it is non-empty, has that height after every command, and
never exceeds the maximum printable width.  (A loaded image keeps its own
height, and `img_append` takes the larger one.) -/
theorem main_loop_height_invariant (env : MainEnv) (ptdev : ptouch_dev) :
    (∀ (font_file : String) (fontsize : Int) (line : List String) (im : gdImage),
      render_text env.text font_file fontsize font_file line (ptouch_getmaxwidth ptdev)
        = some (some im) → im.sy = ptouch_getmaxwidth ptdev) ∧
    (∀ im, img_cutmark (ptouch_getmaxwidth ptdev) = some im →
      im.sy = ptouch_getmaxwidth ptdev) ∧
    (∀ (n : Int) (im : gdImage), img_padding (ptouch_getmaxwidth ptdev) n = some im →
      im.sy = ptouch_getmaxwidth ptdev) ∧
    ∀ (cmds : List Command) (st : MainState) (lr : LoopResult),
      (∀ file im, Command.image file ∈ cmds → env.image_load file = some im →
        im.sy = ptouch_getmaxwidth ptdev) →
      (∀ im, st.out = some im → im.sy = ptouch_getmaxwidth ptdev) →
      main_loop env ptdev cmds st = some lr →
      ∀ im, lr.state.out = some im →
        im.sy = ptouch_getmaxwidth ptdev ∧ im.sy ≤ ptouch_getmaxwidth ptdev := by
  refine ⟨fun font_file fontsize line im h => render_text_sy _ _ _ _ _ _ im h,
    fun im h => (img_cutmark_sy _ im h).1, fun n im h => img_padding_sy _ n im h, ?_⟩
  intro cmds st lr himg hst h im him
  have := main_loop_height env ptdev cmds st lr himg hst h im him
  exact ⟨this, by omega⟩

/-- C16 (witness): a rendered text, a cut-mark, a padding and a loaded image of
height 76 on a device of maximum width 76 leave an accumulator of height 76. -/
theorem main_loop_height_invariant_witness :
    ∃ lr, main_loop (example_main_env (example_canvas 5 76)) (example_device 76 false)
        [Command.text ["ab"], Command.cutmark, Command.pad 10, Command.image "logo.png"]
        (MainState.init World.init) = some lr ∧
      ∀ im, lr.state.out = some im → im.sy = 76 := by
  have t := (main_loop_height_invariant (example_main_env (example_canvas 5 76))
    (example_device 76 false)).2.2.2
    [Command.text ["ab"], Command.cutmark, Command.pad 10, Command.image "logo.png"]
    (MainState.init World.init)
  have hsome : (main_loop (example_main_env (example_canvas 5 76)) (example_device 76 false)
      [Command.text ["ab"], Command.cutmark, Command.pad 10, Command.image "logo.png"]
      (MainState.init World.init)).isSome = true := by decide
  cases h : main_loop (example_main_env (example_canvas 5 76)) (example_device 76 false)
      [Command.text ["ab"], Command.cutmark, Command.pad 10, Command.image "logo.png"]
      (MainState.init World.init) with
  | none => rw [h] at hsome; simp at hsome
  | some lr =>
    refine ⟨lr, rfl, fun im him => (t lr ?_ ?_ h im him).1⟩
    · intro file im _ hl
      simp only [example_main_env, Option.some.injEq] at hl
      rw [← hl]; rfl
    · intro im him
      simp [MainState.init] at him

/-! ## Theorems: the call order of a flush -/

theorem mem_dropLast_cons {α : Type} (x : α) (l : List α) (e : α)
    (h : e ∈ (x :: l).dropLast) : e = x ∨ e ∈ l.dropLast := by
  cases l with
  | nil => simp at h
  | cons y l =>
    rw [List.dropLast_cons₂] at h
    rcases List.mem_cons.mp h with h | h
    · exact Or.inl h
    · exact Or.inr h

theorem spec_issue_in_order_append (ptdev : ptouch_dev) :
    ∀ (xs ys : List DevCall) (tr : List (DevCall × Int)),
      spec_issue_in_order ptdev (xs ++ ys) tr =
        if (spec_issue_in_order ptdev xs tr).1 ≠ 0 then spec_issue_in_order ptdev xs tr
        else spec_issue_in_order ptdev ys (spec_issue_in_order ptdev xs tr).2 := by
  intro xs
  induction xs with
  | nil => intro ys tr; simp [spec_issue_in_order]
  | cons c xs ih =>
    intro ys tr
    simp only [List.cons_append, spec_issue_in_order]
    by_cases hstop : ptdev.respond tr c ≠ 0 ∧ c ≠ DevCall.enable_packbits
    · rw [if_pos hstop, if_pos hstop, if_pos hstop.1]
    · rw [if_neg hstop, if_neg hstop]
      exact ih ys _

theorem spec_issue_in_order_shape (ptdev : ptouch_dev) :
    ∀ (cs : List DevCall) (tr : List (DevCall × Int)),
      ∃ evs, (spec_issue_in_order ptdev cs tr).2 = tr ++ evs ∧
        evs.map Prod.fst <+: cs ∧
        (∀ e ∈ evs.dropLast, e.1 ≠ DevCall.enable_packbits → e.2 = 0) ∧
        ((∀ e ∈ evs, e.1 ≠ DevCall.enable_packbits → e.2 = 0) ↔
          (spec_issue_in_order ptdev cs tr).1 = 0) ∧
        ((spec_issue_in_order ptdev cs tr).1 = 0 → evs.map Prod.fst = cs) := by
  intro cs
  induction cs with
  | nil =>
    intro tr
    exact ⟨[], by simp [spec_issue_in_order], by simp, by simp, by simp [spec_issue_in_order],
      by simp⟩
  | cons c cs ih =>
    intro tr
    simp only [spec_issue_in_order]
    by_cases hstop : ptdev.respond tr c ≠ 0 ∧ c ≠ DevCall.enable_packbits
    · rw [if_pos hstop]
      refine ⟨[(c, ptdev.respond tr c)], rfl, by simp, by simp, ?_, ?_⟩
      · constructor
        · intro hall
          exact absurd (hall _ (List.mem_singleton.mpr rfl) hstop.2) hstop.1
        · intro h0
          exact absurd h0 hstop.1
      · intro h0
        exact absurd h0 hstop.1
    · rw [if_neg hstop]
      obtain ⟨evs, h1, h2, h3, h4, h5⟩ := ih (tr ++ [(c, ptdev.respond tr c)])
      have hc : c ≠ DevCall.enable_packbits → ptdev.respond tr c = 0 := by
        intro hne
        by_contra hrc
        exact hstop ⟨hrc, hne⟩
      refine ⟨(c, ptdev.respond tr c) :: evs, by rw [h1]; simp, ?_, ?_, ?_, ?_⟩
      · simpa using h2
      · intro e he hne
        rcases mem_dropLast_cons _ _ _ he with rfl | he
        · exact hc hne
        · exact h3 e he hne
      · rw [← h4]
        constructor
        · intro hall e he
          exact hall e (List.mem_cons_of_mem _ he)
        · intro hall e he hne
          rcases List.mem_cons.mp he with rfl | he
          · exact hc hne
          · exact hall e he hne
      · intro h0
        simp [h5 h0]

theorem print_img_columns_refines (ptdev : ptouch_dev) (im : gdImage) (d : Nat) (offset : Int) :
    ∀ (ks : List Nat) (w : World) (r : Int × World),
      print_img_columns ptdev im d offset ks w = some r →
      r.2.trace = (spec_issue_in_order ptdev
        ((ks.map (fun k => (print_img_rasterline im d offset k).getD [])).map
          DevCall.sendraster) w.trace).2 ∧
      (r.1 = 0 ↔ (spec_issue_in_order ptdev
        ((ks.map (fun k => (print_img_rasterline im d offset k).getD [])).map
          DevCall.sendraster) w.trace).1 = 0) := by
  intro ks
  induction ks with
  | nil =>
    intro w r h
    simp only [print_img_columns, Option.some.injEq] at h
    rw [← h]
    simp [spec_issue_in_order]
  | cons k ks ih =>
    intro w r h
    simp only [print_img_columns] at h
    cases hl : print_img_rasterline im d offset k with
    | none => simp [hl] at h
    | some line =>
      simp only [hl] at h
      simp only [List.map_cons, hl, Option.getD_some, spec_issue_in_order]
      by_cases hrc : ptdev.respond w.trace (DevCall.sendraster line) ≠ 0
      · have hrc2 : (ptouch_call ptdev (DevCall.sendraster line) w).1 ≠ 0 := hrc
        rw [if_pos hrc2] at h
        simp only [Option.some.injEq] at h
        rw [if_pos ⟨hrc, by simp⟩, ← h]
        refine ⟨by simp [ptouch_call, World.err], ?_⟩
        constructor
        · intro h0; simp at h0
        · intro h0; exact absurd h0 hrc
      · have hrc2 : ¬ (ptouch_call ptdev (DevCall.sendraster line) w).1 ≠ 0 := hrc
        rw [if_neg hrc2] at h
        rw [if_neg (fun hh => hrc hh.1)]
        exact ih _ r h

theorem print_img_refines (ptdev : ptouch_dev) (im : gdImage) (w : World) (r : Int × World)
    (hfit : im.sy ≤ ptouch_getmaxwidth ptdev)
    (h : print_img ptdev (some im) w = some r) :
    ∃ lines : List (List Nat), lines.length = im.sx ∧
      r.2.trace = (spec_issue_in_order ptdev
        ((if ptdev.flag_raster_packbits = true then [DevCall.enable_packbits] else []) ++
          [DevCall.rasterstart] ++ lines.map DevCall.sendraster) w.trace).2 ∧
      (r.1 = 0 ↔ (spec_issue_in_order ptdev
        ((if ptdev.flag_raster_packbits = true then [DevCall.enable_packbits] else []) ++
          [DevCall.rasterstart] ++ lines.map DevCall.sendraster) w.trace).1 = 0) := by
  refine ⟨(List.range im.sx).map (fun k => (print_img_rasterline im (darker_index im)
    (64 - ((im.sy / 2 : Nat) : Int)) k).getD []), by simp, ?_⟩
  simp only [print_img] at h
  rw [if_neg (by omega)] at h
  by_cases hp : ptdev.flag_raster_packbits = true
  · simp only [hp, if_true, List.cons_append, List.nil_append, spec_issue_in_order] at h ⊢
    rw [if_neg (fun hh => hh.2 rfl)]
    by_cases hrc : ptdev.respond (w.trace ++ [(DevCall.enable_packbits,
        ptdev.respond w.trace DevCall.enable_packbits)]) DevCall.rasterstart ≠ 0
    · have hrc2 : (ptouch_call ptdev DevCall.rasterstart
          (ptouch_call ptdev DevCall.enable_packbits w).2).1 ≠ 0 := hrc
      rw [if_pos hrc2] at h
      simp only [Option.some.injEq] at h
      rw [if_pos ⟨hrc, by simp⟩, ← h]
      refine ⟨by simp [ptouch_call, World.err], ?_⟩
      constructor
      · intro h0; simp at h0
      · intro h0; exact absurd h0 hrc
    · have hrc2 : ¬ (ptouch_call ptdev DevCall.rasterstart
          (ptouch_call ptdev DevCall.enable_packbits w).2).1 ≠ 0 := hrc
      rw [if_neg hrc2] at h
      rw [if_neg (fun hh => hrc hh.1)]
      exact print_img_columns_refines ptdev im _ _ _ _ r h
  · simp only [hp, Bool.false_eq_true, if_false, List.nil_append, List.cons_append,
      spec_issue_in_order] at h ⊢
    by_cases hrc : ptdev.respond w.trace DevCall.rasterstart ≠ 0
    · have hrc2 : (ptouch_call ptdev DevCall.rasterstart w).1 ≠ 0 := hrc
      rw [if_pos hrc2] at h
      simp only [Option.some.injEq] at h
      rw [if_pos ⟨hrc, by simp⟩, ← h]
      refine ⟨by simp [ptouch_call, World.err], ?_⟩
      constructor
      · intro h0; simp at h0
      · intro h0; exact absurd h0 hrc
    · have hrc2 : ¬ (ptouch_call ptdev DevCall.rasterstart w).1 ≠ 0 := hrc
      rw [if_neg hrc2] at h
      rw [if_neg (fun hh => hrc hh.1)]
      exact print_img_columns_refines ptdev im _ _ _ _ r h

theorem flush_print_job_refines (ptdev : ptouch_dev) (label : gdImage)
    (do_precut cut_after final_label : Bool) (media_width_mm : Nat) (w : World)
    (r : FlushResult)
    (h : flush_print_job none ptdev (some label) do_precut cut_after final_label
      media_width_mm w = some r) :
    ∃ lines : List (List Nat), lines.length = label.sx ∧
      r.world.trace = (spec_issue_in_order ptdev
        (if label.sy ≤ ptouch_getmaxwidth ptdev then
          spec_flush_call_sequence ptdev.flag_raster_packbits do_precut cut_after final_label
            media_width_mm lines
        else
          (if (do_precut || (cut_after && !final_label)) = true
            then [DevCall.printinfo media_width_mm] else []) ++
          [DevCall.setmode (if (do_precut || (cut_after && !final_label)) = true
              then 0x40 else 0x00),
           DevCall.setadvanced (if ((!final_label) || !cut_after) = true then 0x00 else 0x08)])
        w.trace).2 := by
  simp only [flush_print_job, Option.isSome_none, Bool.false_eq_true, if_false] at h
  by_cases ha : (do_precut || (cut_after && !final_label)) = true
  · simp only [ha, if_true] at h
    by_cases hrc1 : ptdev.respond w.trace (DevCall.printinfo media_width_mm) ≠ 0
    · have hrc1b : (ptouch_call ptdev (DevCall.printinfo media_width_mm) w).1 ≠ 0 := hrc1
      rw [if_pos hrc1b] at h
      simp only [Option.some.injEq] at h
      refine ⟨List.replicate label.sx [], by simp, ?_⟩
      have hgoal : ∀ cs, ((spec_issue_in_order ptdev (DevCall.printinfo media_width_mm :: cs)
          w.trace).2 = r.world.trace) := by
        intro cs
        simp only [spec_issue_in_order]
        rw [if_pos ⟨hrc1, by simp⟩, ← h]
        simp [ptouch_call, World.err]
      split
      · simp only [spec_flush_call_sequence, ha, if_true, List.cons_append, List.nil_append,
          List.append_assoc, List.singleton_append]
        exact (hgoal _).symm
      · simp only [ha, if_true, List.cons_append, List.nil_append, List.singleton_append]
        exact (hgoal _).symm
    have hrc1b : ¬ (ptouch_call ptdev (DevCall.printinfo media_width_mm) w).1 ≠ 0 := hrc1
    rw [if_neg hrc1b] at h

    by_cases hrc2 : ptdev.respond (w.trace ++ [(DevCall.printinfo media_width_mm, ptdev.respond w.trace (DevCall.printinfo media_width_mm))]) (DevCall.setmode 64) ≠ 0
    · have hrc2b : (ptouch_call ptdev (DevCall.setmode 64) (ptouch_call ptdev (DevCall.printinfo media_width_mm) w).2).1 ≠ 0 := hrc2
      rw [if_pos hrc2b] at h
      simp only [Option.some.injEq] at h
      refine ⟨List.replicate label.sx [], by simp, ?_⟩
      have hgoal : ∀ cs, ((spec_issue_in_order ptdev (DevCall.printinfo media_width_mm :: DevCall.setmode 64 :: cs) w.trace).2
          = r.world.trace) := by
        intro cs
        simp only [spec_issue_in_order]
        rw [if_neg (fun hh => hrc1 hh.1)]
        rw [if_pos ⟨hrc2, by simp⟩, ← h]
        simp [ptouch_call, World.err]
      split
      · simp only [spec_flush_call_sequence, ha, if_true, List.cons_append, List.nil_append,
          List.append_assoc, List.singleton_append]
        exact (hgoal _).symm
      · simp only [ha, if_true, List.cons_append, List.nil_append, List.singleton_append]
        exact (hgoal _).symm
    have hrc2b : ¬ (ptouch_call ptdev (DevCall.setmode 64) (ptouch_call ptdev (DevCall.printinfo media_width_mm) w).2).1 ≠ 0 := hrc2
    rw [if_neg hrc2b] at h
    by_cases hrc3 : ptdev.respond ((w.trace ++ [(DevCall.printinfo media_width_mm, ptdev.respond w.trace (DevCall.printinfo media_width_mm))]) ++ [(DevCall.setmode 64, ptdev.respond (w.trace ++ [(DevCall.printinfo media_width_mm, ptdev.respond w.trace (DevCall.printinfo media_width_mm))]) (DevCall.setmode 64))])
        (DevCall.setadvanced (if ((!final_label) || !cut_after) = true then 0x00 else 0x08)) ≠ 0
    · have hrc3b : (ptouch_call ptdev (DevCall.setadvanced
          (if ((!final_label) || !cut_after) = true then 0x00 else 0x08))
          (ptouch_call ptdev (DevCall.setmode 64) (ptouch_call ptdev (DevCall.printinfo media_width_mm) w).2).2).1 ≠ 0 := hrc3
      rw [if_pos hrc3b] at h
      simp only [Option.some.injEq] at h
      refine ⟨List.replicate label.sx [], by simp, ?_⟩
      have hgoal : ∀ cs, ((spec_issue_in_order ptdev (DevCall.printinfo media_width_mm :: DevCall.setmode 64 ::
          DevCall.setadvanced (if ((!final_label) || !cut_after) = true then 0x00 else 0x08) :: cs)
          w.trace).2 = r.world.trace) := by
        intro cs
        simp only [spec_issue_in_order]
        rw [if_neg (fun hh => hrc1 hh.1)]
        rw [if_neg (fun hh => hrc2 hh.1), if_pos ⟨hrc3, by simp⟩, ← h]
        simp [ptouch_call, World.err]
      split
      · simp only [spec_flush_call_sequence, ha, if_true, List.cons_append, List.nil_append,
          List.append_assoc, List.singleton_append]
        exact (hgoal _).symm
      · simp only [ha, if_true, List.cons_append, List.nil_append, List.singleton_append]
        exact (hgoal _).symm
    have hrc3b : ¬ (ptouch_call ptdev (DevCall.setadvanced
        (if ((!final_label) || !cut_after) = true then 0x00 else 0x08))
        (ptouch_call ptdev (DevCall.setmode 64) (ptouch_call ptdev (DevCall.printinfo media_width_mm) w).2).2).1 ≠ 0 := hrc3
    rw [if_neg hrc3b] at h
    -- the world and the trace after the three header calls
    generalize hw3 : (ptouch_call ptdev (DevCall.setadvanced
        (if ((!final_label) || !cut_after) = true then 0x00 else 0x08))
        (ptouch_call ptdev (DevCall.setmode 64) (ptouch_call ptdev (DevCall.printinfo media_width_mm) w).2).2).2 = w3 at h
    have hhdr : ∀ cs, spec_issue_in_order ptdev (DevCall.printinfo media_width_mm :: DevCall.setmode 64 ::
        DevCall.setadvanced (if ((!final_label) || !cut_after) = true then 0x00 else 0x08) :: cs)
        w.trace = spec_issue_in_order ptdev cs w3.trace := by
      intro cs
      simp only [spec_issue_in_order]
      rw [if_neg (fun hh => hrc1 hh.1)]
      rw [if_neg (fun hh => hrc2 hh.1), if_neg (fun hh => hrc3 hh.1), ← hw3]
      rfl
    cases hpi : print_img ptdev (some label) w3 with
    | none => simp [hpi] at h
    | some r4 =>
      simp only [hpi] at h
      by_cases hfit : label.sy ≤ ptouch_getmaxwidth ptdev
      · obtain ⟨lines, hlen, htr4, hrc4⟩ := print_img_refines ptdev label w3 r4 hfit hpi
        refine ⟨lines, hlen, ?_⟩
        have hlist : spec_flush_call_sequence ptdev.flag_raster_packbits do_precut cut_after
            final_label media_width_mm lines =
            (DevCall.printinfo media_width_mm :: DevCall.setmode 64 ::
              DevCall.setadvanced (if ((!final_label) || !cut_after) = true then 0x00 else 0x08) ::
              (((if ptdev.flag_raster_packbits = true then [DevCall.enable_packbits] else []) ++
                [DevCall.rasterstart] ++ lines.map DevCall.sendraster) ++
              [if (cut_after && final_label) = true then DevCall.eject else DevCall.ff])) := by
          simp [spec_flush_call_sequence, ha]
        rw [if_pos hfit, hlist, hhdr, spec_issue_in_order_append]
        by_cases hr4 : r4.1 ≠ 0
        · rw [if_pos hr4] at h
          simp only [Option.some.injEq] at h
          rw [if_pos (fun h0 => hr4 (hrc4.mpr h0)), ← htr4, ← h]
          simp [World.err]
        · rw [if_neg hr4] at h
          rw [if_neg (fun hh => hh (hrc4.mp (not_not.mp hr4))), ← htr4]
          generalize hfin : (if (cut_after && final_label) = true
              then DevCall.eject else DevCall.ff) = final at h ⊢
          have hcall : (if (cut_after && final_label) = true
              then ptouch_call ptdev DevCall.eject r4.2
              else ptouch_call ptdev DevCall.ff r4.2) = ptouch_call ptdev final r4.2 := by
            rw [← hfin]; split <;> rfl
          have hne : final ≠ DevCall.enable_packbits := by
            rw [← hfin]; split <;> simp
          rw [hcall] at h
          simp only [spec_issue_in_order]
          by_cases hrc5 : ptdev.respond r4.2.trace final ≠ 0
          · have hrc5b : (ptouch_call ptdev final r4.2).1 ≠ 0 := hrc5
            rw [if_pos hrc5b] at h
            simp only [Option.some.injEq] at h
            rw [if_pos ⟨hrc5, hne⟩, ← h]
            simp [ptouch_call, World.err]
          · have hrc5b : ¬ (ptouch_call ptdev final r4.2).1 ≠ 0 := hrc5
            rw [if_neg hrc5b] at h
            simp only [Option.some.injEq] at h
            rw [if_neg (fun hh => hrc5 hh.1), ← h]
            simp [ptouch_call]
      · refine ⟨List.replicate label.sx [], by simp, ?_⟩
        rw [if_neg hfit]
        simp only [ha, if_true, List.cons_append, List.nil_append, List.singleton_append]
        rw [hhdr]
        simp only [print_img] at hpi
        rw [if_pos (by omega)] at hpi
        simp only [Option.some.injEq] at hpi
        rw [← hpi] at h
        rw [if_pos (by simp)] at h
        simp only [Option.some.injEq] at h
        rw [← h]
        simp [spec_issue_in_order, World.err]
  · simp only [ha, Bool.false_eq_true, if_false] at h
    have h01 : ¬ ((0 : Int), w).1 ≠ 0 := by simp
    rw [if_neg h01] at h

    by_cases hrc2 : ptdev.respond w.trace (DevCall.setmode 0) ≠ 0
    · have hrc2b : (ptouch_call ptdev (DevCall.setmode 0) w).1 ≠ 0 := hrc2
      rw [if_pos hrc2b] at h
      simp only [Option.some.injEq] at h
      refine ⟨List.replicate label.sx [], by simp, ?_⟩
      have hgoal : ∀ cs, ((spec_issue_in_order ptdev (DevCall.setmode 0 :: cs) w.trace).2
          = r.world.trace) := by
        intro cs
        simp only [spec_issue_in_order]
        rw [if_pos ⟨hrc2, by simp⟩, ← h]
        simp [ptouch_call, World.err]
      split
      · simp only [spec_flush_call_sequence, ha, Bool.false_eq_true, if_false, List.cons_append, List.nil_append,
          List.append_assoc, List.singleton_append]
        exact (hgoal _).symm
      · simp only [ha, Bool.false_eq_true, if_false, List.cons_append, List.nil_append, List.singleton_append]
        exact (hgoal _).symm
    have hrc2b : ¬ (ptouch_call ptdev (DevCall.setmode 0) w).1 ≠ 0 := hrc2
    rw [if_neg hrc2b] at h
    by_cases hrc3 : ptdev.respond (w.trace ++ [(DevCall.setmode 0, ptdev.respond w.trace (DevCall.setmode 0))])
        (DevCall.setadvanced (if ((!final_label) || !cut_after) = true then 0x00 else 0x08)) ≠ 0
    · have hrc3b : (ptouch_call ptdev (DevCall.setadvanced
          (if ((!final_label) || !cut_after) = true then 0x00 else 0x08))
          (ptouch_call ptdev (DevCall.setmode 0) w).2).1 ≠ 0 := hrc3
      rw [if_pos hrc3b] at h
      simp only [Option.some.injEq] at h
      refine ⟨List.replicate label.sx [], by simp, ?_⟩
      have hgoal : ∀ cs, ((spec_issue_in_order ptdev (DevCall.setmode 0 ::
          DevCall.setadvanced (if ((!final_label) || !cut_after) = true then 0x00 else 0x08) :: cs)
          w.trace).2 = r.world.trace) := by
        intro cs
        simp only [spec_issue_in_order]
        rw [if_neg (fun hh => hrc2 hh.1), if_pos ⟨hrc3, by simp⟩, ← h]
        simp [ptouch_call, World.err]
      split
      · simp only [spec_flush_call_sequence, ha, Bool.false_eq_true, if_false, List.cons_append, List.nil_append,
          List.append_assoc, List.singleton_append]
        exact (hgoal _).symm
      · simp only [ha, Bool.false_eq_true, if_false, List.cons_append, List.nil_append, List.singleton_append]
        exact (hgoal _).symm
    have hrc3b : ¬ (ptouch_call ptdev (DevCall.setadvanced
        (if ((!final_label) || !cut_after) = true then 0x00 else 0x08))
        (ptouch_call ptdev (DevCall.setmode 0) w).2).1 ≠ 0 := hrc3
    rw [if_neg hrc3b] at h
    -- the world and the trace after the three header calls
    generalize hw3 : (ptouch_call ptdev (DevCall.setadvanced
        (if ((!final_label) || !cut_after) = true then 0x00 else 0x08))
        (ptouch_call ptdev (DevCall.setmode 0) w).2).2 = w3 at h
    have hhdr : ∀ cs, spec_issue_in_order ptdev (DevCall.setmode 0 ::
        DevCall.setadvanced (if ((!final_label) || !cut_after) = true then 0x00 else 0x08) :: cs)
        w.trace = spec_issue_in_order ptdev cs w3.trace := by
      intro cs
      simp only [spec_issue_in_order]
      rw [if_neg (fun hh => hrc2 hh.1), if_neg (fun hh => hrc3 hh.1), ← hw3]
      rfl
    cases hpi : print_img ptdev (some label) w3 with
    | none => simp [hpi] at h
    | some r4 =>
      simp only [hpi] at h
      by_cases hfit : label.sy ≤ ptouch_getmaxwidth ptdev
      · obtain ⟨lines, hlen, htr4, hrc4⟩ := print_img_refines ptdev label w3 r4 hfit hpi
        refine ⟨lines, hlen, ?_⟩
        have hlist : spec_flush_call_sequence ptdev.flag_raster_packbits do_precut cut_after
            final_label media_width_mm lines =
            (DevCall.setmode 0 ::
              DevCall.setadvanced (if ((!final_label) || !cut_after) = true then 0x00 else 0x08) ::
              (((if ptdev.flag_raster_packbits = true then [DevCall.enable_packbits] else []) ++
                [DevCall.rasterstart] ++ lines.map DevCall.sendraster) ++
              [if (cut_after && final_label) = true then DevCall.eject else DevCall.ff])) := by
          simp [spec_flush_call_sequence, ha]
        rw [if_pos hfit, hlist, hhdr, spec_issue_in_order_append]
        by_cases hr4 : r4.1 ≠ 0
        · rw [if_pos hr4] at h
          simp only [Option.some.injEq] at h
          rw [if_pos (fun h0 => hr4 (hrc4.mpr h0)), ← htr4, ← h]
          simp [World.err]
        · rw [if_neg hr4] at h
          rw [if_neg (fun hh => hh (hrc4.mp (not_not.mp hr4))), ← htr4]
          generalize hfin : (if (cut_after && final_label) = true
              then DevCall.eject else DevCall.ff) = final at h ⊢
          have hcall : (if (cut_after && final_label) = true
              then ptouch_call ptdev DevCall.eject r4.2
              else ptouch_call ptdev DevCall.ff r4.2) = ptouch_call ptdev final r4.2 := by
            rw [← hfin]; split <;> rfl
          have hne : final ≠ DevCall.enable_packbits := by
            rw [← hfin]; split <;> simp
          rw [hcall] at h
          simp only [spec_issue_in_order]
          by_cases hrc5 : ptdev.respond r4.2.trace final ≠ 0
          · have hrc5b : (ptouch_call ptdev final r4.2).1 ≠ 0 := hrc5
            rw [if_pos hrc5b] at h
            simp only [Option.some.injEq] at h
            rw [if_pos ⟨hrc5, hne⟩, ← h]
            simp [ptouch_call, World.err]
          · have hrc5b : ¬ (ptouch_call ptdev final r4.2).1 ≠ 0 := hrc5
            rw [if_neg hrc5b] at h
            simp only [Option.some.injEq] at h
            rw [if_neg (fun hh => hrc5 hh.1), ← h]
            simp [ptouch_call]
      · refine ⟨List.replicate label.sx [], by simp, ?_⟩
        rw [if_neg hfit]
        simp only [ha, Bool.false_eq_true, if_false, List.cons_append, List.nil_append, List.singleton_append]
        rw [hhdr]
        simp only [print_img] at hpi
        rw [if_pos (by omega)] at hpi
        simp only [Option.some.injEq] at hpi
        rw [← hpi] at h
        rw [if_pos (by simp)] at h
        simp only [Option.some.injEq] at h
        rw [← h]
        simp [spec_issue_in_order, World.err]

theorem spec_flush_call_sequence_split (packbits do_precut cut_after final_label : Bool)
    (media_width_mm : Nat) (lines : List (List Nat)) :
    ∃ init, spec_flush_call_sequence packbits do_precut cut_after final_label media_width_mm
        lines = init ++ [if (cut_after && final_label) = true then DevCall.eject else DevCall.ff] ∧
      (∀ c ∈ init, c ≠ DevCall.eject ∧ c ≠ DevCall.ff) ∧
      ((if (do_precut || (cut_after && !final_label)) = true
          then [DevCall.printinfo media_width_mm] else []) ++
        [DevCall.setmode (if (do_precut || (cut_after && !final_label)) = true
            then 0x40 else 0x00),
         DevCall.setadvanced (if ((!final_label) || !cut_after) = true then 0x00 else 0x08)])
        <+: init := by
  refine ⟨_, rfl, ?_, ?_⟩
  · intro c hc
    simp only [List.mem_append, List.mem_cons, List.mem_singleton, List.not_mem_nil, or_false,
      List.mem_map] at hc
    rcases hc with ((hc | hc | hc) | ((hc | hc) | ⟨l, _, hc⟩))
    · split at hc
      · simp only [List.mem_singleton] at hc
        rw [hc]; simp
      · simp at hc
    · rw [hc]; simp
    · rw [hc]; simp
    · split at hc
      · simp only [List.mem_singleton] at hc
        rw [hc]; simp
      · simp at hc
    · rw [hc]; simp
    · rw [← hc]; simp
  · exact List.prefix_append _ _

/-- C20 (counterexample): with every device call succeeding, a flush of a
canvas of height 100 on a device of maximum width 76 stops after setmode and
setadvanced, so the sequence is not complete; and on a device whose
enable-packbits returns -1 the flush goes on after the failed call to
rasterstart, the raster lines and form-feed, and returns success. -/
theorem flush_print_job_call_order_exceptions :
    (flush_print_job none (example_device 76 true) (some (example_canvas 2 100))
        false true true 12 World.init).map (fun r => (r.rc, r.world.trace)) =
      some (-1, [(DevCall.setmode 0, 0), (DevCall.setadvanced 8, 0)]) ∧
    (flush_print_job none (example_device_packbits_fails 76) (some (example_canvas 1 64))
        false false false 12 World.init).map (fun r => (r.rc, r.world.trace)) =
      some (0, [(DevCall.setmode 0, 0), (DevCall.setadvanced 0, 0),
        (DevCall.enable_packbits, -1), (DevCall.rasterstart, 0),
        (DevCall.sendraster (List.replicate 16 0), 0), (DevCall.ff, 0)]) := by
  refine ⟨by decide, by decide⟩

/-- C20 (amended): for every flush with a pending canvas and no file-output
mode, the sequence of device calls is a prefix of [printinfo (only when the
cutter is armed), setmode, setadvanced, enable-packbits (only when the device
has the packbits flag), rasterstart, sendraster once per column, then eject or
form-feed]; it is complete when the canvas fits the device and every call
other than enable-packbits succeeds; it stops at the first failing call other
than enable-packbits (whose return code is not checked), so every call but the
last one made has succeeded; and eject or form-feed is only issued when the
canvas fits and the whole sequence before it was issued.  The flush has a
result for every canvas of height at most 128. -/
theorem flush_print_job_call_order (ptdev : ptouch_dev) (label : gdImage)
    (do_precut cut_after final_label : Bool) (media_width_mm : Nat) (w : World) :
    (label.sy ≤ 128 →
      ∃ r, flush_print_job none ptdev (some label) do_precut cut_after final_label
        media_width_mm w = some r) ∧
    ∀ r, flush_print_job none ptdev (some label) do_precut cut_after final_label
        media_width_mm w = some r →
      ∃ (evs : List (DevCall × Int)) (lines : List (List Nat)),
        r.world.trace = w.trace ++ evs ∧ lines.length = label.sx ∧
        evs.map Prod.fst <+: spec_flush_call_sequence ptdev.flag_raster_packbits do_precut
          cut_after final_label media_width_mm lines ∧
        (∀ e ∈ evs.dropLast, e.1 ≠ DevCall.enable_packbits → e.2 = 0) ∧
        ((label.sy ≤ ptouch_getmaxwidth ptdev ∧
            ∀ e ∈ evs, e.1 ≠ DevCall.enable_packbits → e.2 = 0) →
          evs.map Prod.fst = spec_flush_call_sequence ptdev.flag_raster_packbits do_precut
            cut_after final_label media_width_mm lines) ∧
        (∀ e ∈ evs, (e.1 = DevCall.eject ∨ e.1 = DevCall.ff) →
          label.sy ≤ ptouch_getmaxwidth ptdev ∧
          evs.map Prod.fst = spec_flush_call_sequence ptdev.flag_raster_packbits do_precut
            cut_after final_label media_width_mm lines) := by
  refine ⟨flush_print_job_defined ptdev label do_precut cut_after final_label media_width_mm w,
    ?_⟩
  intro r hr
  obtain ⟨lines, hlen, htr⟩ := flush_print_job_refines ptdev label do_precut cut_after
    final_label media_width_mm w r hr
  obtain ⟨init, hfull, hinit, hhdr⟩ := spec_flush_call_sequence_split
    ptdev.flag_raster_packbits do_precut cut_after final_label media_width_mm lines
  by_cases hfit : label.sy ≤ ptouch_getmaxwidth ptdev
  · rw [if_pos hfit] at htr
    obtain ⟨evs, h1, h2, h3, h4, h5⟩ := spec_issue_in_order_shape ptdev
      (spec_flush_call_sequence ptdev.flag_raster_packbits do_precut cut_after final_label
        media_width_mm lines) w.trace
    refine ⟨evs, lines, by rw [htr, h1], hlen, h2, h3, ?_, ?_⟩
    · rintro ⟨_, hall⟩
      exact h5 (h4.mp hall)
    · intro e he hfin
      refine ⟨hfit, ?_⟩
      rw [hfull] at h2 ⊢
      rcases List.prefix_concat_iff.mp h2 with heq | hpre
      · exact heq
      · have hmem : e.1 ∈ init := hpre.subset (List.mem_map_of_mem Prod.fst he)
        have := hinit e.1 hmem
        rcases hfin with hf | hf
        · exact absurd hf this.1
        · exact absurd hf this.2
  · rw [if_neg hfit] at htr
    obtain ⟨evs, h1, h2, h3, _, _⟩ := spec_issue_in_order_shape ptdev
      ((if (do_precut || (cut_after && !final_label)) = true
          then [DevCall.printinfo media_width_mm] else []) ++
        [DevCall.setmode (if (do_precut || (cut_after && !final_label)) = true
            then 0x40 else 0x00),
         DevCall.setadvanced (if ((!final_label) || !cut_after) = true then 0x00 else 0x08)])
      w.trace
    have hpre : evs.map Prod.fst <+: init := h2.trans hhdr
    refine ⟨evs, lines, by rw [htr, h1], hlen, ?_, h3, ?_, ?_⟩
    · rw [hfull]
      exact hpre.trans (List.prefix_append _ _)
    · rintro ⟨hf, _⟩
      exact absurd hf hfit
    · intro e he hfin
      have hmem : e.1 ∈ init := hpre.subset (List.mem_map_of_mem Prod.fst he)
      have := hinit e.1 hmem
      rcases hfin with hf | hf
      · exact absurd hf this.1
      · exact absurd hf this.2

/-- C20 (witness): a flush whose form-feed fails: the calls made are a prefix
of the complete sequence. -/
theorem flush_print_job_call_order_witness :
    (example_canvas 2 64).sy ≤ 128 ∧
    ∃ r evs lines, flush_print_job none (example_device_ff_fails 76)
        (some (example_canvas 2 64)) true true false 12 World.init = some r ∧
      r.world.trace = World.init.trace ++ evs ∧
      evs.map Prod.fst <+: spec_flush_call_sequence false true true false 12 lines := by
  have t := flush_print_job_call_order (example_device_ff_fails 76) (example_canvas 2 64)
    true true false 12 World.init
  refine ⟨by decide, ?_⟩
  obtain ⟨r, hr⟩ := t.1 (by decide)
  obtain ⟨evs, lines, h1, _, h3, _⟩ := t.2 r hr
  exact ⟨r, evs, lines, hr, h1, h3⟩

/-! ## Theorems: the flushes of a run -/

theorem img_append_sy_le (tw : Nat) (a b : Option gdImage)
    (ha : ∀ im, a = some im → im.sy ≤ tw) (hb : ∀ im, b = some im → im.sy ≤ tw) :
    ∀ im, img_append a b = some im → im.sy ≤ tw := by
  intro im h
  cases a with
  | none =>
    cases b with
    | none => simp [img_append] at h
    | some b =>
      by_cases hpos : 0 < b.sx ∧ 0 < b.sy
      · rw [img_append_none_left b hpos.1 hpos.2, Option.some.injEq] at h
        rw [← h]
        exact hb b rfl
      · have hnone : img_append none (some b) = none := by
          simp only [img_append]
          rw [if_pos (by split <;> omega)]
        rw [hnone] at h
        simp at h
  | some a =>
    cases b with
    | none =>
      by_cases hpos : 0 < a.sx ∧ 0 < a.sy
      · rw [img_append_none_right a hpos.1 hpos.2, Option.some.injEq] at h
        rw [← h]
        exact ha a rfl
      · have hnone : img_append (some a) none = none := by
          simp only [img_append]
          rw [if_pos (by omega)]
        rw [hnone] at h
        simp at h
    | some b =>
      by_cases hpos : 0 < a.sx + b.sx ∧ 0 < max a.sy b.sy
      · rw [img_append_some a b hpos.1 hpos.2, Option.some.injEq] at h
        rw [← h]
        show max a.sy b.sy ≤ tw
        exact max_le (ha a rfl) (hb b rfl)
      · have hnone : img_append (some a) (some b) = none := by
          simp only [img_append]
          rw [if_pos (by split <;> omega)]
        rw [hnone] at h
        simp at h

theorem flush_print_job_success_calls (ptdev : ptouch_dev) (label : gdImage)
    (do_precut cut_after final_label : Bool) (media_width_mm : Nat) (w : World)
    (r : FlushResult)
    (hok : ∀ tr call, ptdev.respond tr call = 0)
    (hfit : label.sy ≤ ptouch_getmaxwidth ptdev)
    (h : flush_print_job none ptdev (some label) do_precut cut_after final_label
      media_width_mm w = some r) :
    r.rc = 0 ∧ r.out = none ∧
    ∃ calls, r.world.trace = w.trace ++ calls ∧
      calls.getLast? = some (if (cut_after && final_label) = true
        then DevCall.eject else DevCall.ff, (0 : Int)) ∧
      ∀ e ∈ calls.dropLast, e.1 ≠ DevCall.eject := by
  have hrc := flush_print_job_ok ptdev label do_precut cut_after final_label media_width_mm w r
    hok hfit h
  obtain ⟨hout, evs, htr, _, hshape⟩ :=
    flush_print_job_spec ptdev label do_precut cut_after final_label media_width_mm w r h
  obtain ⟨raster, hevs, hraster⟩ := hshape hrc
  refine ⟨hrc, hout, evs, htr, ?_, ?_⟩
  · rw [hevs, List.getLast?_concat]
  · rw [hevs, List.dropLast_concat]
    intro e he
    simp only [List.mem_append, List.mem_cons, List.mem_singleton, List.not_mem_nil,
      or_false] at he
    rcases he with (he | he | he) | he
    · split at he
      · simp only [List.mem_singleton] at he
        rw [he]; simp
      · simp at he
    · rw [he]; simp
    · rw [he]; simp
    · intro hej
      have := hraster e he
      rw [hej] at this
      simp [is_raster_call] at this

theorem main_flush_pending (env : MainEnv) (ptdev : ptouch_dev) (st : MainState)
    (label : gdImage) (cut_after final_label : Bool) (r : Int × MainState)
    (hok : ∀ tr call, ptdev.respond tr call = 0)
    (hs : st.save_png = none) (hout : st.out = some label)
    (hfit : label.sy ≤ ptouch_getmaxwidth ptdev)
    (h : main_flush env ptdev st cut_after final_label = some r) :
    r.1 = 0 ∧ r.2.out = none ∧ r.2.save_png = none ∧ r.2.do_precut = st.do_precut ∧
    r.2.do_postcut = st.do_postcut ∧
    ∃ calls, r.2.flushes = st.flushes ++
        [FlushRecord.mk st.do_precut cut_after final_label 0 calls] ∧
      r.2.world.trace = st.world.trace ++ calls ∧
      calls.getLast? = some (if (cut_after && final_label) = true
        then DevCall.eject else DevCall.ff, (0 : Int)) ∧
      ∀ e ∈ calls.dropLast, e.1 ≠ DevCall.eject := by
  simp only [main_flush, hs, hout] at h
  cases hf : flush_print_job none ptdev (some label) st.do_precut cut_after final_label
      env.media_width st.world with
  | none => simp [hf] at h
  | some fr =>
    simp only [hf, Option.some.injEq] at h
    obtain ⟨hrc, hfo, calls, htr, hlast, hdrop⟩ := flush_print_job_success_calls ptdev label
      st.do_precut cut_after final_label env.media_width st.world fr hok hfit hf
    rw [← h]
    refine ⟨hrc, hfo, rfl, rfl, rfl, calls, ?_, htr, hlast, hdrop⟩
    simp [hrc, htr]

theorem main_flush_empty (env : MainEnv) (ptdev : ptouch_dev) (st : MainState)
    (cut_after final_label : Bool) (hs : st.save_png = none) (hout : st.out = none) :
    main_flush env ptdev st cut_after final_label = some (0, st) := by
  cases st with
  | mk font_file fontsize save_png do_precut do_postcut out world flushes written =>
    simp only at hs hout
    subst hs hout
    simp [main_flush, flush_print_job]

theorem mem_of_getLast?_dropLast {α : Type} (l : List α) (x e : α)
    (hlast : l.getLast? = some x) (he : e ∈ l) : e ∈ l.dropLast ∨ e = x := by
  have hl : l = l.dropLast ++ [x] := by
    have hne : l ≠ [] := by
      intro h0; rw [h0] at hlast; simp at hlast
    have h1 := List.dropLast_append_getLast hne
    have h2 : l.getLast hne = x := by
      rw [List.getLast?_eq_getLast l hne, Option.some.injEq] at hlast
      exact hlast
    rw [h2] at h1
    exact h1.symm
  rw [hl] at he
  rcases List.mem_append.mp he with h | h
  · exact Or.inl h
  · exact Or.inr (List.mem_singleton.mp h)

theorem main_loop_flushes (env : MainEnv) (ptdev : ptouch_dev)
    (hok : ∀ tr call, ptdev.respond tr call = 0)
    (himg : ∀ file im, env.image_load file = some im → im.sy ≤ ptouch_getmaxwidth ptdev) :
    ∀ (cmds : List Command) (st : MainState) (lr : LoopResult),
      st.save_png = none → (∀ file, Command.writepng file ∉ cmds) →
      (∀ im, st.out = some im → im.sy ≤ ptouch_getmaxwidth ptdev) →
      main_loop env ptdev cmds st = some lr →
      lr.state.save_png = none ∧
      (∀ im, lr.state.out = some im → im.sy ≤ ptouch_getmaxwidth ptdev) ∧
      ∃ cuts : List FlushRecord,
        lr.state.flushes = st.flushes ++ cuts ∧
        lr.state.world.trace = st.world.trace ++ (cuts.map FlushRecord.calls).flatten ∧
        ∀ rec ∈ cuts, rec.cut_after = true ∧ rec.final_label = false ∧ rec.rc = 0 ∧
          rec.calls.getLast? = some (DevCall.ff, (0 : Int)) ∧
          ∀ e ∈ rec.calls, e.1 ≠ DevCall.eject := by
  intro cmds
  induction cmds with
  | nil =>
    intro st lr hs _ hst h
    simp only [main_loop, Option.some.injEq] at h
    rw [← h]
    exact ⟨hs, hst, [], by simp [LoopResult.state], by simp [LoopResult.state], by simp⟩
  | cons c rest ih =>
    intro st lr hs hnw hst h
    have hnw2 : ∀ file, Command.writepng file ∉ rest :=
      fun file hm => hnw file (List.mem_cons_of_mem _ hm)
    cases c with
    | font file =>
      simp only [main_loop] at h
      refine ih { st with font_file := file } lr ?_ hnw2 ?_ h
      · exact hs
      · exact hst
    | fontsize value =>
      simp only [main_loop] at h
      refine ih { st with fontsize := value } lr ?_ hnw2 ?_ h
      · exact hs
      · exact hst
    | writepng file => exact absurd (List.mem_cons_self _ _) (hnw file)
    | info =>
      simp only [main_loop, Option.some.injEq] at h
      rw [← h]
      exact ⟨hs, hst, [], by simp [LoopResult.state], by simp [LoopResult.state], by simp⟩
    | image file =>
      simp only [main_loop] at h
      cases hl : env.image_load file with
      | none =>
        simp only [hl, Option.some.injEq] at h
        rw [← h]
        exact ⟨hs, hst, [], by simp [LoopResult.state], by simp [LoopResult.state], by simp⟩
      | some im =>
        simp only [hl] at h
        refine ih { st with out := img_append st.out (some im) } lr (by exact hs) hnw2 ?_ h
        exact img_append_sy_le _ _ _ hst
          (fun im2 h2 => by
            rw [Option.some.injEq] at h2
            rw [← h2]
            exact himg file im hl)
    | text line =>
      simp only [main_loop] at h
      by_cases h0 : line.length = 0
      · rw [if_pos h0] at h
        exact ih st lr hs hnw2 hst h
      · rw [if_neg h0] at h
        cases hr : render_text env.text st.font_file st.fontsize st.font_file line
            (ptouch_getmaxwidth ptdev) with
        | none => simp [hr] at h
        | some res =>
          cases res with
          | none =>
            simp only [hr, Option.some.injEq] at h
            rw [← h]
            exact ⟨hs, hst, [], by simp [LoopResult.state], by simp [LoopResult.state], by simp⟩
          | some im =>
            simp only [hr] at h
            refine ih { st with out := img_append st.out (some im) } lr (by exact hs) hnw2 ?_ h
            exact img_append_sy_le _ _ _ hst
              (fun im2 h2 => by
                rw [Option.some.injEq] at h2
                rw [← h2]
                exact le_of_eq (render_text_sy _ _ _ _ _ _ im hr))
    | cutmark =>
      simp only [main_loop] at h
      refine ih { st with out := img_append st.out (img_cutmark (ptouch_getmaxwidth ptdev)) } lr (by exact hs) hnw2 ?_ h
      exact img_append_sy_le _ _ _ hst (fun im2 h2 => le_of_eq (img_cutmark_sy _ im2 h2).1)
    | pad value =>
      simp only [main_loop] at h
      refine ih { st with out := img_append st.out (img_padding (ptouch_getmaxwidth ptdev) (to_int value)) } lr (by exact hs) hnw2 ?_ h
      exact img_append_sy_le _ _ _ hst (fun im2 h2 => le_of_eq (img_padding_sy _ _ im2 h2))
    | debug =>
      simp only [main_loop] at h
      refine ih st lr ?_ hnw2 ?_ h
      · exact hs
      · exact hst
    | cut =>
      simp only [main_loop, hs, Option.isSome_none, Bool.false_eq_true, if_false] at h
      cases hout : st.out with
      | none =>
        rw [main_flush_empty env ptdev st true false hs hout] at h
        simp only [ne_eq, not_true_eq_false, if_false] at h
        refine ih st lr ?_ hnw2 ?_ h
        · exact hs
        · exact hst
      | some label =>
        cases hf : main_flush env ptdev st true false with
        | none => simp [hf] at h
        | some r =>
          simp only [hf] at h
          obtain ⟨hrc, hro, hrs, _, _, calls, hfl, htr, hlast, hdrop⟩ :=
            main_flush_pending env ptdev st label true false r hok hs hout (hst label hout) hf
          rw [if_neg (fun hh => hh hrc)] at h
          obtain ⟨h1, h2, cuts, h3, h4, h5⟩ := ih r.2 lr hrs hnw2
            (fun im him => by rw [hro] at him; simp at him) h
          refine ⟨h1, h2, FlushRecord.mk st.do_precut true false 0 calls :: cuts, ?_, ?_, ?_⟩
          · rw [h3, hfl]; simp
          · rw [h4, htr]; simp
          · intro rec hrec
            rcases List.mem_cons.mp hrec with rfl | hrec
            · simp only [Bool.and_false, Bool.false_eq_true, if_false] at hlast
              refine ⟨rfl, rfl, rfl, hlast, ?_⟩
              intro e he
              rcases mem_of_getLast?_dropLast _ _ _ hlast he with hd | hd
              · exact hdrop e hd
              · rw [hd]; simp
            · exact h5 rec hrec
    | no_precut =>
      simp only [main_loop] at h
      refine ih { st with do_precut := false } lr ?_ hnw2 ?_ h
      · exact hs
      · exact hst
    | no_postcut =>
      simp only [main_loop] at h
      refine ih { st with do_postcut := false } lr ?_ hnw2 ?_ h
      · exact hs
      · exact hst

theorem main_finish_pending (env : MainEnv) (ptdev : ptouch_dev) (st : MainState)
    (label : gdImage) (r : Int × MainState)
    (hok : ∀ tr call, ptdev.respond tr call = 0)
    (hs : st.save_png = none) (hout : st.out = some label)
    (hfit : label.sy ≤ ptouch_getmaxwidth ptdev)
    (h : main_finish env ptdev st = some r) :
    r.1 = 0 ∧ r.2.out = none ∧ r.2.do_precut = st.do_precut ∧ r.2.do_postcut = st.do_postcut ∧
    ∃ calls, r.2.flushes = st.flushes ++
        [FlushRecord.mk st.do_precut st.do_postcut true 0 calls] ∧
      r.2.world.trace = st.world.trace ++ calls ∧
      calls.getLast? = some (if st.do_postcut = true then DevCall.eject else DevCall.ff,
        (0 : Int)) ∧
      ∀ e ∈ calls.dropLast, e.1 ≠ DevCall.eject := by
  simp only [main_finish, hout, hs] at h
  cases hf : main_flush env ptdev st st.do_postcut true with
  | none => simp [hf] at h
  | some r2 =>
    simp only [hf] at h
    obtain ⟨hrc, hro, _, hpre, hpost, calls, hfl, htr, hlast, hdrop⟩ :=
      main_flush_pending env ptdev st label st.do_postcut true r2 hok hs hout hfit hf
    rw [if_neg (fun hh => hh hrc), Option.some.injEq] at h
    rw [← h]
    refine ⟨rfl, hro, hpre, hpost, calls, hfl, htr, ?_, hdrop⟩
    rw [hlast]
    simp

theorem eject_count_cuts (cuts : List FlushRecord)
    (h : ∀ rec ∈ cuts, ∀ e ∈ rec.calls, e.1 ≠ DevCall.eject) :
    eject_count (cuts.map FlushRecord.calls).flatten = 0 := by
  unfold eject_count
  rw [List.countP_eq_zero]
  intro e he
  simp only [List.mem_flatten, List.mem_map] at he
  obtain ⟨l, ⟨rec, hrec, rfl⟩, hel⟩ := he
  simpa using h rec hrec e hel

theorem eject_count_final (calls : List (DevCall × Int)) (postcut : Bool)
    (hlast : calls.getLast? = some (if postcut = true then DevCall.eject else DevCall.ff,
      (0 : Int)))
    (hdrop : ∀ e ∈ calls.dropLast, e.1 ≠ DevCall.eject) :
    eject_count calls = if postcut = true then 1 else 0 := by
  have hne : calls ≠ [] := by
    intro h0; rw [h0] at hlast; simp at hlast
  have h1 := List.dropLast_append_getLast hne
  have h2 : calls.getLast hne =
      (if postcut = true then DevCall.eject else DevCall.ff, (0 : Int)) := by
    rw [List.getLast?_eq_getLast calls hne, Option.some.injEq] at hlast
    exact hlast
  rw [h2] at h1
  have h0 : eject_count calls.dropLast = 0 := by
    unfold eject_count
    rw [List.countP_eq_zero]
    intro e he
    simpa using hdrop e he
  unfold eject_count at h0 ⊢
  rw [← h1, List.countP_append, h0]
  cases postcut <;> simp [List.countP_cons]

/-- C14 (counterexample): with every device call succeeding and no file-output
mode, the commands image, cut, where the loaded image is 100 pixels high on a
device of maximum width 76, make one flush with cutAfter = true and
finalLabel = false that does not end in form-feed: it fails in the size check
after setadvanced, and `main` returns -1. -/
theorem main_commands_cut_flush_without_ff :
    (main_commands (example_main_env (example_canvas 5 100)) (example_device 76 false)
        [Command.image "logo.png", Command.cut] (MainState.init World.init)).map
      (fun r => (r.1, r.2.flushes.map
        (fun f => (f.cut_after, f.final_label, f.rc, f.calls.map Prod.fst)))) =
    some ((-1 : Int), [(true, false, (-1 : Int),
      [DevCall.printinfo 12, DevCall.setmode 64, DevCall.setadvanced 0])]) := by
  rfl

/-- C14 (amended): for every run of commands without file-output mode in
which all device calls succeed and no loaded image is higher than the device's
maximum printable width: each `--cut` command with a non-empty accumulator
makes exactly one flush, with cutAfter = true and finalLabel = false, that
succeeds, ends in form-feed and issues no eject, and the loop goes on with an
empty accumulator; a `--cut` with an empty accumulator makes none; when the
command loop has run to its end, the end of the program makes exactly one more
flush, with finalLabel = true and cutAfter = post-cut, iff the accumulator is
non-empty, ending in eject when post-cut is requested and in form-feed
otherwise; and in the whole run the flushes are those of the cuts followed by
at most that final one, all device calls are theirs, and eject is issued at
most once, only as the last call of the final flush and only when post-cut is
requested. -/
theorem main_commands_flushes (env : MainEnv) (ptdev : ptouch_dev)
    (hok : ∀ tr call, ptdev.respond tr call = 0)
    (himg : ∀ file im, env.image_load file = some im → im.sy ≤ ptouch_getmaxwidth ptdev) :
    (∀ (rest : List Command) (st : MainState) (label : gdImage) (r : Int × MainState),
      st.save_png = none → st.out = some label → label.sy ≤ ptouch_getmaxwidth ptdev →
      main_flush env ptdev st true false = some r →
      main_loop env ptdev (Command.cut :: rest) st = main_loop env ptdev rest r.2 ∧
      r.2.out = none ∧
      ∃ calls, r.2.flushes = st.flushes ++ [FlushRecord.mk st.do_precut true false 0 calls] ∧
        r.2.world.trace = st.world.trace ++ calls ∧
        calls.getLast? = some (DevCall.ff, (0 : Int)) ∧
        ∀ e ∈ calls, e.1 ≠ DevCall.eject) ∧
    (∀ (rest : List Command) (st : MainState), st.save_png = none → st.out = none →
      main_loop env ptdev (Command.cut :: rest) st = main_loop env ptdev rest st) ∧
    (∀ (st : MainState) (label : gdImage) (r : Int × MainState),
      st.save_png = none → st.out = some label → label.sy ≤ ptouch_getmaxwidth ptdev →
      main_finish env ptdev st = some r →
      r.1 = 0 ∧ r.2.out = none ∧
      ∃ calls, r.2.flushes = st.flushes ++
          [FlushRecord.mk st.do_precut st.do_postcut true 0 calls] ∧
        r.2.world.trace = st.world.trace ++ calls ∧
        calls.getLast? = some (if st.do_postcut = true then DevCall.eject else DevCall.ff,
          (0 : Int)) ∧
        ∀ e ∈ calls.dropLast, e.1 ≠ DevCall.eject) ∧
    (∀ st : MainState, st.out = none → main_finish env ptdev st = some (0, st)) ∧
    (∀ (cmds : List Command) (st : MainState) (r : Int × MainState),
      st.save_png = none → (∀ file, Command.writepng file ∉ cmds) →
      (∀ im, st.out = some im → im.sy ≤ ptouch_getmaxwidth ptdev) →
      main_commands env ptdev cmds st = some r →
      ∃ cuts fin : List FlushRecord,
        r.2.flushes = st.flushes ++ cuts ++ fin ∧
        r.2.world.trace = st.world.trace ++
          ((cuts.map FlushRecord.calls).flatten ++ (fin.map FlushRecord.calls).flatten) ∧
        (∀ rec ∈ cuts, rec.cut_after = true ∧ rec.final_label = false ∧ rec.rc = 0 ∧
          rec.calls.getLast? = some (DevCall.ff, (0 : Int)) ∧
          ∀ e ∈ rec.calls, e.1 ≠ DevCall.eject) ∧
        (fin = [] ∨ ∃ calls, fin = [FlushRecord.mk r.2.do_precut r.2.do_postcut true 0 calls] ∧
          calls.getLast? = some (if r.2.do_postcut = true then DevCall.eject else DevCall.ff,
            (0 : Int)) ∧
          ∀ e ∈ calls.dropLast, e.1 ≠ DevCall.eject) ∧
        eject_count ((cuts.map FlushRecord.calls).flatten ++
          (fin.map FlushRecord.calls).flatten) ≤ 1 ∧
        (eject_count ((cuts.map FlushRecord.calls).flatten ++
            (fin.map FlushRecord.calls).flatten) = 1 →
          r.2.do_postcut = true ∧ fin ≠ [])) := by
  refine ⟨?_, ?_, ?_, ?_, ?_⟩
  · intro rest st label r hs hout hfit hf
    obtain ⟨hrc, hro, _, _, _, calls, hfl, htr, hlast, hdrop⟩ :=
      main_flush_pending env ptdev st label true false r hok hs hout hfit hf
    simp only [Bool.and_false, Bool.false_eq_true, if_false] at hlast
    refine ⟨?_, hro, calls, hfl, htr, hlast, ?_⟩
    · simp only [main_loop, hs, Option.isSome_none, Bool.false_eq_true, if_false, hf]
      rw [if_neg (fun hh => hh hrc)]
    · intro e he
      rcases mem_of_getLast?_dropLast _ _ _ hlast he with hd | hd
      · exact hdrop e hd
      · rw [hd]; simp
  · intro rest st hs hout
    simp only [main_loop, hs, Option.isSome_none, Bool.false_eq_true, if_false,
      main_flush_empty env ptdev st true false hs hout]
    simp
  · intro st label r hs hout hfit hf
    obtain ⟨h1, h2, _, _, calls, h3, h4, h5, h6⟩ :=
      main_finish_pending env ptdev st label r hok hs hout hfit hf
    exact ⟨h1, h2, calls, h3, h4, h5, h6⟩
  · intro st hout
    simp only [main_finish, hout]
  · intro cmds st r hs hnw hst h
    simp only [main_commands] at h
    cases hl : main_loop env ptdev cmds st with
    | none => simp [hl] at h
    | some lr =>
      obtain ⟨hs2, hst2, cuts, hfl, htr, hcuts⟩ :=
        main_loop_flushes env ptdev hok himg cmds st lr hs hnw hst hl
      have hcount := eject_count_cuts cuts (fun rec hrec => (hcuts rec hrec).2.2.2.2)
      cases lr with
      | exited code st2 =>
        simp only [hl, Option.some.injEq] at h
        rw [← h]
        simp only [LoopResult.state] at hfl htr
        refine ⟨cuts, [], by simp [hfl], by simp [htr], hcuts, Or.inl rfl, ?_, ?_⟩
        · simp [hcount]
        · simp [hcount]
      | done st2 =>
        simp only [hl] at h
        simp only [LoopResult.state] at hfl htr hs2 hst2
        cases hout : st2.out with
        | none =>
          simp only [main_finish, hout, Option.some.injEq] at h
          rw [← h]
          refine ⟨cuts, [], by simp [hfl], by simp [htr], hcuts, Or.inl rfl, ?_, ?_⟩
          · simp [hcount]
          · simp [hcount]
        | some label =>
          obtain ⟨_, _, hpre, hpost, calls, h3, h4, h5, h6⟩ :=
            main_finish_pending env ptdev st2 label r hok hs2 hout (hst2 label hout) h
          have hfin := eject_count_final calls st2.do_postcut h5 h6
          have hcnt : eject_count ((cuts.map FlushRecord.calls).flatten ++
              ([FlushRecord.mk r.2.do_precut r.2.do_postcut true 0 calls].map
                FlushRecord.calls).flatten) = if st2.do_postcut = true then 1 else 0 := by
            have : ([FlushRecord.mk r.2.do_precut r.2.do_postcut true 0 calls].map
                FlushRecord.calls).flatten = calls := by simp
            rw [this]
            unfold eject_count at hcount hfin ⊢
            rw [List.countP_append, hcount, hfin]
            simp
          refine ⟨cuts, [FlushRecord.mk r.2.do_precut r.2.do_postcut true 0 calls], ?_, ?_,
            hcuts, Or.inr ⟨calls, rfl, by rw [hpost]; exact h5, h6⟩, ?_, ?_⟩
          · rw [h3, hfl, hpre, hpost]
          · rw [h4, htr]; simp
          · rw [hcnt]; split <;> omega
          · rw [hcnt]
            intro h1
            refine ⟨?_, by simp⟩
            rw [hpost]
            by_contra hne
            rw [if_neg hne] at h1
            omega

/-- C14 (witness): text, text, cut, text, end of program on a device of
maximum width 76 with every call succeeding: exactly two flushes, the first
with cutAfter = true, finalLabel = false, ending in form-feed, the second with
finalLabel = true, ending in eject; eject is issued once. -/
theorem main_commands_flushes_witness :
    (main_commands (example_main_env (example_canvas 5 76)) (example_device 76 false)
        [Command.text ["ab"], Command.text ["cd"], Command.cut, Command.text ["ef"]]
        (MainState.init World.init)).map
      (fun r => (r.1, r.2.flushes.map
        (fun f => (f.cut_after, f.final_label, (f.calls.map Prod.fst).getLast?)),
        eject_count r.2.world.trace)) =
      some ((0 : Int), [(true, false, some DevCall.ff), (true, true, some DevCall.eject)], 1) ∧
    ∃ r cuts fin, main_commands (example_main_env (example_canvas 5 76))
        (example_device 76 false)
        [Command.text ["ab"], Command.text ["cd"], Command.cut, Command.text ["ef"]]
        (MainState.init World.init) = some r ∧
      r.2.flushes = (MainState.init World.init).flushes ++ cuts ++ fin ∧
      (∀ rec ∈ cuts, rec.cut_after = true ∧ rec.final_label = false) ∧
      eject_count ((cuts.map FlushRecord.calls).flatten ++
        (fin.map FlushRecord.calls).flatten) ≤ 1 := by
  refine ⟨by rfl, ?_⟩
  have t := (main_commands_flushes (example_main_env (example_canvas 5 76))
    (example_device 76 false) (fun _ _ => rfl)
    (fun file im h => by
      simp only [example_main_env, Option.some.injEq] at h
      rw [← h]
      exact Nat.le_refl 76)).2.2.2.2
    [Command.text ["ab"], Command.text ["cd"], Command.cut, Command.text ["ef"]]
    (MainState.init World.init)
  have hsome : (main_commands (example_main_env (example_canvas 5 76))
      (example_device 76 false)
      [Command.text ["ab"], Command.text ["cd"], Command.cut, Command.text ["ef"]]
      (MainState.init World.init)).isSome = true := by rfl
  cases h : main_commands (example_main_env (example_canvas 5 76)) (example_device 76 false)
      [Command.text ["ab"], Command.text ["cd"], Command.cut, Command.text ["ef"]]
      (MainState.init World.init) with
  | none => rw [h] at hsome; simp at hsome
  | some r =>
    obtain ⟨cuts, fin, h1, _, h3, _, h5, _⟩ := t r rfl (by simp)
      (by intro im him; simp [MainState.init] at him) h
    exact ⟨r, cuts, fin, rfl, h1, fun rec hrec => ⟨(h3 rec hrec).1, (h3 rec hrec).2.1⟩, h5⟩

/-! ## Theorems: the raster lines sent by `print_img` -/

theorem rasterline_setpixel_bits (L : List Nat) (n : Nat) (hL : IsRasterLine L)
    (hn : n < 128) :
    ∃ L2, rasterline_setpixel L (n : Int) = some L2 ∧ IsRasterLine L2 ∧
      ∀ idx bit, idx < 16 →
        (L2.getD idx 0).testBit bit =
          ((L.getD idx 0).testBit bit || (decide (idx = 15 - n / 8) && decide (bit = n % 8))) := by
  obtain ⟨hlen, hbytes⟩ := hL
  refine ⟨_, rasterline_setpixel_in_range L n hn, ⟨by simp [hlen], ?_⟩, ?_⟩
  · intro b hb
    rcases List.mem_or_eq_of_mem_set hb with h | h
    · exact hbytes b h
    · rw [h]; exact byte_or_bit_lt _ _
  · intro idx bit _
    have hi : 15 - n / 8 < L.length := by omega
    rw [getD_set_eq_ite L _ idx _ hi]
    by_cases h : idx = 15 - n / 8
    · subst h
      have hb : L.getD (15 - n / 8) 0 < 256 := by
        rw [List.getD_eq_getElem?_getD, List.getElem?_eq_getElem hi]
        exact hbytes _ (List.getElem_mem _)
      rw [if_pos rfl, byte_or_bit_testBit _ _ bit hb (Nat.mod_lt n (by norm_num))]
      simp
    · simp [h]

theorem print_img_rows_bits (im : gdImage) (d : Nat) (offset : Int) (k : Nat) :
    ∀ (rows : List Nat) (acc : List Nat), IsRasterLine acc →
      (∀ i ∈ rows, 0 ≤ offset + (i : Int) ∧ offset + (i : Int) < 128) →
      ∃ line, rows.foldlM (print_img_row im d offset k) acc = some line ∧ IsRasterLine line ∧
        ∀ idx bit, idx < 16 →
          (line.getD idx 0).testBit bit =
            ((acc.getD idx 0).testBit bit ||
              rows.any (fun i => is_ink d (gdImageGetPixel im k (im.sy - 1 - i)) &&
                (decide (idx = 15 - (offset + (i : Int)).toNat / 8) &&
                  decide (bit = (offset + (i : Int)).toNat % 8)))) := by
  intro rows
  induction rows with
  | nil =>
    intro acc hacc _
    exact ⟨acc, rfl, hacc, by simp⟩
  | cons i rows ih =>
    intro acc hacc hpos
    obtain ⟨h0, h1⟩ := hpos i (List.mem_cons_self _ _)
    obtain ⟨n, hn⟩ := Int.eq_ofNat_of_zero_le h0
    have hn128 : n < 128 := by omega
    have hrest : ∀ j ∈ rows, 0 ≤ offset + (j : Int) ∧ offset + (j : Int) < 128 :=
      fun j hj => hpos j (List.mem_cons_of_mem _ hj)
    by_cases hink : is_ink d (gdImageGetPixel im k (im.sy - 1 - i)) = true
    · obtain ⟨L2, hL2, hL2r, hL2b⟩ := rasterline_setpixel_bits acc n hacc hn128
      obtain ⟨line, hline, hlr, hlb⟩ := ih L2 hL2r hrest
      refine ⟨line, ?_, hlr, ?_⟩
      · simp only [List.foldlM_cons, print_img_row, hink, if_true, hn, hL2]
        exact hline
      · intro idx bit hidx
        rw [hlb idx bit hidx, hL2b idx bit hidx]
        simp only [List.any_cons, hink, Bool.true_and, hn, Int.toNat_ofNat]
        rw [Bool.or_assoc]
    · obtain ⟨line, hline, hlr, hlb⟩ := ih acc hacc hrest
      refine ⟨line, ?_, hlr, ?_⟩
      · simp only [List.foldlM_cons, print_img_row, hink]
        exact hline
      · intro idx bit hidx
        rw [hlb idx bit hidx]
        simp only [List.any_cons, hink, Bool.false_and, Bool.false_or]

theorem print_img_rasterline_bits (im : gdImage) (d k : Nat) (h : im.sy ≤ 128) :
    ∃ line, print_img_rasterline im d (64 - ((im.sy / 2 : Nat) : Int)) k = some line ∧
      IsRasterLine line ∧
      ∀ idx bit, idx < 16 →
        ((line.getD idx 0).testBit bit = true ↔
          ∃ i, i < im.sy ∧ is_ink d (gdImageGetPixel im k (im.sy - 1 - i)) = true ∧
            64 - im.sy / 2 + i < 128 ∧
            idx = 15 - (64 - im.sy / 2 + i) / 8 ∧ bit = (64 - im.sy / 2 + i) % 8) := by
  have hzero : IsRasterLine (List.replicate 16 0) := by decide
  obtain ⟨line, hline, hlr, hlb⟩ := print_img_rows_bits im d (64 - ((im.sy / 2 : Nat) : Int)) k
    (List.range im.sy) (List.replicate 16 0) hzero
    (by
      intro i hi
      have := List.mem_range.mp hi
      omega)
  refine ⟨line, hline, hlr, ?_⟩
  intro idx bit hidx
  rw [hlb idx bit hidx]
  have hz : ((List.replicate 16 0).getD idx 0).testBit bit = false := by
    rw [List.getD_eq_getElem?_getD, List.getElem?_replicate]
    simp [hidx]
  rw [hz, Bool.false_or, List.any_eq_true]
  constructor
  · rintro ⟨i, hi, hp⟩
    have hi2 := List.mem_range.mp hi
    have hnat : ((64 : Int) - ((im.sy / 2 : Nat) : Int) + (i : Int)).toNat
        = 64 - im.sy / 2 + i := by omega
    simp only [Bool.and_eq_true, decide_eq_true_eq, hnat] at hp
    exact ⟨i, hi2, hp.1, by omega, hp.2.1, hp.2.2⟩
  · rintro ⟨i, hi, hink, _, h1, h2⟩
    have hnat : ((64 : Int) - ((im.sy / 2 : Nat) : Int) + (i : Int)).toNat
        = 64 - im.sy / 2 + i := by omega
    refine ⟨i, List.mem_range.mpr hi, ?_⟩
    simp only [Bool.and_eq_true, decide_eq_true_eq, hnat]
    exact ⟨hink, h1, h2⟩

theorem print_img_columns_sends (ptdev : ptouch_dev) (im : gdImage) (d : Nat) (offset : Int)
    (hok : ∀ tr call, ptdev.respond tr call = 0) (L : Nat → List Nat) :
    ∀ (ks : List Nat) (w : World),
      (∀ k ∈ ks, print_img_rasterline im d offset k = some (L k)) →
      print_img_columns ptdev im d offset ks w =
        some (0, { trace := w.trace ++ ks.map (fun k => (DevCall.sendraster (L k), (0 : Int))),
                   stderr := w.stderr }) := by
  intro ks
  induction ks with
  | nil => intro w _; simp [print_img_columns]
  | cons k ks ih =>
    intro w hL
    simp only [print_img_columns, hL k (List.mem_cons_self _ _)]
    rw [if_neg (fun hh => hh (ptouch_call_ok ptdev hok _ _)),
      ih _ (fun k2 hk2 => hL k2 (List.mem_cons_of_mem _ hk2))]
    simp [ptouch_call, hok]

theorem print_img_sends_lines (ptdev : ptouch_dev) (im : gdImage) (w : World)
    (hok : ∀ tr call, ptdev.respond tr call = 0)
    (hfit : im.sy ≤ ptouch_getmaxwidth ptdev) (h128 : im.sy ≤ 128) :
    ∃ L : Nat → List Nat,
      print_img ptdev (some im) w =
        some (0, { trace := w.trace ++
                     ((if ptdev.flag_raster_packbits = true
                        then [(DevCall.enable_packbits, (0 : Int))] else []) ++
                      [(DevCall.rasterstart, (0 : Int))] ++
                      (List.range im.sx).map (fun k => (DevCall.sendraster (L k), (0 : Int)))),
                   stderr := w.stderr }) ∧
      ∀ k, k < im.sx → IsRasterLine (L k) ∧
        ∀ idx bit, idx < 16 →
          (((L k).getD idx 0).testBit bit = true ↔
            ∃ i, i < im.sy ∧
              is_ink (darker_index im) (gdImageGetPixel im k (im.sy - 1 - i)) = true ∧
              64 - im.sy / 2 + i < 128 ∧
              idx = 15 - (64 - im.sy / 2 + i) / 8 ∧ bit = (64 - im.sy / 2 + i) % 8) := by
  have hex := fun k => print_img_rasterline_bits im (darker_index im) k h128
  refine ⟨fun k => Classical.choose (hex k), ?_, ?_⟩
  · simp only [print_img]
    rw [if_neg (by omega), if_neg (fun hh => hh (ptouch_call_ok ptdev hok _ _)),
      print_img_columns_sends ptdev im _ _ hok (fun k => Classical.choose (hex k)) _ _
        (fun k _ => (Classical.choose_spec (hex k)).1)]
    by_cases hp : ptdev.flag_raster_packbits = true
    · simp [hp, ptouch_call, hok]
    · simp [hp, ptouch_call, hok]
  · intro k _
    exact (Classical.choose_spec (hex k)).2

/-- C17 (the code at the failing input): a canvas one column wide and 129
pixels high on a device reporting a maximum width of 129 passes the size
check; its only ink pixel, in row 0, is sampled for the row counter `i = 128`
and sent to position `64 - 129/2 + 128 = 128`, which is not below 128, so the
one raster line should be all zero; but `rasterline_setpixel` does not skip
position 128, and `print_img` has no result (out-of-bounds access) instead of
sending the line. -/
theorem print_img_dot_at_position_128 :
    example_dot.sy ≤ ptouch_getmaxwidth (example_device 129 false) ∧
    is_ink (darker_index example_dot) (gdImageGetPixel example_dot 0 (example_dot.sy - 1 - 128))
      = true ∧
    (64 : Int) - ((example_dot.sy / 2 : Nat) : Int) + ((128 : Nat) : Int) = 128 ∧
    print_img_rasterline example_dot (darker_index example_dot)
      (64 - ((example_dot.sy / 2 : Nat) : Int)) 0 = none ∧
    (print_img (example_device 129 false) (some example_dot) World.init).isNone = true := by
  refine ⟨by decide, by decide, by decide, by decide, by decide⟩

/-! ## Theorems: termination of the font-size search -/

theorem find_fontsize_loop_terminates (ft : FontEngine) (font text : String) (want n : Int)
    (hstop : ft.stringFT font n text = none ∨
      ∃ b, ft.stringFT font n text = some b ∧ want < b 1 - b 5) :
    ∀ (fuel : Nat) (i save : Int), i ≤ n → (n - i).toNat < fuel → save < i →
      ∃ r, find_fontsize_loop ft want font text fuel i save = some r ∧
        (r = save ∨ (i ≤ r ∧ r < n)) := by
  intro fuel
  induction fuel with
  | zero => intro i save _ h; omega
  | succ fuel ih =>
    intro i save hin hf hs
    simp only [find_fontsize_loop]
    cases hm : ft.stringFT font i text with
    | none => exact ⟨save, rfl, Or.inl rfl⟩
    | some b =>
      simp only
      by_cases hle : b 1 - b 5 ≤ want
      · rw [if_pos hle]
        have hne : i ≠ n := by
          intro e
          subst e
          rcases hstop with h | ⟨b2, hb2, hlt⟩
          · rw [h] at hm; simp at hm
          · rw [hb2, Option.some.injEq] at hm
            subst hm
            omega
        obtain ⟨r, hr, hrr⟩ := ih (i + 1) i (by omega) (by omega) (by omega)
        exact ⟨r, hr, Or.inr (by omega)⟩
      · rw [if_neg hle]
        exact ⟨save, rfl, Or.inl rfl⟩

theorem find_fontsize_loop_agree (ft ft2 : FontEngine) (font text : String) (want n : Int)
    (hstop : ft.stringFT font n text = none ∨
      ∃ b, ft.stringFT font n text = some b ∧ want < b 1 - b 5)
    (hagree : ∀ i, 4 ≤ i → i ≤ n → ft2.stringFT font i text = ft.stringFT font i text) :
    ∀ (fuel : Nat) (i save : Int), 4 ≤ i → i ≤ n →
      find_fontsize_loop ft2 want font text fuel i save =
        find_fontsize_loop ft want font text fuel i save := by
  intro fuel
  induction fuel with
  | zero => intro i save _ _; rfl
  | succ fuel ih =>
    intro i save h4 hin
    simp only [find_fontsize_loop, hagree i h4 hin]
    cases hm : ft.stringFT font i text with
    | none => rfl
    | some b =>
      simp only
      by_cases hle : b 1 - b 5 ≤ want
      · rw [if_pos hle, if_pos hle]
        have hne : i ≠ n := by
          intro e
          subst e
          rcases hstop with h | ⟨b2, hb2, hlt⟩
          · rw [h] at hm; simp at hm
          · rw [hb2, Option.some.injEq] at hm
            subst hm
            omega
        exact ih (i + 1) i (by omega) (by omega)
      · rw [if_neg hle, if_neg hle]

theorem find_fontsize_loop_never (ft : FontEngine) (font text : String) (want : Int)
    (hacc : ∀ i, 4 ≤ i → ∃ b, ft.stringFT font i text = some b ∧ b 1 - b 5 ≤ want) :
    ∀ (fuel : Nat) (i save : Int), 4 ≤ i →
      find_fontsize_loop ft want font text fuel i save = none := by
  intro fuel
  induction fuel with
  | zero => intro i save _; rfl
  | succ fuel ih =>
    intro i save h4
    obtain ⟨b, hb, hle⟩ := hacc i h4
    simp only [find_fontsize_loop, hb]
    rw [if_pos hle]
    exact ih (i + 1) i (by omega)

/-- C21: the font-size search has no upper bound on the size it tries: for
every size `N ≥ 4` there is an input on which it returns `N`, and on an input
on which every size from 4 on measures within the budget it never returns,
however many iterations it is given.  It terminates whenever there is some
size `n ≥ 4` at which the measurement fails or the measured height exceeds
`want_px`: then with `n - 3` loop iterations or more (one measurement each,
of the sizes `4, 5, ...`, so at most the sizes `4..n`) it returns one and the
same value, that value is below `n`, and it does not depend on what the
measurement gives at sizes outside `4..n`. -/
theorem find_fontsize_terminates :
    (∀ N : Int, 4 ≤ N →
      ∃ (ft : FontEngine) (fuel : Nat), find_fontsize ft fuel N "Helvetica" "label" = some N) ∧
    (∀ (ft : FontEngine) (font text : String) (want_px : Int),
      (∀ i, 4 ≤ i → ∃ b, ft.stringFT font i text = some b ∧ b 1 - b 5 ≤ want_px) →
      ∀ fuel, find_fontsize ft fuel want_px font text = none) ∧
    (∀ (ft : FontEngine) (font text : String) (want_px n : Int), 4 ≤ n →
      (ft.stringFT font n text = none ∨
        ∃ b, ft.stringFT font n text = some b ∧ want_px < b 1 - b 5) →
      (∃ r, r < n ∧
        ∀ fuel : Nat, (n - 3).toNat ≤ fuel →
          find_fontsize ft fuel want_px font text = some r) ∧
      (∀ ft2 : FontEngine,
        (∀ i, 4 ≤ i → i ≤ n → ft2.stringFT font i text = ft.stringFT font i text) →
        ∀ fuel : Nat, find_fontsize ft2 fuel want_px font text =
          find_fontsize ft fuel want_px font text)) := by
  refine ⟨?_, ?_, ?_⟩
  · intro N hN
    refine ⟨example_unbounded_font, (N - 2).toNat, ?_⟩
    have h := find_fontsize_loop_stop example_unbounded_font "Helvetica" "label" N (N + 1)
      (Or.inr ⟨_, rfl, by simp⟩)
      (fun i _ hi => ⟨_, rfl, by simp; omega⟩)
      (N - 2).toNat 4 0 (by omega) (by omega) (by omega)
    simp only [find_fontsize, h]
    rw [if_neg (by omega)]
    simp only [Int.add_sub_cancel]
    rw [if_neg (by omega)]
  · intro ft font text want_px hacc fuel
    simp only [find_fontsize,
      find_fontsize_loop_never ft font text want_px hacc fuel 4 0 (by omega)]
  · intro ft font text want_px n hn hstop
    constructor
    · obtain ⟨s, hs, hsr⟩ := find_fontsize_loop_terminates ft font text want_px n hstop
        (n - 3).toNat 4 0 hn (by omega) (by omega)
      refine ⟨if s = 0 then -1 else s, by split <;> omega, ?_⟩
      intro fuel hfuel
      obtain ⟨s2, hs2, _⟩ := find_fontsize_loop_terminates ft font text want_px n hstop
        fuel 4 0 hn (by omega) (by omega)
      have h1 := find_fontsize_loop_mono ft want_px want_px font text (le_refl _)
        (n - 3).toNat fuel 4 0 s s2 hs hs2 (by omega)
      have h2 := find_fontsize_loop_mono ft want_px want_px font text (le_refl _)
        fuel (n - 3).toNat 4 0 s2 s hs2 hs (by omega)
      have heq : s2 = s := by omega
      simp only [find_fontsize, hs2, heq]
      split <;> rfl
    · intro ft2 hagree fuel
      simp only [find_fontsize,
        find_fontsize_loop_agree ft ft2 font text want_px n hstop hagree fuel 4 0 (by omega) hn]

/-- C21 (witness): with the example font, whose sizes above 40 cannot be
measured, and the budget 10, the size `n = 45` is one at which the measurement
fails; the search returns 10, below 45, with 42 iterations or more. -/
theorem find_fontsize_terminates_witness :
    (4 : Int) ≤ 45 ∧ example_font.stringFT "Helvetica" 45 "label" = none ∧
    (∃ r, r < (45 : Int) ∧
      ∀ fuel : Nat, ((45 : Int) - 3).toNat ≤ fuel →
        find_fontsize example_font fuel 10 "Helvetica" "label" = some r) ∧
    find_fontsize example_font 42 10 "Helvetica" "label" = some 10 := by
  have t := (find_fontsize_terminates.2.2 example_font "Helvetica" "label" 10 45 (by decide)
    (Or.inl rfl)).1
  exact ⟨by decide, rfl, t, by decide⟩

end PtouchPrint
